import Mathlib

/-!
# Metric evaluation engine of rocprofiler (`eval_metrics.cpp`)

A shallow embedding of `src/core/counters/metrics/eval_metrics.cpp`.

* Heap objects (`results_t*`) are addresses into an explicit store; `none` is the null pointer.
* `std::map` is an association list kept in key order, with lookup by key.
* Counter values are `double` in the source.  The embedding is generic in the value type `V`
  and only uses the operations the source applies to it (`+`, conversion from an unsigned
  integer, and the arithmetic of expressions).
* Machine integers are natural numbers, reduced modulo `2 ^ 32` or `2 ^ 64` where the source
  computes in `uint32_t` or `size_t`.
* A call either returns, or ends in a `Fault`: `fatal` for `rocprofiler::fatal` / `abort`,
  `undefined` for behaviour the C++ standard leaves undefined.
-/

namespace rocprofiler

/-! ## Machine integers and faults -/

/-- Number of values of a `uint32_t`. -/
def UINT32_SIZE : Nat := 4294967296

/-- Number of values of a `size_t` / `uint64_t`. -/
def UINT64_SIZE : Nat := 18446744073709551616

/-- Abnormal ends of a call. -/
inductive Fault where
  /-- The call reached `rocprofiler::fatal` or `abort()`. -/
  | fatal (msg : String)
  /-- The call reached undefined behaviour; `msg` says where. -/
  | undefined (msg : String)
  deriving DecidableEq, Repr

/-! ## Events, block descriptors -/

/-- The type `hsa_ven_amd_aqlprofile_event_t` (alias `event_t`): a hardware counter source. -/
structure event_t where
  block_name : Nat
  block_index : Nat
  counter_id : Nat
  deriving DecidableEq, Repr

/-- The value-initialised event `{}`. -/
def event_t.zero : event_t := ⟨0, 0, 0⟩

structure block_des_t where
  id : Nat
  index : Nat
  deriving DecidableEq, Repr

/-- The comparator `lt_block_des::operator()`. -/
def lt_block_des (a1 a2 : block_des_t) : Bool :=
  (a1.id < a2.id) || ((a1.id == a2.id) && (a1.index < a2.index))

structure block_status_t where
  max_counters : Nat
  counter_index : Nat
  group_index : Nat
  deriving DecidableEq, Repr

/-- The value-initialised block status `{}`. -/
def block_status_t.zero : block_status_t := ⟨0, 0, 0⟩

/-- A `results_t*`: `none` is `NULL`, `some a` the address of a heap object. -/
abbrev Ptr := Option Nat

structure callback_data_t where
  /-- The vector that `results` points to. -/
  results : List Ptr
  index : Nat
  single_xcc_buff_size : Nat
  umc_buff_size : Nat
  deriving DecidableEq, Repr

def IsEventMatch (event1 event2 : event_t) : Bool :=
  (event1.block_name == event2.block_name) && (event1.block_index == event2.block_index) &&
    (event1.counter_id == event2.counter_id)

/-- The function `calculate_xcc_index`.  The sum is a `uint32_t` sum; the quotient is an integer
division in `size_t` (undefined for a zero divisor); `1 + floor(...)` is a `double` that is
converted to `uint32_t`, which is undefined when the value does not fit. -/
def calculate_xcc_index (passed_data : callback_data_t) : Except Fault Nat :=
  let xcc_zero_size := (passed_data.umc_buff_size + passed_data.single_xcc_buff_size) % UINT32_SIZE
  if passed_data.index ≥ xcc_zero_size then
    if passed_data.single_xcc_buff_size = 0 then
      .error (.undefined "calculate_xcc_index: division by zero")
    else
      let xcc_index := 1 + (passed_data.index - xcc_zero_size) / passed_data.single_xcc_buff_size
      if xcc_index < UINT32_SIZE then .ok xcc_index
      else .error (.undefined "calculate_xcc_index: double to uint32_t conversion out of range")
  else .ok 0

/-! ## Heap objects: `results_t` -/

/-- Modelled from the spec: the type `results_t` declared in `eval_metrics.h`, which is not among
the sources: the result's name, its associated event, the total value `val_double` and the
per-partition values `xcc_vals`. -/
structure results_t (V : Type) where
  name : String
  event : event_t
  val_double : V
  xcc_vals : List V
  deriving DecidableEq, Repr

/-- Modelled from the spec: the constructor `results_t(name, event, xcc_count)` declared in
`eval_metrics.h`: an accumulator whose total is zero and whose per-partition sequence has
`xcc_count` zero entries. -/
def results_t.new {V : Type} [NatCast V] (name : String) (event : event_t) (xcc_count : Nat) :
    results_t V :=
  { name := name, event := event, val_double := ((0 : Nat) : V),
    xcc_vals := List.replicate xcc_count ((0 : Nat) : V) }

/-- A result as the constructor leaves it for `xcc_count` partitions, with the event that was
stored in it. -/
def results_t.fresh {V : Type} [NatCast V] (xcc_count : Nat) (r : results_t V) : Prop :=
  r = results_t.new r.name r.event xcc_count

/-- The store of `results_t` objects; the object at address `a` is the `a`-th entry. -/
abbrev Heap (V : Type) := List (results_t V)

/-- Reading through a pointer: `none` for `NULL` and for an address that holds no object. -/
def Heap.deref {V : Type} (h : Heap V) : Ptr → Option (results_t V)
  | none => none
  | some a => h[a]?

/-- The statement `new results_t(...)`: the object is placed at a fresh address. -/
def Heap.alloc {V : Type} (h : Heap V) (r : results_t V) : Heap V × Nat :=
  (h ++ [r], h.length)

/-! ## `std::map` and `std::set` -/

/-- A `std::map<K, α>`: the entries in key order. -/
abbrev StdMap (K α : Type) := List (K × α)

/-- The member `find`: the mapped value, or `none` for `end()`. -/
def StdMap.find {K α : Type} [DecidableEq K] : StdMap K α → K → Option α
  | [], _ => none
  | (k1, v) :: t, k => if k1 = k then some v else StdMap.find t k

/-- The assignment `m[k] = v`, for the key order `lt`. -/
def StdMap.assign {K α : Type} [DecidableEq K] (lt : K → K → Bool) :
    StdMap K α → K → α → StdMap K α
  | [], k, v => [(k, v)]
  | (k1, v1) :: t, k, v =>
    if k1 = k then (k, v) :: t
    else if lt k k1 then (k, v) :: (k1, v1) :: t
    else (k1, v1) :: StdMap.assign lt t k v

/-- The members `insert` / `emplace`: nothing changes when the key is present. -/
def StdMap.emplace {K α : Type} [DecidableEq K] (lt : K → K → Bool)
    (m : StdMap K α) (k : K) (v : α) : StdMap K α :=
  match StdMap.find m k with
  | some _ => m
  | none => StdMap.assign lt m k v

/-- Key order of `std::map<std::string, _>`: lexicographic on the characters. -/
def lt_string (a b : String) : Bool := decide (a.data < b.data)

/-- Key order of `std::map<std::pair<uint32_t, uint32_t>, _>`. -/
def lt_pair (a b : Nat × Nat) : Bool :=
  (a.1 < b.1) || ((a.1 == b.1) && (a.2 < b.2))

/-- The member `std::set<std::string>::insert`, on the elements in order. -/
def StdSet.insert : List String → String → List String
  | [], k => [k]
  | k1 :: t, k =>
    if k1 = k then k1 :: t
    else if lt_string k k1 then k :: k1 :: t
    else k1 :: StdSet.insert t k

/-! ## `pmcCallback` -/

inductive hsa_status_t where
  | HSA_STATUS_SUCCESS
  | HSA_STATUS_ERROR
  deriving DecidableEq, Repr

inductive hsa_ven_amd_aqlprofile_info_type_t where
  | HSA_VEN_AMD_AQLPROFILE_INFO_PMC_DATA
  | HSA_VEN_AMD_AQLPROFILE_INFO_TRACE_DATA
  deriving DecidableEq, Repr

/-- The member `pmc_data` of `hsa_ven_amd_aqlprofile_info_data_t`: an event and its `uint64_t`
sample. -/
structure pmc_data_t where
  event : event_t
  result : Nat
  deriving DecidableEq, Repr

/-- What one `pmcCallback` invocation works on: the heap, the callback data and the text
written to `std::cout`. -/
structure PmcState (V : Type) where
  heap : Heap V
  data : callback_data_t
  cout : List String

/-- The `for` loop of `pmcCallback` over the rest `ps` of `passed_data->results`.  The second
component is `true` when `xcc_vals.at` threw `std::out_of_range`, which leaves the loop. -/
def pmcLoop {V : Type} [Add V] [NatCast V]
    (info_type : hsa_ven_amd_aqlprofile_info_type_t) (pmc_data : pmc_data_t)
    (passed_data : callback_data_t) : List Ptr → Heap V → Except Fault (Heap V × Bool)
  | [], h => .ok (h, false)
  | p :: ps, h =>
    if info_type ≠ .HSA_VEN_AMD_AQLPROFILE_INFO_PMC_DATA then
      pmcLoop info_type pmc_data passed_data ps h
    else
      match p, Heap.deref h p with
      | some a, some r =>
        if !IsEventMatch pmc_data.event r.event then
          pmcLoop info_type pmc_data passed_data ps h
        else
          match calculate_xcc_index passed_data with
          | .error f => .error f
          | .ok xcc_index =>
            match r.xcc_vals[xcc_index]? with
            | none => .ok (h, true)
            | some x =>
              pmcLoop info_type pmc_data passed_data ps
                (h.set a { r with xcc_vals := r.xcc_vals.set xcc_index (x + (pmc_data.result : V)),
                                  val_double := r.val_double + (pmc_data.result : V) })
      | _, _ => .error (.undefined "pmcCallback: invalid results_t pointer")

/-- The function `pmcCallback`: the returned status and the state it leaves.  When the loop
left with an exception, one line is written to `std::cout`; it ends with the text of
`e.what()`, which the C++ library chooses and for which `out_of_range` stands here. -/
def pmcCallback {V : Type} [Add V] [NatCast V]
    (info_type : hsa_ven_amd_aqlprofile_info_type_t) (pmc_data : pmc_data_t)
    (st : PmcState V) : Except Fault (hsa_status_t × PmcState V) :=
  match pmcLoop info_type pmc_data st.data st.data.results st.heap with
  | .error f => .error f
  | .ok (h, thrown) =>
    .ok (.HSA_STATUS_SUCCESS,
      { heap := h,
        data := { st.data with index := (st.data.index + 1) % UINT64_SIZE },
        cout := if thrown then
                  st.cout ++ ["caught an exception in eval_metrics.cpp:pmcCallback(): out_of_range"]
                else st.cout })

/-! ## Expressions, counters, metrics -/

/-- The member `MetricArgs::Lookup` over the map `map_`.  `.ok (some v)`: it returned `true`
with `result = v`; `.ok none`: it returned `false` and left `result` alone.  For a name that is
not a key it prints the message and then reads `it->second` through the `end()` iterator. -/
def Lookup {V : Type} (heap : Heap V) (map_ : StdMap String Ptr) (name : String) :
    Except Fault (Option V) :=
  match StdMap.find map_ name with
  | none => .error (.undefined ("var '" ++ name ++ "' is not found"))
  | some none => .ok none
  | some (some a) =>
    match heap[a]? with
    | some counter_result => .ok (some counter_result.val_double)
    | none => .error (.undefined "Lookup: invalid results_t pointer")

/-- Modelled from the spec: the expression type `xml::Expr`, which is not among the sources: the
arithmetic expressions over numbers and named variables. -/
inductive Expr (V : Type) where
  | num (c : V)
  | var (name : String)
  | add (a b : Expr V)
  | sub (a b : Expr V)
  | mul (a b : Expr V)
  | div (a b : Expr V)
  deriving DecidableEq, Repr

/-- Modelled from the spec: the member `xml::Expr::Eval`, which is not among the sources.  A
variable takes the value that the lookup context `args` yields for its name; a lookup that
reports no success is a fatal error. -/
def Expr.Eval {V : Type} [Add V] [Sub V] [Mul V] [Div V]
    (args : String → Except Fault (Option V)) : Expr V → Except Fault V
  | .num c => .ok c
  | .var name =>
    match args name with
    | .error f => .error f
    | .ok none => .error (.fatal ("expr::eval: lookup failed, var '" ++ name ++ "'"))
    | .ok (some v) => .ok v
  | .add a b =>
    match Expr.Eval args a, Expr.Eval args b with
    | .ok x, .ok y => .ok (x + y)
    | .error f, _ => .error f
    | _, .error f => .error f
  | .sub a b =>
    match Expr.Eval args a, Expr.Eval args b with
    | .ok x, .ok y => .ok (x - y)
    | .error f, _ => .error f
    | _, .error f => .error f
  | .mul a b =>
    match Expr.Eval args a, Expr.Eval args b with
    | .ok x, .ok y => .ok (x * y)
    | .error f, _ => .error f
    | _, .error f => .error f
  | .div a b =>
    match Expr.Eval args a, Expr.Eval args b with
    | .ok x, .ok y => .ok (x / y)
    | .error f, _ => .error f
    | _, .error f => .error f

/-- Modelled from the spec: the type `counter_t` of the metric catalog, which is not among the
sources: a named wrapper around one event. -/
structure counter_t where
  name : String
  event : event_t
  deriving DecidableEq, Repr

/-- Modelled from the spec: the type `Metric` of the metric catalog, which is not among the
sources, with what `GetName`, `GetCounters` and `GetExpr` return (`none` for a null `Expr*`). -/
structure Metric (V : Type) where
  name : String
  counters : List counter_t
  expr : Option (Expr V)
  deriving DecidableEq, Repr

/-! ## `ExtractMetricEvents` -/

/-- The variables `ExtractMetricEvents` works on: the heap, its five output collections, the
local `groups_map` and the text written to `std::cerr`. -/
structure ExtractState (V : Type) where
  heap : Heap V
  results_map : StdMap String Ptr
  events_list : List event_t
  results_list : List Ptr
  event_to_max_block_count : StdMap (Nat × Nat) Nat
  metrics_counters : StdMap String (List String)
  groups_map : StdMap block_des_t block_status_t
  cerr : List String

/-- One pass of the loop `for (const counter_t* counter : counters_vec)` (lines 151-190).
The pointer `result` refers to the object `fresh` that the pass allocated, so the assignment
`result->event = counter->event` stores `fresh` with that event at its address.  `get_info` is
the hardware query `hsa_ven_amd_aqlprofile_get_info(.., BLOCK_COUNTERS, ..)` for the counter's
event, `none` when its status is not success.  The Boolean is `false` when the pass executed
`return false`. -/
def extractCounter {V : Type} [NatCast V] (xcc_count : Nat) (get_info : event_t → Option Nat)
    (counter : counter_t) (s : ExtractState V) : Except Fault (Bool × ExtractState V) :=
  match StdMap.find s.results_map counter.name with
  | some _ => .ok (true, s)
  | none =>
    let fresh : results_t V := results_t.new counter.name event_t.zero xcc_count
    let (heap1, result) := Heap.alloc s.heap fresh
    let results_map1 := StdMap.assign lt_string s.results_map counter.name (some result)
    let event := counter.event
    let block_des : block_des_t := ⟨event.block_name, event.block_index⟩
    let groups_map1 := StdMap.emplace lt_block_des s.groups_map block_des block_status_t.zero
    let block_status := (StdMap.find groups_map1 block_des).getD block_status_t.zero
    let queried : Except Fault block_status_t :=
      if block_status.max_counters = 0 then
        match get_info event with
        | none => .error (.fatal "get block_counters info failed")
        | some max_block_counters =>
          .ok { block_status with max_counters := max_block_counters % UINT32_SIZE }
      else .ok block_status
    match queried with
    | .error f => .error f
    | .ok block_status1 =>
      if block_status1.counter_index ≥ block_status1.max_counters then
        .ok (false,
          { s with
            heap := heap1
            results_map := results_map1
            groups_map := StdMap.assign lt_block_des groups_map1 block_des block_status1
            cerr := s.cerr ++ ["Error: " ++
              String.mk (counter.name.data.takeWhile (fun c => c != '_')) ++
              " exceeded hardware block counters limit (" ++
              toString block_status1.max_counters ++ ")"] })
      else
        let block_status2 : block_status_t :=
          { block_status1 with counter_index := (block_status1.counter_index + 1) % UINT32_SIZE }
        .ok (true,
          { s with
            heap := heap1.set result { fresh with event := counter.event }
            results_map := results_map1
            events_list := s.events_list ++ [counter.event]
            results_list := s.results_list ++ [some result]
            event_to_max_block_count :=
              StdMap.emplace lt_pair s.event_to_max_block_count
                (counter.event.block_name, counter.event.block_index) block_status2.max_counters
            groups_map := StdMap.assign lt_block_des groups_map1 block_des block_status2 })

/-- The loop `for (const counter_t* counter : counters_vec)`. -/
def extractCounters {V : Type} [NatCast V] (xcc_count : Nat) (get_info : event_t → Option Nat) :
    List counter_t → ExtractState V → Except Fault (Bool × ExtractState V)
  | [], s => .ok (true, s)
  | counter :: rest, s =>
    match extractCounter xcc_count get_info counter s with
    | .error f => .error f
    | .ok (false, s1) => .ok (false, s1)
    | .ok (true, s1) => extractCounters xcc_count get_info rest s1

/-- The body of the loop over `metric_names` (lines 120-191) for the name `metric_name`;
`metrics_dict` is `MetricsDict::Get`, `none` for a null `Metric*`. -/
def extractMetric {V : Type} [NatCast V] (xcc_count : Nat) (get_info : event_t → Option Nat)
    (metrics_dict : String → Option (Metric V)) (metric_name : String) (s : ExtractState V) :
    Except Fault (Bool × ExtractState V) :=
  match metrics_dict metric_name with
  | none =>
    .error (.fatal ("input metric'" ++ metric_name ++ "' not supported on this hardware"))
  | some metric =>
    if metric_name = "KERNEL_DURATION" then
      match StdMap.find s.results_map metric_name with
      | none =>
        let (heap1, result) := Heap.alloc s.heap (results_t.new metric_name event_t.zero xcc_count)
        .ok (true, { s with heap := heap1
                            results_map :=
                              StdMap.assign lt_string s.results_map metric_name (some result) })
      | some _ => .ok (true, s)
    else
      let counters_vec := metric.counters
      if counters_vec.isEmpty then
        .error (.fatal ("bad metric '" ++ metric_name ++ "' is empty"))
      else
        let s1 : ExtractState V :=
          match metric.expr, StdMap.find s.results_map metric_name with
          | some _, none =>
            let (heap1, result) :=
              Heap.alloc s.heap (results_t.new metric_name event_t.zero xcc_count)
            { s with
              heap := heap1
              results_map := StdMap.assign lt_string s.results_map metric_name (some result)
              metrics_counters :=
                counters_vec.foldl
                  (fun mc counter =>
                    StdMap.assign lt_string mc metric.name
                      (StdSet.insert ((StdMap.find mc metric.name).getD []) counter.name))
                  s.metrics_counters }
          | _, _ => s
        extractCounters xcc_count get_info counters_vec s1

/-- The loop `for (size_t i = 0; i < metric_names.size(); i++)`. -/
def extractMetrics {V : Type} [NatCast V] (xcc_count : Nat) (get_info : event_t → Option Nat)
    (metrics_dict : String → Option (Metric V)) :
    List String → ExtractState V → Except Fault (Bool × ExtractState V)
  | [], s => .ok (true, s)
  | metric_name :: rest, s =>
    match extractMetric xcc_count get_info metrics_dict metric_name s with
    | .error f => .error f
    | .ok (false, s1) => .ok (false, s1)
    | .ok (true, s1) => extractMetrics xcc_count get_info metrics_dict rest s1

/-- The function `metrics::ExtractMetricEvents`.  `xcc_count` is what `getXccCount()` reports
for the agent; the collections passed by reference and the heap come in as `s`, whose
`groups_map` and `cerr` are replaced by the empty local map and an empty stream.  The result is
the returned Boolean with the collections as the call leaves them. -/
def ExtractMetricEvents {V : Type} [NatCast V] (metric_names : List String) (xcc_count : Nat)
    (get_info : event_t → Option Nat) (metrics_dict : String → Option (Metric V))
    (s : ExtractState V) : Except Fault (Bool × ExtractState V) :=
  extractMetrics xcc_count get_info metrics_dict metric_names
    { s with groups_map := [], cerr := [] }

/-- The state of a caller that passes empty output collections. -/
def ExtractState.empty {V : Type} : ExtractState V :=
  { heap := [], results_map := [], events_list := [], results_list := [],
    event_to_max_block_count := [], metrics_counters := [], groups_map := [], cerr := [] }

/-! ## `GetCounterData` -/

/-- The fields of `hsa_ven_amd_aqlprofile_profile_t` that the engine reads: the events
(`events`, `event_count`) and `output_buffer.size`, a `uint32_t`. -/
structure profile_t where
  events : List event_t
  output_buffer_size : Nat
  deriving DecidableEq, Repr

/-- The function `get_umc_and_xcc_sample_count`; `BLOCK_NAME_UMC` is the enumerator
`HSA_VEN_AMD_AQLPROFILE_BLOCK_NAME_UMC`.  The subtraction and the product are `uint32_t`
operations, the division is an integer division by `sizeof(uint64_t) * xcc_num`, undefined for
a zero divisor.  The pair is `(xcc_sample_count, umc_sample_count)`. -/
def get_umc_and_xcc_sample_count (BLOCK_NAME_UMC : Nat) (profile : profile_t) (xcc_num : Nat) :
    Except Fault (Nat × Nat) :=
  let UMC_SAMPLE_BYTE_SIZE := 8
  let umc_sample_count :=
    if xcc_num > 1 then
      profile.events.foldl
        (fun count p => if p.block_name = BLOCK_NAME_UMC then (count + 1) % UINT32_SIZE else count) 0
    else 0
  if 8 * xcc_num = 0 then
    .error (.undefined "get_umc_and_xcc_sample_count: division by zero")
  else
    let xcc_sample_count :=
      ((profile.output_buffer_size + UINT32_SIZE -
          (umc_sample_count * UMC_SAMPLE_BYTE_SIZE) % UINT32_SIZE) % UINT32_SIZE) /
        (8 * xcc_num) % UINT32_SIZE
    .ok (xcc_sample_count, umc_sample_count)

/-- Modelled from the spec: the hardware primitive `hsa_ven_amd_aqlprofile_iterate_data`, which
invokes the callback once per delivered pair, in buffer order; `delivered` are the pairs. -/
def iterate_data {V : Type} [Add V] [NatCast V] :
    List (hsa_ven_amd_aqlprofile_info_type_t × pmc_data_t) → PmcState V →
      Except Fault (PmcState V)
  | [], st => .ok st
  | (info_type, pmc_data) :: rest, st =>
    match pmcCallback info_type pmc_data st with
    | .error f => .error f
    | .ok (.HSA_STATUS_SUCCESS, st1) => iterate_data rest st1
    | .ok (.HSA_STATUS_ERROR, st1) => .ok st1

/-- The function `metrics::GetCounterData`.  `xcc_count` is what `getXccCount()` reports;
`delivered` and `hw_status` are the pairs that the hardware iteration delivers for `profile`
and the status it returns. -/
def GetCounterData {V : Type} [Add V] [NatCast V] (BLOCK_NAME_UMC : Nat) (xcc_count : Nat)
    (profile : profile_t) (delivered : List (hsa_ven_amd_aqlprofile_info_type_t × pmc_data_t))
    (hw_status : hsa_status_t) (results_list : List Ptr) (heap : Heap V) :
    Except Fault (Bool × PmcState V) :=
  match get_umc_and_xcc_sample_count BLOCK_NAME_UMC profile xcc_count with
  | .error f => .error f
  | .ok umc_count_and_xcc_sample_count =>
    let single_xcc_buff_size := umc_count_and_xcc_sample_count.1
    let umc_buff_size := umc_count_and_xcc_sample_count.2
    let callback_data : callback_data_t :=
      { results := results_list, index := 0,
        single_xcc_buff_size := single_xcc_buff_size, umc_buff_size := umc_buff_size }
    match iterate_data delivered { heap := heap, data := callback_data, cout := [] } with
    | .error f => .error f
    | .ok st => .ok (decide (hw_status = .HSA_STATUS_SUCCESS), st)

/-! ## `GetMetricsData` and `GetCountersAndMetricResultsByXcc` -/

/-- The assignment `res->val_double = v` through the pointer `res`. -/
def set_val_double {V : Type} (heap : Heap V) (res : Ptr) (v : V) : Except Fault (Heap V) :=
  match res, Heap.deref heap res with
  | some a, some r => .ok (heap.set a { r with val_double := v })
  | _, _ => .error (.undefined "invalid results_t pointer")

/-- The body of the loop of `GetMetricsData` for one metric. -/
def evalMetric {V : Type} [Add V] [Sub V] [Mul V] [Div V] [NatCast V]
    (results_map : StdMap String Ptr) (kernel_duration : Nat) (metric : Metric V)
    (heap : Heap V) : Except Fault (Heap V) :=
  match metric.expr with
  | none => .ok heap
  | some expr =>
    match StdMap.find results_map metric.name with
    | none => .error (.fatal "metric results not found ")
    | some res =>
      if metric.name = "KERNEL_DURATION" then
        set_val_double heap res (kernel_duration : V)
      else
        match expr.Eval (Lookup heap results_map) with
        | .error f => .error f
        | .ok v => set_val_double heap res v

/-- The loop `for (auto& metric : metrics_list)` of `GetMetricsData`. -/
def evalMetrics {V : Type} [Add V] [Sub V] [Mul V] [Div V] [NatCast V]
    (results_map : StdMap String Ptr) (kernel_duration : Nat) :
    List (Metric V) → Heap V → Except Fault (Heap V)
  | [], heap => .ok heap
  | metric :: rest, heap =>
    match evalMetric results_map kernel_duration metric heap with
    | .error f => .error f
    | .ok heap1 => evalMetrics results_map kernel_duration rest heap1

/-- The function `metrics::GetMetricsData`: the returned Boolean and the heap it leaves. -/
def GetMetricsData {V : Type} [Add V] [Sub V] [Mul V] [Div V] [NatCast V]
    (heap : Heap V) (results_map : StdMap String Ptr) (metrics_list : List (Metric V))
    (kernel_duration : Nat) : Except Fault (Bool × Heap V) :=
  match evalMetrics results_map kernel_duration metrics_list heap with
  | .error f => .error f
  | .ok heap1 => .ok (true, heap1)

/-- The statement `p->val_double = p->xcc_vals[xcc_index]`; the unchecked `operator[]` is
undefined outside the sequence. -/
def set_val_to_xcc {V : Type} (xcc_index : Nat) (heap : Heap V) (p : Ptr) :
    Except Fault (Heap V) :=
  match p, Heap.deref heap p with
  | some a, some r =>
    match r.xcc_vals[xcc_index]? with
    | some x => .ok (heap.set a { r with val_double := x })
    | none => .error (.undefined "xcc_vals[xcc_index] out of range")
  | _, _ => .error (.undefined "invalid results_t pointer")

/-- The two `for` loops of `GetCountersAndMetricResultsByXcc`, over the pointers `ps`. -/
def set_vals_to_xcc {V : Type} (xcc_index : Nat) : List Ptr → Heap V → Except Fault (Heap V)
  | [], heap => .ok heap
  | p :: ps, heap =>
    match set_val_to_xcc xcc_index heap p with
    | .error f => .error f
    | .ok heap1 => set_vals_to_xcc xcc_index ps heap1

/-- The function `metrics::GetCountersAndMetricResultsByXcc`: the heap it leaves. -/
def GetCountersAndMetricResultsByXcc {V : Type} [Add V] [Sub V] [Mul V] [Div V] [NatCast V]
    (xcc_index : Nat) (heap : Heap V) (results_list : List Ptr)
    (results_map : StdMap String Ptr) (metrics_list : List (Metric V)) (kernel_duration : Nat) :
    Except Fault (Heap V) :=
  match set_vals_to_xcc xcc_index results_list heap with
  | .error f => .error f
  | .ok heap1 =>
    match set_vals_to_xcc xcc_index (results_map.map Prod.snd) heap1 with
    | .error f => .error f
    | .ok heap2 =>
      match GetMetricsData heap2 results_map metrics_list kernel_duration with
      | .error f => .error f
      | .ok (_, heap3) => .ok heap3

/-! ## Session registry (`rocprofiler_singleton.cpp`) -/

/-- Modelled from the spec: the replay modes of `rocprofiler_replay_mode_t`, whose declaration
is not among the sources: application, kernel and user-driven replay. -/
inductive rocprofiler_replay_mode_t where
  | ROCPROFILER_APPLICATION_REPLAY_MODE
  | ROCPROFILER_KERNEL_REPLAY_MODE
  | ROCPROFILER_USER_REPLAY_MODE
  deriving DecidableEq, Repr

/-- Modelled from the spec: the class `Session`, which is not among the sources, as what its
constructor `Session(replay_mode, session_id)` receives. -/
structure Session where
  replay_mode : rocprofiler_replay_mode_t
  session_id : Nat
  deriving DecidableEq, Repr

/-- Abnormal ends of a call into the registry. -/
inductive SessionFault where
  /-- An `assert` failed and aborted the process. -/
  | assertion_failed (msg : String)
  /-- The member `std::map::at` threw `std::out_of_range`. -/
  | out_of_range
  /-- The busy-wait of `DestroySession` does not end. -/
  | busy_wait
  deriving DecidableEq, Repr

/-- Key order of `std::map<uint64_t, _>`. -/
def lt_uint64 (a b : Nat) : Bool := decide (a < b)

/-- The member `erase(key)`. -/
def StdMap.erase {K α : Type} [DecidableEq K] (m : StdMap K α) (k : K) : StdMap K α :=
  m.filter (fun e => decide (e.1 ≠ k))

/-- The members of `ROCProfiler_Singleton` that the session operations use, together with two
pieces of process state that they read.  A `Session*` of the table is modelled by the object
it points to (`none` is the null pointer); the table owns its objects, so `delete` of an entry
that is erased has no further effect. -/
structure ROCProfiler_Singleton where
  sessions_ : StdMap Nat (Option Session)
  current_session_id_ : Nat
  records_counter_ : Nat
  kernel_dispatch_counter_ : Nat
  /-- The state of `GenerateUniqueSessionId`: the next identifier. -/
  session_id_counter : Nat
  /-- What `GetCurrentActiveInterruptSignalsCount` reports. -/
  active_interrupt_signals : Nat
  deriving DecidableEq, Repr

/-- The constructor: no current session (`current_session_id_` is 0) and an empty table.  The
initial values of the two record counters are declared in `rocprofiler_singleton.h`, which is
not among the sources, and come in as parameters. -/
def ROCProfiler_Singleton.new (records_counter dispatch_counter : Nat) : ROCProfiler_Singleton :=
  { sessions_ := [], current_session_id_ := 0, records_counter_ := records_counter,
    kernel_dispatch_counter_ := dispatch_counter, session_id_counter := 1,
    active_interrupt_signals := 0 }

/-- Modelled from the spec: the function `GenerateUniqueSessionId`, which is not among the
sources: identifiers are monotonically increasing unsigned (64-bit) integers, a fresh one per
call, and 0 is reserved for "no current session", so the first one is 1. -/
def GenerateUniqueSessionId (self : ROCProfiler_Singleton) : Nat × ROCProfiler_Singleton :=
  (self.session_id_counter,
    { self with session_id_counter := (self.session_id_counter + 1) % UINT64_SIZE })

def FindSession (self : ROCProfiler_Singleton) (session_id : Nat) : Bool :=
  (StdMap.find self.sessions_ session_id).isSome

def CreateSession (self : ROCProfiler_Singleton) (replay_mode : rocprofiler_replay_mode_t) :
    Nat × ROCProfiler_Singleton :=
  let (session_id, self1) := GenerateUniqueSessionId self
  (session_id,
    { self1 with
      sessions_ := StdMap.emplace lt_uint64 self1.sessions_ session_id
        (some ⟨replay_mode, session_id⟩) })

/-- The function `DestroySession`; `assertions` says whether `assert` is compiled in (no
`NDEBUG`).  The loop on the interrupt signal count ends only when the count is 0. -/
def DestroySession (assertions : Bool) (self : ROCProfiler_Singleton) (session_id : Nat) :
    Except SessionFault ROCProfiler_Singleton :=
  if self.active_interrupt_signals ≠ 0 then .error .busy_wait
  else
    match StdMap.find self.sessions_ session_id with
    | none =>
      if assertions then
        .error (.assertion_failed "Error: Couldn't find a created session with given id")
      else .error .out_of_range
    | some _ => .ok { self with sessions_ := StdMap.erase self.sessions_ session_id }

/-- The function `GetSession`: the returned `Session*` and the registry it leaves;
`assertions` says whether `assert` is compiled in. -/
def GetSession (assertions : Bool) (self : ROCProfiler_Singleton) (session_id : Nat) :
    Except SessionFault (Option Session) × ROCProfiler_Singleton :=
  match StdMap.find self.sessions_ session_id with
  | none =>
    (if assertions then .error (.assertion_failed "Error: Can't find the session!")
      else .error .out_of_range, self)
  | some session => (.ok session, self)

def GetCurrentSessionId (self : ROCProfiler_Singleton) : Nat := self.current_session_id_

def SetCurrentActiveSession (self : ROCProfiler_Singleton) (session_id : Nat) :
    ROCProfiler_Singleton :=
  { self with current_session_id_ := session_id }

def HasActiveSession (self : ROCProfiler_Singleton) : Bool :=
  decide (GetCurrentSessionId self > 0)

def IsActiveSession (self : ROCProfiler_Singleton) (session_id : Nat) : Bool :=
  decide (GetCurrentSessionId self = session_id)

/-- The function `GetUniqueRecordId`: `fetch_add(1)` on a 64-bit counter. -/
def GetUniqueRecordId (self : ROCProfiler_Singleton) : Nat × ROCProfiler_Singleton :=
  (self.records_counter_,
    { self with records_counter_ := (self.records_counter_ + 1) % UINT64_SIZE })

/-- The function `GetUniqueKernelDispatchId`: `fetch_add(1)` on a 64-bit counter. -/
def GetUniqueKernelDispatchId (self : ROCProfiler_Singleton) : Nat × ROCProfiler_Singleton :=
  (self.kernel_dispatch_counter_,
    { self with
      kernel_dispatch_counter_ := (self.kernel_dispatch_counter_ + 1) % UINT64_SIZE })

/-- The values that `n` successive calls of `f` return, and the registry they leave. -/
def successive_calls (f : ROCProfiler_Singleton → Nat × ROCProfiler_Singleton) :
    Nat → ROCProfiler_Singleton → List Nat × ROCProfiler_Singleton
  | 0, self => ([], self)
  | n + 1, self =>
    let (id, self1) := f self
    let (ids, self2) := successive_calls f n self1
    (id :: ids, self2)

/-- A call of a client of the registry: create a session, or destroy the session whose
identifier the `k`-th `CreateSession` call returned. -/
inductive SessionOp where
  | create (replay_mode : rocprofiler_replay_mode_t)
  | destroy (k : Nat)
  deriving DecidableEq, Repr

/-- The number of `CreateSession` calls of a sequence. -/
def creates : List SessionOp → Nat
  | [] => 0
  | .create _ :: ops => creates ops + 1
  | .destroy _ :: ops => creates ops

/-- Every `destroy` follows its own `create` and every created session is destroyed once;
`created` sessions exist already, of which those in `destroyed` are destroyed. -/
def well_paired : List SessionOp → Nat → List Nat → Bool
  | [], created, destroyed => (List.range created).all (fun k => decide (k ∈ destroyed))
  | .create _ :: ops, created, destroyed => well_paired ops (created + 1) destroyed
  | .destroy k :: ops, created, destroyed =>
    decide (k < created) && decide (k ∉ destroyed) && well_paired ops created (k :: destroyed)

/-- The calls of a sequence, one after the other; `issued` are the identifiers returned so
far.  The result is `none` when a call fails or a `destroy` names a session that was not
created. -/
def run_session_ops (assertions : Bool) :
    List SessionOp → ROCProfiler_Singleton → List Nat → Option (ROCProfiler_Singleton × List Nat)
  | [], self, issued => some (self, issued)
  | .create replay_mode :: ops, self, issued =>
    let (session_id, self1) := CreateSession self replay_mode
    run_session_ops assertions ops self1 (issued ++ [session_id])
  | .destroy k :: ops, self, issued =>
    match issued[k]? with
    | none => none
    | some session_id =>
      match DestroySession assertions self session_id with
      | .error _ => none
      | .ok self1 => run_session_ops assertions ops self1 issued

/-! ## The type `double` -/

/-- A value of the C++ type `double` (IEEE 754 binary64): not a number, an infinity, or the
finite value `(-1)^neg * m * 2^e`, kept with `m` odd, or with `m = 0` and `e = 0` for a
zero. -/
inductive double where
  | nan
  | inf (neg : Bool)
  | fin (neg : Bool) (m : Nat) (e : Int)
  deriving DecidableEq, Repr

/-- The position of the highest set bit of `n`, which is 0 for `n < 2`; `fuel` bounds the
number of halvings. -/
def double.log2 : Nat → Nat → Nat
  | 0, _ => 0
  | fuel + 1, n => if n < 2 then 0 else double.log2 fuel (n / 2) + 1

/-- The finite double `(-1)^neg * m * 2^e` for `0 < m <= 2^53`, with the factors 2 of `m`
moved into the exponent. -/
def double.normal (neg : Bool) (m : Nat) (e : Int) : double :=
  if m = 0 then .fin neg 0 0
  else
    let t := double.log2 64 (Nat.gcd m (2 ^ 64))
    .fin neg (m / 2 ^ t) (e + t)

/-- The double nearest to `(-1)^neg * num / den`, ties going to the even significand (the
default rounding of IEEE 754): 53 significant bits, the exponent of the last place from
`-1074` to `971`, infinity beyond the largest finite double. -/
def double.round (neg : Bool) (num den : Nat) : double :=
  if num = 0 ∨ den = 0 then .fin neg 0 0
  else
    let l : Int := (double.log2 num num : Int) - (double.log2 den den : Int)
    let f : Int := if den * 2 ^ l.toNat ≤ num * 2 ^ (-l).toNat then l else l - 1
    let e : Int := max (f - 52) (-1074)
    let n := num * 2 ^ (-e).toNat
    let d := den * 2 ^ e.toNat
    let q := n / d
    let r := n % d
    let m := if d < 2 * r ∨ (2 * r = d ∧ q % 2 = 1) then q + 1 else q
    if e + (if m = 2 ^ 53 then 1 else 0) > 971 then .inf neg
    else double.normal neg m e

/-- The unary minus: the sign is flipped. -/
def double.neg : double → double
  | .nan => .nan
  | .inf s => .inf (!s)
  | .fin s m e => .fin (!s) m e

/-- The sum of two doubles: the exact sum, rounded; an exact zero sum is `+0` unless both
terms are `-0`; infinities of opposite sign add up to not a number. -/
def double.add : double → double → double
  | .nan, _ => .nan
  | _, .nan => .nan
  | .inf s, .inf t => if s = t then .inf s else .nan
  | .inf s, .fin _ _ _ => .inf s
  | .fin _ _ _, .inf t => .inf t
  | .fin s m e, .fin t n f =>
    let g := min e f
    let a : Int := (if s then -1 else 1) * ((m * 2 ^ (e - g).toNat : Nat) : Int)
    let b : Int := (if t then -1 else 1) * ((n * 2 ^ (f - g).toNat : Nat) : Int)
    let c := a + b
    if c = 0 then .fin (s && t) 0 0
    else double.round (decide (c < 0)) (c.natAbs * 2 ^ g.toNat) (2 ^ (-g).toNat)

/-- The product of two doubles: the exact product, rounded; an infinity times a zero is not a
number. -/
def double.mul : double → double → double
  | .nan, _ => .nan
  | _, .nan => .nan
  | .inf s, .inf t => .inf (Bool.xor s t)
  | .inf s, .fin t n _ => if n = 0 then .nan else .inf (Bool.xor s t)
  | .fin s m _, .inf t => if m = 0 then .nan else .inf (Bool.xor s t)
  | .fin s m e, .fin t n f =>
    double.round (Bool.xor s t) (m * n * 2 ^ (e + f).toNat) (2 ^ (-(e + f)).toNat)

/-- The quotient of two doubles: the exact quotient, rounded; a non-zero value over a zero is
an infinity, and a zero over a zero or an infinity over an infinity is not a number. -/
def double.div : double → double → double
  | .nan, _ => .nan
  | _, .nan => .nan
  | .inf _, .inf _ => .nan
  | .inf s, .fin t _ _ => .inf (Bool.xor s t)
  | .fin s _ _, .inf t => .fin (Bool.xor s t) 0 0
  | .fin s m e, .fin t n f =>
    if n = 0 then (if m = 0 then .nan else .inf (Bool.xor s t))
    else double.round (Bool.xor s t) (m * 2 ^ (e - f).toNat) (n * 2 ^ (f - e).toNat)

instance : Add double := ⟨double.add⟩

instance : Sub double := ⟨fun a b => double.add a (double.neg b)⟩

instance : Mul double := ⟨double.mul⟩

instance : Div double := ⟨double.div⟩

/-- The conversion of a `uint64_t` to `double`. -/
instance : NatCast double := ⟨fun n => double.round false n 1⟩

/-- The value of a double that is a non-negative integer. -/
def double.toNat? : double → Option Nat
  | .fin false m e => if 0 ≤ e then some (m * 2 ^ e.toNat) else none
  | _ => none

/-! ## Predicates used in the statements -/

/-- Every pointer of `L` refers to a result whose only per-partition value is its total. -/
def SlotZeroIsTotal {V : Type} (L : List Ptr) (h : Heap V) : Prop :=
  ∀ p ∈ L, ∃ a r, p = some a ∧ h[a]? = some r ∧ r.xcc_vals = [r.val_double]

/-- The objects of the heap `h` and the entries of the map `m` are still there, unchanged, in
`h1` and `m1`. -/
def Preserved {V : Type} (h : Heap V) (m : StdMap String Ptr) (h1 : Heap V)
    (m1 : StdMap String Ptr) : Prop :=
  (∀ (a : Nat) (r : results_t V), h[a]? = some r → h1[a]? = some r) ∧
    (∀ k p, StdMap.find m k = some p → StdMap.find m1 k = some p)

/-- The current value `val_double` of the object at address `a`. -/
def Heap.val {V : Type} (h : Heap V) (a : Nat) : Option V :=
  (h[a]?).map (fun r => r.val_double)

/-- The value for partition `p` of the object at address `a`. -/
def Heap.xcc_val {V : Type} (h : Heap V) (a : Nat) (p : Nat) : Option V :=
  (h[a]?).bind (fun r => r.xcc_vals[p]?)

/-- The names of the variables of an expression. -/
def Expr.vars {V : Type} : Expr V → List String
  | .num _ => []
  | .var name => [name]
  | .add a b => a.vars ++ b.vars
  | .sub a b => a.vars ++ b.vars
  | .mul a b => a.vars ++ b.vars
  | .div a b => a.vars ++ b.vars

/-- The results map holds, for `name`, a pointer to an object of the heap. -/
def HasResult {V : Type} (heap : Heap V) (results_map : StdMap String Ptr) (name : String) :
    Prop :=
  ∃ q, StdMap.find results_map name = some (some q) ∧ q < heap.length

/-- Every metric of the list that carries an expression has a result object, and so has every
variable of an expression that gets evaluated. -/
def Resolvable {V : Type} (heap : Heap V) (results_map : StdMap String Ptr)
    (metrics_list : List (Metric V)) : Prop :=
  ∀ N ∈ metrics_list, ∀ e, N.expr = some e →
    HasResult heap results_map N.name ∧
      (N.name ≠ "KERNEL_DURATION" → ∀ v ∈ e.vars, HasResult heap results_map v)

/-- Every pointer of `ptrs` refers to an object that has a value for partition `p`. -/
def InRange {V : Type} (p : Nat) (heap : Heap V) (ptrs : List Ptr) : Prop :=
  ∀ q ∈ ptrs, ∃ a r, q = some a ∧ heap[a]? = some r ∧ p < r.xcc_vals.length

/-- The heap `h1` holds the objects of `h`, with possibly other current values. -/
def SameButVal {V : Type} (h h1 : Heap V) : Prop :=
  h1.length = h.length ∧
    ∀ (a : Nat) (r : results_t V), h[a]? = some r → ∃ v, h1[a]? = some { r with val_double := v }

/-- The hardware block `(block_kind, block_instance_index)` of an event. -/
def event_t.block (e : event_t) : block_des_t := ⟨e.block_name, e.block_index⟩

/-- The number of events of the list that belong to the block `blk`. -/
def eventsOnBlock (events : List event_t) (blk : block_des_t) : Nat :=
  events.countP (fun e => decide (e.block = blk))

/-- The maximum that the hardware reports for the block of the event `e`, as the `uint32_t`
that the query stores. -/
def capacity (get_info : event_t → Option Nat) (e : event_t) : Nat :=
  match get_info e with
  | some q => q % UINT32_SIZE
  | none => 0

/-- The number of slots that `groups_map` records as claimed on the block `blk`. -/
def claimed_slots (groups_map : StdMap block_des_t block_status_t) (blk : block_des_t) : Nat :=
  match StdMap.find groups_map blk with
  | some st => st.counter_index
  | none => 0

/-- On every block that `groups_map` knows, the claimed slots are at most the maximum, and the
maximum is the one that the hardware reports for the events of the block. -/
def SlotsWithinCapacity {V : Type} (get_info : event_t → Option Nat) (s : ExtractState V) :
    Prop :=
  ∀ blk st, StdMap.find s.groups_map blk = some st →
    st.counter_index ≤ st.max_counters ∧
      ∀ e : event_t, e.block = blk → st.max_counters = capacity get_info e

/-- The events of the list that belong to a block are as many as the slots claimed on it. -/
def EventsMatchSlots {V : Type} (s : ExtractState V) : Prop :=
  ∀ blk, eventsOnBlock s.events_list blk = claimed_slots s.groups_map blk

/-- The registry states that the constructor and the calls into the registry lead to; `n`
counts the session identifiers generated so far.  The interrupt signal count is process state
that changes outside the registry. -/
inductive Reachable : Nat → ROCProfiler_Singleton → Prop where
  | constructed (records_counter dispatch_counter : Nat) :
    Reachable 0 (ROCProfiler_Singleton.new records_counter dispatch_counter)
  | generate {n : Nat} {self : ROCProfiler_Singleton} :
    Reachable n self → Reachable (n + 1) (GenerateUniqueSessionId self).2
  | create {n : Nat} {self : ROCProfiler_Singleton} (replay_mode : rocprofiler_replay_mode_t) :
    Reachable n self → Reachable (n + 1) (CreateSession self replay_mode).2
  | destroy {n : Nat} {self : ROCProfiler_Singleton} (assertions : Bool) (session_id : Nat)
    (self1 : ROCProfiler_Singleton) :
    Reachable n self → DestroySession assertions self session_id = .ok self1 →
    Reachable n self1
  | set_current {n : Nat} {self : ROCProfiler_Singleton} (session_id : Nat) :
    Reachable n self → Reachable n (SetCurrentActiveSession self session_id)
  | record_id {n : Nat} {self : ROCProfiler_Singleton} :
    Reachable n self → Reachable n (GetUniqueRecordId self).2
  | dispatch_id {n : Nat} {self : ROCProfiler_Singleton} :
    Reachable n self → Reachable n (GetUniqueKernelDispatchId self).2
  | signals {n : Nat} {self : ROCProfiler_Singleton} (count : Nat) :
    Reachable n self → Reachable n { self with active_interrupt_signals := count }

/-- What the delivered pairs add up to for `event`, starting from `init`: the samples of the
PMC pairs whose event equals `event`, added in delivery order. -/
def delivered_total {V : Type} [Add V] [NatCast V] (event : event_t) :
    V → List (hsa_ven_amd_aqlprofile_info_type_t × pmc_data_t) → V
  | init, [] => init
  | init, (info_type, pmc_data) :: rest =>
    if info_type = .HSA_VEN_AMD_AQLPROFILE_INFO_PMC_DATA ∧ pmc_data.event = event then
      delivered_total event (init + (pmc_data.result : V)) rest
    else delivered_total event init rest

/-! ## Example data -/

/-- Two counters of block 6, instance 0. -/
def SQ_WAVES : counter_t := ⟨"SQ_WAVES", ⟨6, 0, 4⟩⟩

def SQ_BUSY_CYCLES : counter_t := ⟨"SQ_BUSY_CYCLES", ⟨6, 0, 3⟩⟩

/-- A catalog with the basic metric `SQ_WAVES` and a derived metric over the same counter. -/
def catalog_shared (n : String) : Option (Metric Int) :=
  if n = "SQ_WAVES" then some ⟨"SQ_WAVES", [SQ_WAVES], none⟩
  else if n = "WAVES_TWICE" then
    some ⟨"WAVES_TWICE", [SQ_WAVES], some (.add (.var "SQ_WAVES") (.var "SQ_WAVES"))⟩
  else none

/-- A catalog with the basic metrics `SQ_WAVES` and `SQ_BUSY_CYCLES`. -/
def catalog_basic (n : String) : Option (Metric Int) :=
  if n = "SQ_WAVES" then some ⟨"SQ_WAVES", [SQ_WAVES], none⟩
  else if n = "SQ_BUSY_CYCLES" then some ⟨"SQ_BUSY_CYCLES", [SQ_BUSY_CYCLES], none⟩
  else none

/-- A heap with the results of two counters `A` and `B`, of a derived metric `M` and of
`KERNEL_DURATION`, for two partitions. -/
def heap_AB : Heap Int :=
  [⟨"A", ⟨6, 0, 4⟩, 3, [1, 2]⟩, ⟨"B", ⟨6, 0, 3⟩, 30, [10, 20]⟩, ⟨"M", event_t.zero, 0, [0, 0]⟩,
   ⟨"KERNEL_DURATION", event_t.zero, 0, [0, 0]⟩]

def results_map_AB : StdMap String Ptr :=
  [("A", some 0), ("B", some 1), ("KERNEL_DURATION", some 3), ("M", some 2)]

def results_list_AB : List Ptr := [some 0, some 1]

/-- The derived metric `M = A + B`. -/
def metric_M : Metric Int :=
  ⟨"M", [⟨"A", ⟨6, 0, 4⟩⟩, ⟨"B", ⟨6, 0, 3⟩⟩], some (.add (.var "A") (.var "B"))⟩

/-- The metric `KERNEL_DURATION`, carrying an expression. -/
def metric_KERNEL_DURATION : Metric Int := ⟨"KERNEL_DURATION", [], some (.num 1)⟩

/-- The metric `KERNEL_DURATION`, without an expression. -/
def metric_KERNEL_DURATION_plain : Metric Int := ⟨"KERNEL_DURATION", [], none⟩

def metrics_list_AB : List (Metric Int) := [metric_M, metric_KERNEL_DURATION]

/-- A heap with one result, for a single partition. -/
def heap_one : Heap Int := [⟨"SQ_WAVES", ⟨6, 0, 4⟩, 5, [5]⟩]

/-- A callback state at running index 0 of a buffer with one sample per partition. -/
def state_in_range : PmcState Int :=
  { heap := heap_one, data := ⟨[some 0], 0, 1, 0⟩, cout := [] }

/-- A callback state at running index 1 of a buffer with one sample per partition: the
partition id is 1, beyond the single partition of the result. -/
def state_out_of_range : PmcState Int :=
  { heap := heap_one, data := ⟨[some 0], 1, 1, 0⟩, cout := [] }

/-- Two results for two partitions, as the constructor leaves them. -/
def heap_two : Heap Int :=
  [results_t.new "SQ_WAVES" ⟨6, 0, 4⟩ 2, results_t.new "UMC_ACTIVE" ⟨32, 0, 1⟩ 2]

def results_list_two : List Ptr := [some 0, some 1]

/-- A profile with one event on block 6, one on the UMC block 32, and a buffer of 48 bytes. -/
def profile_two : profile_t := ⟨[⟨6, 0, 4⟩, ⟨32, 0, 1⟩], 48⟩

/-- Six delivered pairs; with one UMC sample and two samples per partition the last one has
partition id 2. -/
def delivered_six : List (hsa_ven_amd_aqlprofile_info_type_t × pmc_data_t) :=
  [(.HSA_VEN_AMD_AQLPROFILE_INFO_PMC_DATA, ⟨⟨32, 0, 1⟩, 100⟩),
   (.HSA_VEN_AMD_AQLPROFILE_INFO_PMC_DATA, ⟨⟨6, 0, 4⟩, 1⟩),
   (.HSA_VEN_AMD_AQLPROFILE_INFO_PMC_DATA, ⟨⟨6, 0, 4⟩, 2⟩),
   (.HSA_VEN_AMD_AQLPROFILE_INFO_PMC_DATA, ⟨⟨6, 0, 4⟩, 3⟩),
   (.HSA_VEN_AMD_AQLPROFILE_INFO_PMC_DATA, ⟨⟨6, 0, 4⟩, 4⟩),
   (.HSA_VEN_AMD_AQLPROFILE_INFO_PMC_DATA, ⟨⟨6, 0, 4⟩, 5⟩)]

/-- A heap with the results of a counter and of `KERNEL_DURATION`, for one partition, with
values of type `double`. -/
def heap_KD : Heap double :=
  [⟨"SQ_WAVES", ⟨6, 0, 4⟩, ((5 : Nat) : double), [((5 : Nat) : double)]⟩,
   results_t.new "KERNEL_DURATION" event_t.zero 1]

def results_map_KD : StdMap String Ptr := [("KERNEL_DURATION", some 1), ("SQ_WAVES", some 0)]

/-- The metric `KERNEL_DURATION`, carrying an expression, over `double`. -/
def metric_KD : Metric double := ⟨"KERNEL_DURATION", [], some (.num ((1 : Nat) : double))⟩

def metrics_list_KD : List (Metric double) := [⟨"SQ_WAVES", [SQ_WAVES], none⟩, metric_KD]

/-- A heap with the results of two counters, for two partitions. -/
def heap_pair : Heap Int :=
  [⟨"SQ_WAVES", ⟨6, 0, 4⟩, 5, [2, 3]⟩, ⟨"SQ_BUSY_CYCLES", ⟨6, 0, 3⟩, 9, [4, 5]⟩]

/-- One sample per partition and none for the interconnect: the running index 1 is in
partition 1. -/
def state_pair_in_range : PmcState Int :=
  { heap := heap_pair, data := ⟨[some 0, some 1], 1, 1, 0⟩, cout := [] }

/-- The running index 2 is in partition 2, which the results do not have. -/
def state_pair_out_of_range : PmcState Int :=
  { heap := heap_pair, data := ⟨[some 0, some 1], 2, 1, 0⟩, cout := [] }

/-- The two lists have equal length, and from position `n0` on the event at a position is the
event stored in the result at the same position, which the results map holds under the name
of that result. -/
def ListsLinked {V : Type} (n0 : Nat) (s : ExtractState V) : Prop :=
  s.events_list.length = s.results_list.length ∧
    ∀ (i : Nat) (e : event_t), n0 ≤ i → s.events_list[i]? = some e →
      ∃ a r, s.results_list[i]? = some (some a) ∧ s.heap[a]? = some r ∧ r.event = e ∧
        StdMap.find s.results_map r.name = some (some a)

/-- The heap `h1` holds the objects of `h`, with possibly other current values at the
addresses in `D` and with the same current values at every other address. -/
def SameButValOn {V : Type} (D : Nat → Prop) (h h1 : Heap V) : Prop :=
  h1.length = h.length ∧
    ∀ (a : Nat) (r : results_t V), h[a]? = some r →
      ∃ v, h1[a]? = some { r with val_double := v } ∧ (¬ D a → v = r.val_double)

/-- Two runs end alike: with the same fault, or with heaps that hold the same objects and
differ at most in the current values at the addresses in `D`. -/
def SameOutcome {V : Type} (D : Nat → Prop) :
    Except Fault (Heap V) → Except Fault (Heap V) → Prop
  | .ok h, .ok h1 => SameButValOn D h h1
  | .error f, .error g => f = g
  | _, _ => False

/-- The address `a` is one that the results list or the results map points to. -/
def Referenced (results_list : List Ptr) (results_map : StdMap String Ptr) (a : Nat) : Prop :=
  some a ∈ results_list ∨ some a ∈ results_map.map Prod.snd

/-! # Theorems -/

/-! ## Partition index of a buffer position -/

theorem calculate_xcc_index_below (R : List Ptr) (i s k : Nat) (hks : k + s < UINT32_SIZE)
    (hi : i < k + s) : calculate_xcc_index ⟨R, i, s, k⟩ = .ok 0 := by
  have hlt : ¬ (i ≥ (k + s) % UINT32_SIZE) := by
    rw [Nat.mod_eq_of_lt hks]; omega
  simp only [calculate_xcc_index, hlt, if_false]

theorem calculate_xcc_index_above (R : List Ptr) (i s k : Nat) (hs : 0 < s)
    (hks : k + s < UINT32_SIZE) (hi : k + s ≤ i)
    (hfit : 1 + (i - (k + s)) / s < UINT32_SIZE) :
    calculate_xcc_index ⟨R, i, s, k⟩ = .ok (1 + (i - (k + s)) / s) := by
  have hge : i ≥ (k + s) % UINT32_SIZE := by
    rw [Nat.mod_eq_of_lt hks]; exact hi
  have hs0 : ¬ (s = 0) := by omega
  simp only [calculate_xcc_index, hs0, if_false, Nat.mod_eq_of_lt hks, hfit, if_true,
    ge_iff_le, hi]

theorem calculate_xcc_index_block (R : List Ptr) (i s k j : Nat) (hs : 0 < s)
    (hks : k + s < UINT32_SIZE) (hj : 1 + j < UINT32_SIZE)
    (hlo : k + s + j * s ≤ i) (hhi : i < k + s + (j + 1) * s) :
    calculate_xcc_index ⟨R, i, s, k⟩ = .ok (1 + j) := by
  have hq : (i - (k + s)) / s = j := by
    apply Nat.div_eq_of_lt_le
    · rw [Nat.mul_comm] at *; omega
    · have : (j + 1) * s = j * s + s := by ring
      omega
  have h := calculate_xcc_index_above R i s k hs hks (by nlinarith) (by rw [hq]; exact hj)
  rw [hq] at h; exact h

/-- C1: with an interconnect sample count `k` and a per-partition sample count `s`,
`calculate_xcc_index` maps every running index below `k + s` to partition 0 and every index
from `k + s` on to partition `1 + (i - (k + s)) / s`; the indices `k+s .. k+2s-1` map to
partition 1, `k+2s .. k+3s-1` to partition 2 and `k+3s .. k+4s-1` to partition 3. -/
theorem calculate_xcc_index_four_partitions (R : List Ptr) (k s : Nat) (hs : 0 < s)
    (hks : k + s < UINT32_SIZE) :
    (∀ i, i < k + s → calculate_xcc_index ⟨R, i, s, k⟩ = .ok 0) ∧
    (∀ i, k + s ≤ i → 1 + (i - (k + s)) / s < UINT32_SIZE →
      calculate_xcc_index ⟨R, i, s, k⟩ = .ok (1 + (i - (k + s)) / s)) ∧
    (∀ i, k + s ≤ i → i < k + 2 * s → calculate_xcc_index ⟨R, i, s, k⟩ = .ok 1) ∧
    (∀ i, k + 2 * s ≤ i → i < k + 3 * s → calculate_xcc_index ⟨R, i, s, k⟩ = .ok 2) ∧
    (∀ i, k + 3 * s ≤ i → i < k + 4 * s → calculate_xcc_index ⟨R, i, s, k⟩ = .ok 3) := by
  refine ⟨fun i hi => calculate_xcc_index_below R i s k hks hi,
    fun i hi hfit => calculate_xcc_index_above R i s k hs hks hi hfit, ?_, ?_, ?_⟩
  · intro i hlo hhi
    exact calculate_xcc_index_block R i s k 0 hs hks (by decide) (by omega) (by omega)
  · intro i hlo hhi
    exact calculate_xcc_index_block R i s k 1 hs hks (by decide) (by omega) (by omega)
  · intro i hlo hhi
    exact calculate_xcc_index_block R i s k 2 hs hks (by decide) (by omega) (by omega)

theorem calculate_xcc_index_four_partitions_witness :
    (0 < 3 ∧ 2 + 3 < UINT32_SIZE) ∧
    ((∀ i, i < 2 + 3 → calculate_xcc_index ⟨[], i, 3, 2⟩ = .ok 0) ∧
    (∀ i, 2 + 3 ≤ i → 1 + (i - (2 + 3)) / 3 < UINT32_SIZE →
      calculate_xcc_index ⟨[], i, 3, 2⟩ = .ok (1 + (i - (2 + 3)) / 3)) ∧
    (∀ i, 2 + 3 ≤ i → i < 2 + 2 * 3 → calculate_xcc_index ⟨[], i, 3, 2⟩ = .ok 1) ∧
    (∀ i, 2 + 2 * 3 ≤ i → i < 2 + 3 * 3 → calculate_xcc_index ⟨[], i, 3, 2⟩ = .ok 2) ∧
    (∀ i, 2 + 3 * 3 ≤ i → i < 2 + 4 * 3 → calculate_xcc_index ⟨[], i, 3, 2⟩ = .ok 3)) :=
  ⟨⟨by decide, by decide⟩,
    calculate_xcc_index_four_partitions [] 2 3 (by decide) (by decide)⟩

/-! ## Aggregation for a single partition -/

theorem SlotZeroIsTotal_set {V : Type} (L : List Ptr) (h : Heap V) (a : Nat) (r : results_t V)
    (hg : SlotZeroIsTotal L h) (hr : r.xcc_vals = [r.val_double]) :
    SlotZeroIsTotal L (h.set a r) := by
  intro p hp
  obtain ⟨b, rb, hpb, hb, hrb⟩ := hg p hp
  by_cases hab : a = b
  · subst hab
    have hlt : a < h.length := by
      rcases List.getElem?_eq_some.mp hb with ⟨hlt, _⟩
      exact hlt
    exact ⟨a, r, hpb, List.getElem?_set_self hlt, hr⟩
  · exact ⟨b, rb, hpb, by rw [List.getElem?_set_ne hab]; exact hb, hrb⟩

theorem pmcLoop_slot_zero {V : Type} [Add V] [NatCast V]
    (info_type : hsa_ven_amd_aqlprofile_info_type_t) (pmc_data : pmc_data_t)
    (cd : callback_data_t) (L : List Ptr) (hcd : calculate_xcc_index cd = .ok 0) :
    ∀ (ps : List Ptr) (h : Heap V), (∀ p ∈ ps, p ∈ L) → SlotZeroIsTotal L h →
      ∃ h1, pmcLoop info_type pmc_data cd ps h = .ok (h1, false) ∧ SlotZeroIsTotal L h1 := by
  intro ps
  induction ps with
  | nil => intro h _ hg; exact ⟨h, rfl, hg⟩
  | cons p ps ih =>
    intro h hsub hg
    have hsub1 : ∀ q ∈ ps, q ∈ L := fun q hq => hsub q (List.mem_cons_of_mem p hq)
    unfold pmcLoop
    by_cases hty : info_type ≠ .HSA_VEN_AMD_AQLPROFILE_INFO_PMC_DATA
    · rw [if_pos hty]; exact ih h hsub1 hg
    · rw [if_neg hty]
      obtain ⟨a, r, hpa, ha, hr⟩ := hg p (hsub p (List.mem_cons_self p ps))
      subst hpa
      have hd : Heap.deref h (some a) = some r := ha
      rw [hd]
      by_cases hm : IsEventMatch pmc_data.event r.event = true
      · simp only [hm, Bool.not_true, Bool.false_eq_true, if_false, hcd, hr,
          List.getElem?_cons_zero]
        apply ih _ hsub1
        apply SlotZeroIsTotal_set L h a _ hg
        simp
      · simp only [Bool.not_eq_true] at hm
        simp only [hm, Bool.not_false, if_true]
        exact ih h hsub1 hg

theorem get_umc_and_xcc_sample_count_one (UMC : Nat) (profile : profile_t)
    (hsize : profile.output_buffer_size < UINT32_SIZE) :
    get_umc_and_xcc_sample_count UMC profile 1 = .ok (profile.output_buffer_size / 8, 0) := by
  have h1 : (profile.output_buffer_size + UINT32_SIZE) % UINT32_SIZE
      = profile.output_buffer_size := by
    rw [Nat.add_mod_right]; exact Nat.mod_eq_of_lt hsize
  have h2 : profile.output_buffer_size / 8 % UINT32_SIZE = profile.output_buffer_size / 8 :=
    Nat.mod_eq_of_lt (lt_of_le_of_lt (Nat.div_le_self _ _) hsize)
  simp [get_umc_and_xcc_sample_count, h1, h2]

theorem iterate_data_slot_zero {V : Type} [Add V] [NatCast V] (L : List Ptr) (single : Nat)
    (hsingle : single < UINT32_SIZE) :
    ∀ (delivered : List (hsa_ven_amd_aqlprofile_info_type_t × pmc_data_t)) (st : PmcState V),
      st.data.results = L → st.data.single_xcc_buff_size = single → st.data.umc_buff_size = 0 →
      st.data.index + delivered.length ≤ single → SlotZeroIsTotal L st.heap →
      ∃ st1, iterate_data delivered st = .ok st1 ∧ SlotZeroIsTotal L st1.heap ∧
        st1.data = { st.data with index := st.data.index + delivered.length } ∧
        st1.cout = st.cout := by
  intro delivered
  induction delivered with
  | nil => intro st _ _ _ _ hg; exact ⟨st, rfl, hg, rfl, rfl⟩
  | cons x rest ih =>
    intro st hres hsingle1 humc hlen hg
    obtain ⟨info_type, pmc_data⟩ := x
    simp only [List.length_cons] at hlen
    have hidx : st.data.index < single := by omega
    have hcd : calculate_xcc_index st.data = .ok 0 := by
      have := calculate_xcc_index_below st.data.results st.data.index
        st.data.single_xcc_buff_size st.data.umc_buff_size (by omega) (by omega)
      exact this
    obtain ⟨h1, hloop, hg1⟩ := pmcLoop_slot_zero info_type pmc_data st.data L hcd
      st.data.results st.heap (by rw [hres]; exact fun p hp => hp) hg
    have hmod : (st.data.index + 1) % UINT64_SIZE = st.data.index + 1 := by
      apply Nat.mod_eq_of_lt
      have : UINT32_SIZE < UINT64_SIZE := by decide
      omega
    obtain ⟨st2, hit, hg2, hd2, hc2⟩ := ih
      { heap := h1, data := { st.data with index := st.data.index + 1 }, cout := st.cout }
      hres hsingle1 humc (by simp only []; omega) hg1
    refine ⟨st2, ?_, hg2, ?_, hc2⟩
    · simp only [iterate_data, pmcCallback, hloop, hmod, Bool.false_eq_true, if_false]
      exact hit
    · rw [hd2]; simp only [List.length_cons]
      congr 1; omega

/-! ## Lookup after an update of a `std::map` -/

theorem StdMap.find_assign {K α : Type} [DecidableEq K] (lt : K → K → Bool) (k : K) (v : α)
    (k2 : K) : ∀ m : StdMap K α,
      StdMap.find (StdMap.assign lt m k v) k2 = if k = k2 then some v else StdMap.find m k2 := by
  intro m
  induction m with
  | nil => simp [StdMap.assign, StdMap.find]
  | cons e t ih =>
    obtain ⟨k1, v1⟩ := e
    simp only [StdMap.assign]
    by_cases h1 : k1 = k
    · subst h1
      simp only [if_true, StdMap.find]
      by_cases h3 : k1 = k2
      · simp only [h3, if_true]
      · simp only [h3, if_false]
    · simp only [h1, if_false]
      by_cases h2 : lt k k1 = true
      · simp only [h2, if_true, StdMap.find]
      · simp only [h2, if_false, StdMap.find, ih, Bool.false_eq_true]
        by_cases h3 : k1 = k2
        · have h4 : ¬ k = k2 := fun h => h1 (h3.trans h.symm)
          simp only [h3, if_true, h4, if_false]
        · simp only [h3, if_false]

theorem StdMap.find_emplace {K α : Type} [DecidableEq K] (lt : K → K → Bool) (k : K) (v : α)
    (k2 : K) (m : StdMap K α) :
    StdMap.find (StdMap.emplace lt m k v) k2 =
      if k = k2 then some ((StdMap.find m k).getD v) else StdMap.find m k2 := by
  unfold StdMap.emplace
  cases hf : StdMap.find m k with
  | none =>
    simp only [StdMap.find_assign, Option.getD_none]
  | some w =>
    by_cases h : k = k2
    · subst h; simp only [hf, if_true, Option.getD_some]
    · simp only [h, if_false]

/-! ## One pass of the counter loop -/

theorem set_length_append {α : Type} (l : List α) (x y : α) :
    (l ++ [x]).set l.length y = l ++ [y] := by
  induction l with
  | nil => rfl
  | cons a t ih => simp only [List.cons_append, List.length_cons, List.set_cons_succ, ih]

theorem extractCounter_present {V : Type} [NatCast V] (xcc_count : Nat)
    (get_info : event_t → Option Nat) (c : counter_t) (s : ExtractState V) (p : Ptr)
    (hf : StdMap.find s.results_map c.name = some p) :
    extractCounter xcc_count get_info c s = .ok (true, s) := by
  simp only [extractCounter, hf]

/-- The pass for a counter without a result, in terms of the status `bs` that its block has
after the capacity query. -/
theorem extractCounter_absent {V : Type} [NatCast V] (xcc_count : Nat)
    (get_info : event_t → Option Nat) (c : counter_t) (s : ExtractState V) (bs : block_status_t)
    (hf : StdMap.find s.results_map c.name = none)
    (hq : (if ((StdMap.find s.groups_map ⟨c.event.block_name, c.event.block_index⟩).getD
              block_status_t.zero).max_counters = 0 then
            (get_info c.event).map (fun q =>
              { (StdMap.find s.groups_map ⟨c.event.block_name, c.event.block_index⟩).getD
                  block_status_t.zero with max_counters := q % UINT32_SIZE })
          else some ((StdMap.find s.groups_map ⟨c.event.block_name, c.event.block_index⟩).getD
              block_status_t.zero)) = some bs) :
    extractCounter xcc_count get_info c s =
      if bs.counter_index ≥ bs.max_counters then
        .ok (false,
          { s with
            heap := s.heap ++ [results_t.new c.name event_t.zero xcc_count]
            results_map := StdMap.assign lt_string s.results_map c.name (some s.heap.length)
            groups_map := StdMap.assign lt_block_des
              (StdMap.emplace lt_block_des s.groups_map ⟨c.event.block_name, c.event.block_index⟩
                block_status_t.zero) ⟨c.event.block_name, c.event.block_index⟩ bs
            cerr := s.cerr ++ ["Error: " ++
              String.mk (c.name.data.takeWhile (fun c => c != '_')) ++
              " exceeded hardware block counters limit (" ++ toString bs.max_counters ++ ")"] })
      else
        .ok (true,
          { s with
            heap := s.heap ++
              [{ results_t.new c.name event_t.zero xcc_count with event := c.event }]
            results_map := StdMap.assign lt_string s.results_map c.name (some s.heap.length)
            events_list := s.events_list ++ [c.event]
            results_list := s.results_list ++ [some s.heap.length]
            event_to_max_block_count :=
              StdMap.emplace lt_pair s.event_to_max_block_count
                (c.event.block_name, c.event.block_index) bs.max_counters
            groups_map := StdMap.assign lt_block_des
              (StdMap.emplace lt_block_des s.groups_map ⟨c.event.block_name, c.event.block_index⟩
                block_status_t.zero) ⟨c.event.block_name, c.event.block_index⟩
              { bs with counter_index := (bs.counter_index + 1) % UINT32_SIZE } }) := by
  have hfe : (StdMap.find (StdMap.emplace lt_block_des s.groups_map
        ⟨c.event.block_name, c.event.block_index⟩ block_status_t.zero)
        ⟨c.event.block_name, c.event.block_index⟩).getD block_status_t.zero
      = (StdMap.find s.groups_map ⟨c.event.block_name, c.event.block_index⟩).getD
          block_status_t.zero := by
    rw [StdMap.find_emplace]; simp only [if_true, Option.getD_some]
  simp only [extractCounter, hf, Heap.alloc, hfe, set_length_append]
  by_cases h0 : ((StdMap.find s.groups_map ⟨c.event.block_name, c.event.block_index⟩).getD
      block_status_t.zero).max_counters = 0
  · simp only [h0, if_true] at hq ⊢
    cases hg : get_info c.event with
    | none => rw [hg] at hq; simp at hq
    | some q =>
      rw [hg] at hq
      simp only [Option.map_some', Option.some.injEq] at hq
      subst hq
      simp only [hg]
  · simp only [h0, if_false, Option.some.injEq] at hq ⊢
    subst hq
    rfl

theorem extractCounters_single {V : Type} [NatCast V] (xcc_count : Nat)
    (get_info : event_t → Option Nat) (c : counter_t) (s : ExtractState V) :
    extractCounters xcc_count get_info [c] s = extractCounter xcc_count get_info c s := by
  simp only [extractCounters]
  rcases extractCounter xcc_count get_info c s with f | ⟨b, s1⟩
  · rfl
  · cases b <;> rfl

/-- A metric with the single counter `c` and nothing to register for its own name. -/
theorem extractMetric_single_plain {V : Type} [NatCast V] (xcc_count : Nat)
    (get_info : event_t → Option Nat) (metrics_dict : String → Option (Metric V))
    (n : String) (m : Metric V) (c : counter_t) (s : ExtractState V)
    (hd : metrics_dict n = some m) (hk : n ≠ "KERNEL_DURATION") (hc : m.counters = [c])
    (hp : m.expr = none ∨ ∃ p, StdMap.find s.results_map n = some p) :
    extractMetric xcc_count get_info metrics_dict n s
      = extractCounter xcc_count get_info c s := by
  simp only [extractMetric, hd, hk, if_false, hc, List.isEmpty_cons, Bool.false_eq_true,
    extractCounters_single]
  rcases hp with he | ⟨p, hp⟩
  · simp only [he]
  · simp only [hp]
    cases m.expr <;> rfl

/-- A metric with an expression and the single counter `c`, whose name has no result yet. -/
theorem extractMetric_single_derived {V : Type} [NatCast V] (xcc_count : Nat)
    (get_info : event_t → Option Nat) (metrics_dict : String → Option (Metric V))
    (n : String) (m : Metric V) (c : counter_t) (s : ExtractState V) (e : Expr V)
    (hd : metrics_dict n = some m) (hk : n ≠ "KERNEL_DURATION") (hc : m.counters = [c])
    (he : m.expr = some e) (hp : StdMap.find s.results_map n = none) :
    extractMetric xcc_count get_info metrics_dict n s
      = extractCounter xcc_count get_info c
          { s with
            heap := s.heap ++ [results_t.new n event_t.zero xcc_count]
            results_map := StdMap.assign lt_string s.results_map n (some s.heap.length)
            metrics_counters := StdMap.assign lt_string s.metrics_counters m.name
              (StdSet.insert ((StdMap.find s.metrics_counters m.name).getD []) c.name) } := by
  simp only [extractMetric, hd, hk, if_false, hc, List.isEmpty_cons, Bool.false_eq_true,
    extractCounters_single, he, hp, Heap.alloc, List.foldl_cons, List.foldl_nil]

/-- A metric with the single counter `c`: what precedes the counter loop changes neither the
lists nor the block map, keeps what the heap and the results map hold, and leaves the counter
without a result when it had none. -/
theorem extractMetric_single {V : Type} [NatCast V] (xcc_count : Nat)
    (get_info : event_t → Option Nat) (metrics_dict : String → Option (Metric V))
    (n : String) (m : Metric V) (c : counter_t) (s : ExtractState V)
    (hd : metrics_dict n = some m) (hk : n ≠ "KERNEL_DURATION") (hc : m.counters = [c]) :
    ∃ s1, extractMetric xcc_count get_info metrics_dict n s
        = extractCounter xcc_count get_info c s1 ∧
      s1.events_list = s.events_list ∧ s1.results_list = s.results_list ∧
      s1.groups_map = s.groups_map ∧ s1.cerr = s.cerr ∧
      s1.event_to_max_block_count = s.event_to_max_block_count ∧
      Preserved s.heap s.results_map s1.heap s1.results_map ∧
      s.heap.length ≤ s1.heap.length ∧
      (∀ k, k ≠ n → StdMap.find s1.results_map k = StdMap.find s.results_map k) ∧
      (m.expr = none → s1 = s) := by
  by_cases hp : m.expr = none ∨ ∃ p, StdMap.find s.results_map n = some p
  · refine ⟨s, extractMetric_single_plain xcc_count get_info metrics_dict n m c s hd hk hc hp,
      rfl, rfl, rfl, rfl, rfl, ⟨fun _ _ h => h, fun _ _ h => h⟩, le_refl _, fun _ _ => rfl,
      fun _ => rfl⟩
  · have he : ∃ e, m.expr = some e := by
      cases hme : m.expr with
      | none => exact absurd (Or.inl hme) hp
      | some e => exact ⟨e, rfl⟩
    obtain ⟨e, he⟩ := he
    have hnone : StdMap.find s.results_map n = none := by
      cases hf : StdMap.find s.results_map n with
      | none => rfl
      | some p => exact absurd (Or.inr ⟨p, hf⟩) hp
    refine ⟨_, extractMetric_single_derived xcc_count get_info metrics_dict n m c s e hd hk hc
      he hnone, rfl, rfl, rfl, rfl, rfl, And.intro ?_ ?_, ?_, ?_, ?_⟩
    · intro a r h
      have hlt : a < s.heap.length := (List.getElem?_eq_some.mp h).1
      simp only [List.getElem?_append_left hlt, h]
    · intro k p h
      simp only [StdMap.find_assign]
      by_cases hnk : n = k
      · subst hnk; rw [hnone] at h; cases h
      · simp only [hnk, if_false, h]
    · simp only [List.length_append, List.length_singleton]; omega
    · intro k hk1
      simp only [StdMap.find_assign]
      have : ¬ n = k := fun h => hk1 h.symm
      simp only [this, if_false]
    · intro h; rw [h] at he; cases he

theorem Preserved_trans {V : Type} {h h1 h2 : Heap V} {m m1 m2 : StdMap String Ptr}
    (p1 : Preserved h m h1 m1) (p2 : Preserved h1 m1 h2 m2) : Preserved h m h2 m2 :=
  ⟨fun a r ha => p2.1 a r (p1.1 a r ha), fun k p hk => p2.2 k p (p1.2 k p hk)⟩

theorem Preserved_alloc {V : Type} (h : Heap V) (m : StdMap String Ptr) (r : results_t V)
    (k : String) (hk : StdMap.find m k = none) :
    Preserved h m (h ++ [r]) (StdMap.assign lt_string m k (some h.length)) := by
  constructor
  · intro a r1 ha
    have hlt : a < h.length := (List.getElem?_eq_some.mp ha).1
    simp only [List.getElem?_append_left hlt, ha]
  · intro k1 p hk1
    simp only [StdMap.find_assign]
    by_cases hkk : k = k1
    · subst hkk; rw [hk] at hk1; cases hk1
    · simp only [hkk, if_false, hk1]

/-- Dedup: a metric whose single counter already has a result claims nothing. -/
theorem extractMetric_dedup {V : Type} [NatCast V] (xcc_count : Nat)
    (get_info : event_t → Option Nat) (metrics_dict : String → Option (Metric V))
    (n : String) (m : Metric V) (c : counter_t) (s : ExtractState V) (p : Ptr)
    (hd : metrics_dict n = some m) (hk : n ≠ "KERNEL_DURATION") (hc : m.counters = [c])
    (hf : StdMap.find s.results_map c.name = some p) :
    ∃ s1, extractMetric xcc_count get_info metrics_dict n s = .ok (true, s1) ∧
      s1.events_list = s.events_list ∧ s1.results_list = s.results_list ∧
      s1.groups_map = s.groups_map ∧ s1.cerr = s.cerr ∧
      Preserved s.heap s.results_map s1.heap s1.results_map := by
  obtain ⟨s1, heq, h1, h2, h3, h4, _, hpres, _, _, _⟩ :=
    extractMetric_single xcc_count get_info metrics_dict n m c s hd hk hc
  refine ⟨s1, ?_, h1, h2, h3, h4, hpres⟩
  rw [heq]
  exact extractCounter_present xcc_count get_info c s1 p (hpres.2 _ _ hf)

/-- A metric whose single counter has no result yet and whose block, with the status `bs`
after the capacity query, has a slot left: the counter is assigned. -/
theorem extractMetric_claim {V : Type} [NatCast V] (xcc_count : Nat)
    (get_info : event_t → Option Nat) (metrics_dict : String → Option (Metric V))
    (n : String) (m : Metric V) (c : counter_t) (s : ExtractState V) (bs : block_status_t)
    (hd : metrics_dict n = some m) (hk : n ≠ "KERNEL_DURATION") (hc : m.counters = [c])
    (hname : m.expr ≠ none → n ≠ c.name)
    (hf : StdMap.find s.results_map c.name = none)
    (hq : (if ((StdMap.find s.groups_map ⟨c.event.block_name, c.event.block_index⟩).getD
              block_status_t.zero).max_counters = 0 then
            (get_info c.event).map (fun q =>
              { (StdMap.find s.groups_map ⟨c.event.block_name, c.event.block_index⟩).getD
                  block_status_t.zero with max_counters := q % UINT32_SIZE })
          else some ((StdMap.find s.groups_map ⟨c.event.block_name, c.event.block_index⟩).getD
              block_status_t.zero)) = some bs)
    (hfree : bs.counter_index < bs.max_counters) :
    ∃ s1 pc, extractMetric xcc_count get_info metrics_dict n s = .ok (true, s1) ∧
      s1.events_list = s.events_list ++ [c.event] ∧
      s1.results_list = s.results_list ++ [some pc] ∧
      s1.heap[pc]? = some { results_t.new c.name event_t.zero xcc_count with event := c.event } ∧
      StdMap.find s1.results_map c.name = some (some pc) ∧
      StdMap.find s1.groups_map ⟨c.event.block_name, c.event.block_index⟩
        = some { bs with counter_index := (bs.counter_index + 1) % UINT32_SIZE } ∧
      s1.cerr = s.cerr ∧
      Preserved s.heap s.results_map s1.heap s1.results_map ∧
      s.heap.length ≤ pc ∧
      (∀ k, (m.expr ≠ none → k ≠ n) → k ≠ c.name →
        StdMap.find s1.results_map k = StdMap.find s.results_map k) := by
  obtain ⟨s0, heq, h1, h2, h3, h4, _, hpres, hlen, hfr, hplain⟩ :=
    extractMetric_single xcc_count get_info metrics_dict n m c s hd hk hc
  have hf0 : StdMap.find s0.results_map c.name = none := by
    by_cases he : m.expr = none
    · rw [hplain he]; exact hf
    · rw [hfr c.name (fun h => hname he h.symm)]; exact hf
  have hcnt := extractCounter_absent xcc_count get_info c s0 bs hf0 (by rw [h3]; exact hq)
  rw [if_neg (by omega)] at hcnt
  refine ⟨_, s0.heap.length, heq.trans hcnt, ?_, ?_, ?_, ?_, ?_, h4, ?_, hlen, ?_⟩
  · simp only [h1]
  · simp only [h2]
  · simp only [List.getElem?_append_right (le_refl _), Nat.sub_self, List.getElem?_cons_zero]
  · simp only [StdMap.find_assign, if_true]
  · simp only [StdMap.find_assign, if_true]
  · exact Preserved_trans hpres (Preserved_alloc s0.heap s0.results_map _ c.name hf0)
  · intro k hk1 hk2
    simp only [StdMap.find_assign]
    have : ¬ c.name = k := fun h => hk2 h.symm
    simp only [this, if_false]
    by_cases he : m.expr = none
    · rw [hplain he]
    · exact hfr k (hk1 he)

/-- A metric whose single counter has no result yet and whose block, with the status `bs`
after the capacity query, has no slot left: the pass returns `false` after writing one message,
with a result created for the counter but nothing appended to the lists. -/
theorem extractMetric_full {V : Type} [NatCast V] (xcc_count : Nat)
    (get_info : event_t → Option Nat) (metrics_dict : String → Option (Metric V))
    (n : String) (m : Metric V) (c : counter_t) (s : ExtractState V) (bs : block_status_t)
    (hd : metrics_dict n = some m) (hk : n ≠ "KERNEL_DURATION") (hc : m.counters = [c])
    (hname : m.expr ≠ none → n ≠ c.name)
    (hf : StdMap.find s.results_map c.name = none)
    (hq : (if ((StdMap.find s.groups_map ⟨c.event.block_name, c.event.block_index⟩).getD
              block_status_t.zero).max_counters = 0 then
            (get_info c.event).map (fun q =>
              { (StdMap.find s.groups_map ⟨c.event.block_name, c.event.block_index⟩).getD
                  block_status_t.zero with max_counters := q % UINT32_SIZE })
          else some ((StdMap.find s.groups_map ⟨c.event.block_name, c.event.block_index⟩).getD
              block_status_t.zero)) = some bs)
    (hfull : bs.max_counters ≤ bs.counter_index) :
    ∃ s1 pc, extractMetric xcc_count get_info metrics_dict n s = .ok (false, s1) ∧
      s1.events_list = s.events_list ∧ s1.results_list = s.results_list ∧
      s1.heap[pc]? = some (results_t.new c.name event_t.zero xcc_count) ∧
      StdMap.find s1.results_map c.name = some (some pc) ∧
      s1.cerr.length = s.cerr.length + 1 ∧
      Preserved s.heap s.results_map s1.heap s1.results_map ∧
      s.heap.length ≤ pc := by
  obtain ⟨s0, heq, h1, h2, h3, h4, _, hpres, hlen, hfr, hplain⟩ :=
    extractMetric_single xcc_count get_info metrics_dict n m c s hd hk hc
  have hf0 : StdMap.find s0.results_map c.name = none := by
    by_cases he : m.expr = none
    · rw [hplain he]; exact hf
    · rw [hfr c.name (fun h => hname he h.symm)]; exact hf
  have hcnt := extractCounter_absent xcc_count get_info c s0 bs hf0 (by rw [h3]; exact hq)
  rw [if_pos (by omega)] at hcnt
  refine ⟨_, s0.heap.length, heq.trans hcnt, h1, h2, ?_, ?_, ?_, ?_, hlen⟩
  · simp only [List.getElem?_append_right (le_refl _), Nat.sub_self, List.getElem?_cons_zero]
  · simp only [StdMap.find_assign, if_true]
  · simp only [List.length_append, List.length_singleton, h4]
  · exact Preserved_trans hpres (Preserved_alloc s0.heap s0.results_map _ c.name hf0)

/-! ## Event extraction on one block of capacity 1 -/

/-- The first request on an unused block of capacity 1, from the state of a fresh call. -/
theorem extractMetric_first_of_capacity_one {V : Type} [NatCast V] (xcc_count : Nat)
    (get_info : event_t → Option Nat) (metrics_dict : String → Option (Metric V))
    (n : String) (m : Metric V) (c : counter_t)
    (hd : metrics_dict n = some m) (hk : n ≠ "KERNEL_DURATION") (hc : m.counters = [c])
    (hname : m.expr ≠ none → n ≠ c.name) (hcap : get_info c.event = some 1) :
    ∃ s1 pc, extractMetric xcc_count get_info metrics_dict n
        ({ (ExtractState.empty : ExtractState V) with groups_map := [], cerr := [] })
        = .ok (true, s1) ∧
      s1.events_list = [c.event] ∧ s1.results_list = [some pc] ∧
      s1.heap[pc]? = some { results_t.new c.name event_t.zero xcc_count with event := c.event } ∧
      StdMap.find s1.results_map c.name = some (some pc) ∧
      StdMap.find s1.groups_map ⟨c.event.block_name, c.event.block_index⟩ = some ⟨1, 1, 0⟩ ∧
      s1.cerr = [] ∧
      (∀ k, (m.expr ≠ none → k ≠ n) → k ≠ c.name → StdMap.find s1.results_map k = none) := by
  obtain ⟨s1, pc, hrun, he, hr, hh, hm, hg, hce, _, _, hfr⟩ :=
    extractMetric_claim xcc_count get_info metrics_dict n m c
      ({ (ExtractState.empty : ExtractState V) with groups_map := [], cerr := [] })
      ⟨1, 0, 0⟩ hd hk hc hname rfl
      (by simp only [StdMap.find, Option.getD_none, block_status_t.zero, if_true, hcap,
            Option.map_some']; rfl)
      (by decide)
  exact ⟨s1, pc, hrun, he, hr, hh, hm, hg, hce, fun k h1 h2 => hfr k h1 h2⟩

/-- C4: when two requested metrics both resolve to the same counter `A` on a block of hardware
capacity 1, extraction from empty collections returns `true`, the event of `A` and the result
of `A` are the only entries of the event list and of the result list, one slot of the block is
claimed, and nothing is written to the error stream. -/
theorem ExtractMetricEvents_shared_counter {V : Type} [NatCast V] (xcc_count : Nat)
    (get_info : event_t → Option Nat) (metrics_dict : String → Option (Metric V))
    (n1 n2 : String) (m1 m2 : Metric V) (A : counter_t)
    (hd1 : metrics_dict n1 = some m1) (hd2 : metrics_dict n2 = some m2)
    (hk1 : n1 ≠ "KERNEL_DURATION") (hk2 : n2 ≠ "KERNEL_DURATION")
    (hc1 : m1.counters = [A]) (hc2 : m2.counters = [A])
    (hcap : get_info A.event = some 1)
    (hname : m1.expr ≠ none → n1 ≠ A.name) :
    ∃ s pA, ExtractMetricEvents [n1, n2] xcc_count get_info metrics_dict ExtractState.empty
        = .ok (true, s) ∧
      s.events_list = [A.event] ∧ s.results_list = [some pA] ∧
      s.heap[pA]? = some { results_t.new A.name event_t.zero xcc_count with event := A.event } ∧
      StdMap.find s.results_map A.name = some (some pA) ∧
      StdMap.find s.groups_map ⟨A.event.block_name, A.event.block_index⟩ = some ⟨1, 1, 0⟩ ∧
      s.cerr = [] := by
  obtain ⟨s1, pA, hrun1, he1, hr1, hh1, hm1, hg1, hce1, _⟩ :=
    extractMetric_first_of_capacity_one xcc_count get_info metrics_dict n1 m1 A hd1 hk1 hc1
      hname hcap
  obtain ⟨s2, hrun2, he2, hr2, hg2, hce2, hpres⟩ :=
    extractMetric_dedup xcc_count get_info metrics_dict n2 m2 A s1 (some pA) hd2 hk2 hc2 hm1
  refine ⟨s2, pA, ?_, he2.trans he1, hr2.trans hr1, hpres.1 _ _ hh1, hpres.2 _ _ hm1,
    by rw [hg2]; exact hg1, hce2.trans hce1⟩
  simp only [ExtractMetricEvents, extractMetrics, hrun1, hrun2]

theorem ExtractMetricEvents_shared_counter_witness :
    ∃ s pA, ExtractMetricEvents ["SQ_WAVES", "WAVES_TWICE"] 1 (fun _ => some 1)
        catalog_shared ExtractState.empty = .ok (true, s) ∧
      s.events_list = [⟨6, 0, 4⟩] ∧ s.results_list = [some pA] ∧
      s.heap[pA]? = some { results_t.new "SQ_WAVES" event_t.zero 1 with event := ⟨6, 0, 4⟩ } ∧
      StdMap.find s.results_map "SQ_WAVES" = some (some pA) ∧
      StdMap.find s.groups_map ⟨6, 0⟩ = some ⟨1, 1, 0⟩ ∧
      s.cerr = [] :=
  ExtractMetricEvents_shared_counter 1 (fun _ => some 1) catalog_shared
    "SQ_WAVES" "WAVES_TWICE" ⟨"SQ_WAVES", [SQ_WAVES], none⟩
    ⟨"WAVES_TWICE", [SQ_WAVES], some (.add (.var "SQ_WAVES") (.var "SQ_WAVES"))⟩ SQ_WAVES
    (by rfl) (by rfl) (by decide) (by decide) rfl rfl rfl (fun h => absurd rfl h)

/-- C3: when two counters `A` and `B` with different names on the same block of hardware
capacity 1 are requested in that order, extraction from empty collections returns `false` after
writing one message to the error stream, and it does so after `A` has been assigned: the event
list holds the event of `A` only and the result list the result of `A` only; a result was
created for `B` but it is not in the result list, and the event of `B`, when it differs from
the event of `A`, is not in the event list. -/
theorem ExtractMetricEvents_capacity_exceeded {V : Type} [NatCast V] (xcc_count : Nat)
    (get_info : event_t → Option Nat) (metrics_dict : String → Option (Metric V))
    (n1 n2 : String) (m1 m2 : Metric V) (A B : counter_t)
    (hd1 : metrics_dict n1 = some m1) (hd2 : metrics_dict n2 = some m2)
    (hk1 : n1 ≠ "KERNEL_DURATION") (hk2 : n2 ≠ "KERNEL_DURATION")
    (hc1 : m1.counters = [A]) (hc2 : m2.counters = [B])
    (hne : A.name ≠ B.name)
    (hblock : A.event.block_name = B.event.block_name ∧
      A.event.block_index = B.event.block_index)
    (hcap : get_info A.event = some 1)
    (hname1 : m1.expr ≠ none → n1 ≠ A.name ∧ n1 ≠ B.name)
    (hname2 : m2.expr ≠ none → n2 ≠ B.name) :
    ∃ s pA pB, ExtractMetricEvents [n1, n2] xcc_count get_info metrics_dict ExtractState.empty
        = .ok (false, s) ∧
      s.events_list = [A.event] ∧ s.results_list = [some pA] ∧
      s.heap[pA]? = some { results_t.new A.name event_t.zero xcc_count with event := A.event } ∧
      StdMap.find s.results_map A.name = some (some pA) ∧
      s.heap[pB]? = some (results_t.new B.name event_t.zero xcc_count) ∧
      StdMap.find s.results_map B.name = some (some pB) ∧
      some pB ∉ s.results_list ∧
      (A.event ≠ B.event → B.event ∉ s.events_list) ∧
      s.cerr.length = 1 := by
  obtain ⟨s1, pA, hrun1, he1, hr1, hh1, hm1, hg1, hce1, hfr1⟩ :=
    extractMetric_first_of_capacity_one xcc_count get_info metrics_dict n1 m1 A hd1 hk1 hc1
      (fun h => (hname1 h).1) hcap
  have hB1 : StdMap.find s1.results_map B.name = none :=
    hfr1 B.name (fun h => fun hb => (hname1 h).2 hb.symm) (fun h => hne h.symm)
  have hgB : StdMap.find s1.groups_map ⟨B.event.block_name, B.event.block_index⟩
      = some ⟨1, 1, 0⟩ := by
    rw [← hblock.1, ← hblock.2]; exact hg1
  obtain ⟨s2, pB, hrun2, he2, hr2, hh2, hm2, hce2, hpres, hlen⟩ :=
    extractMetric_full xcc_count get_info metrics_dict n2 m2 B s1 ⟨1, 1, 0⟩ hd2 hk2 hc2 hname2
      hB1 (by simp only [hgB, Option.getD_some]; rfl) (le_refl _)
  have hpA : pA < s1.heap.length := (List.getElem?_eq_some.mp hh1).1
  refine ⟨s2, pA, pB, ?_, he2.trans he1, hr2.trans hr1, hpres.1 _ _ hh1, hpres.2 _ _ hm1,
    hh2, hm2, ?_, ?_, ?_⟩
  · simp only [ExtractMetricEvents, extractMetrics, hrun1, hrun2]
  · rw [hr2, hr1, List.mem_singleton, Option.some.injEq]
    omega
  · intro hev
    rw [he2, he1, List.mem_singleton]
    exact fun h => hev h.symm
  · rw [hce2, hce1]; rfl

theorem ExtractMetricEvents_capacity_exceeded_witness :
    ∃ s pA pB, ExtractMetricEvents ["SQ_WAVES", "SQ_BUSY_CYCLES"] 1 (fun _ => some 1)
        catalog_basic ExtractState.empty = .ok (false, s) ∧
      s.events_list = [SQ_WAVES.event] ∧ s.results_list = [some pA] ∧
      s.heap[pA]? = some
        { results_t.new SQ_WAVES.name event_t.zero 1 with event := SQ_WAVES.event } ∧
      StdMap.find s.results_map SQ_WAVES.name = some (some pA) ∧
      s.heap[pB]? = some (results_t.new SQ_BUSY_CYCLES.name event_t.zero 1) ∧
      StdMap.find s.results_map SQ_BUSY_CYCLES.name = some (some pB) ∧
      some pB ∉ s.results_list ∧
      (SQ_WAVES.event ≠ SQ_BUSY_CYCLES.event → SQ_BUSY_CYCLES.event ∉ s.events_list) ∧
      s.cerr.length = 1 :=
  ExtractMetricEvents_capacity_exceeded 1 (fun _ => some 1) catalog_basic
    "SQ_WAVES" "SQ_BUSY_CYCLES" ⟨"SQ_WAVES", [SQ_WAVES], none⟩
    ⟨"SQ_BUSY_CYCLES", [SQ_BUSY_CYCLES], none⟩ SQ_WAVES SQ_BUSY_CYCLES
    (by rfl) (by rfl) (by decide) (by decide) rfl rfl (by decide) ⟨rfl, rfl⟩ rfl
    (fun h => absurd rfl h) (fun h => absurd rfl h)

/-! ## Expression evaluation over the results map -/

theorem SameButVal_refl {V : Type} (h : Heap V) : SameButVal h h :=
  ⟨rfl, fun _ r hr => ⟨r.val_double, hr⟩⟩

theorem SameButVal_trans {V : Type} {h h1 h2 : Heap V} (p1 : SameButVal h h1)
    (p2 : SameButVal h1 h2) : SameButVal h h2 := by
  refine ⟨p2.1.trans p1.1, fun a r hr => ?_⟩
  obtain ⟨v, hv⟩ := p1.2 a r hr
  obtain ⟨w, hw⟩ := p2.2 a _ hv
  exact ⟨w, hw⟩

theorem SameButVal_set {V : Type} (h : Heap V) (a : Nat) (r : results_t V) (v : V)
    (ha : h[a]? = some r) : SameButVal h (h.set a { r with val_double := v }) := by
  refine ⟨List.length_set _ _ _, fun b rb hb => ?_⟩
  by_cases hab : a = b
  · subst hab
    rw [ha] at hb; cases hb
    exact ⟨v, List.getElem?_set_self (List.getElem?_eq_some.mp ha).1⟩
  · exact ⟨rb.val_double, by rw [List.getElem?_set_ne hab]; exact hb⟩

theorem set_val_double_ok {V : Type} (h : Heap V) (a : Nat) (v : V) (ha : a < h.length) :
    ∃ r, h[a]? = some r ∧
      set_val_double h (some a) v = .ok (h.set a { r with val_double := v }) := by
  have hr : h[a]? = some h[a] := List.getElem?_eq_getElem ha
  refine ⟨h[a], hr, ?_⟩
  have hd : Heap.deref h (some a) = some h[a] := hr
  simp only [set_val_double, hd]

theorem Lookup_found {V : Type} (h : Heap V) (m : StdMap String Ptr) (name : String) (q : Nat)
    (r : results_t V) (hf : StdMap.find m name = some (some q)) (hq : h[q]? = some r) :
    Lookup h m name = .ok (some r.val_double) := by
  simp only [Lookup, hf, hq]

theorem Eval_ok {V : Type} [Add V] [Sub V] [Mul V] [Div V] (h : Heap V)
    (m : StdMap String Ptr) :
    ∀ e : Expr V, (∀ v ∈ e.vars, HasResult h m v) → ∃ x, e.Eval (Lookup h m) = .ok x := by
  intro e
  induction e with
  | num c => intro _; exact ⟨c, rfl⟩
  | var name =>
    intro hv
    obtain ⟨q, hf, hq⟩ := hv name (List.mem_singleton.mpr rfl)
    have hr : h[q]? = some h[q] := List.getElem?_eq_getElem hq
    exact ⟨h[q].val_double, by simp only [Expr.Eval, Lookup_found h m name q _ hf hr]⟩
  | add a b iha ihb =>
    intro hv
    obtain ⟨x, hx⟩ := iha (fun v hm => hv v (List.mem_append_left _ hm))
    obtain ⟨y, hy⟩ := ihb (fun v hm => hv v (List.mem_append_right _ hm))
    exact ⟨x + y, by simp only [Expr.Eval, hx, hy]⟩
  | sub a b iha ihb =>
    intro hv
    obtain ⟨x, hx⟩ := iha (fun v hm => hv v (List.mem_append_left _ hm))
    obtain ⟨y, hy⟩ := ihb (fun v hm => hv v (List.mem_append_right _ hm))
    exact ⟨x - y, by simp only [Expr.Eval, hx, hy]⟩
  | mul a b iha ihb =>
    intro hv
    obtain ⟨x, hx⟩ := iha (fun v hm => hv v (List.mem_append_left _ hm))
    obtain ⟨y, hy⟩ := ihb (fun v hm => hv v (List.mem_append_right _ hm))
    exact ⟨x * y, by simp only [Expr.Eval, hx, hy]⟩
  | div a b iha ihb =>
    intro hv
    obtain ⟨x, hx⟩ := iha (fun v hm => hv v (List.mem_append_left _ hm))
    obtain ⟨y, hy⟩ := ihb (fun v hm => hv v (List.mem_append_right _ hm))
    exact ⟨x / y, by simp only [Expr.Eval, hx, hy]⟩

theorem Heap.val_of_getElem? {V : Type} (h : Heap V) (a : Nat) (r : results_t V)
    (ha : h[a]? = some r) : Heap.val h a = some r.val_double := by
  simp only [Heap.val, ha, Option.map_some']

theorem Lookup_val {V : Type} (h : Heap V) (m : StdMap String Ptr) (name : String) (q : Nat)
    (v : V) (hf : StdMap.find m name = some (some q)) (hq : Heap.val h q = some v) :
    Lookup h m name = .ok (some v) := by
  unfold Heap.val at hq
  cases hr : h[q]? with
  | none => rw [hr] at hq; cases hq
  | some r =>
    rw [hr] at hq
    simp only [Option.map_some', Option.some.injEq] at hq
    rw [Lookup_found h m name q r hf hr, hq]

theorem Eval_add_vars {V : Type} [Add V] [Sub V] [Mul V] [Div V] (h : Heap V)
    (m : StdMap String Ptr) (nameA nameB : String) (a b : Nat) (vA vB : V)
    (hA : StdMap.find m nameA = some (some a)) (hB : StdMap.find m nameB = some (some b))
    (hvA : Heap.val h a = some vA) (hvB : Heap.val h b = some vB) :
    (Expr.add (.var nameA) (.var nameB)).Eval (Lookup h m) = .ok (vA + vB) := by
  simp only [Expr.Eval, Lookup_val h m nameA a vA hA hvA, Lookup_val h m nameB b vB hB hvB]

/-- One pass of the loop of `GetMetricsData`: it returns when the metric is resolvable, writes
`val_double` of the metric's own result only, and what it writes there. -/
theorem evalMetric_spec {V : Type} [Add V] [Sub V] [Mul V] [Div V] [NatCast V]
    (m : StdMap String Ptr) (kd : Nat) (N : Metric V) (h : Heap V)
    (hres : ∀ e, N.expr = some e → HasResult h m N.name ∧
      (N.name ≠ "KERNEL_DURATION" → ∀ v ∈ e.vars, HasResult h m v)) :
    ∃ h1, evalMetric m kd N h = .ok h1 ∧ SameButVal h h1 ∧
      (∀ a : Nat, (N.expr ≠ none → StdMap.find m N.name ≠ some (some a)) → h1[a]? = h[a]?) ∧
      (∀ e q, N.expr = some e → StdMap.find m N.name = some (some q) →
        Heap.val h1 q =
          if N.name = "KERNEL_DURATION" then some (kd : V)
          else (e.Eval (Lookup h m)).toOption) := by
  cases he : N.expr with
  | none =>
    refine ⟨h, by simp only [evalMetric, he], SameButVal_refl h, fun _ _ => rfl, ?_⟩
    intro e q h1; cases h1
  | some e =>
    obtain ⟨⟨q, hf, hq⟩, hvars⟩ := hres e he
    have key : ∀ v : V, ∃ h1, set_val_double h (some q) v = .ok h1 ∧ SameButVal h h1 ∧
        (∀ a : Nat, StdMap.find m N.name ≠ some (some a) → h1[a]? = h[a]?) ∧
        Heap.val h1 q = some v := by
      intro v
      obtain ⟨r, hr, hset⟩ := set_val_double_ok h q v hq
      refine ⟨_, hset, SameButVal_set h q r v hr, ?_, ?_⟩
      · intro a ha
        have hqa : q ≠ a := fun hqa => ha (by rw [← hqa]; exact hf)
        exact List.getElem?_set_ne hqa
      · exact Heap.val_of_getElem? _ _ _ (List.getElem?_set_self hq)
    by_cases hk : N.name = "KERNEL_DURATION"
    · obtain ⟨h1, hset, hs, hfr, hv⟩ := key (kd : V)
      have hf2 := hf
      rw [hk] at hf2
      refine ⟨h1, by simp only [evalMetric, he, hk, hf2, if_true, hset], hs,
        fun a ha => hfr a (ha (by simp)), ?_⟩
      intro e1 q1 _ hq1
      rw [hf] at hq1
      simp only [Option.some.injEq] at hq1
      subst hq1
      simp only [hk, if_true, hv]
    · obtain ⟨x, hx⟩ := Eval_ok h m e (hvars hk)
      obtain ⟨h1, hset, hs, hfr, hv⟩ := key x
      refine ⟨h1, by simp only [evalMetric, he, hf, hk, if_false, hx, hset], hs,
        fun a ha => hfr a (ha (by simp)), ?_⟩
      intro e1 q1 he1 hq1
      rw [hf] at hq1
      simp only [Option.some.injEq] at hq1 he1
      subst hq1; subst he1
      simp only [hk, if_false, hv, hx, Except.toOption]

/-- The loop of `GetMetricsData`, for a property `Good` of the heap that every pass keeps and
a value `w` that every pass writing to the address `c` writes: the loop returns, keeps `Good`,
and leaves `w` at `c` when it was there before or some pass wrote to `c`. -/
theorem evalMetrics_track {V : Type} [Add V] [Sub V] [Mul V] [Div V] [NatCast V]
    (m : StdMap String Ptr) (kd : Nat) (Good : Heap V → Prop) (c : Nat) (w : V) :
    ∀ (L : List (Metric V)),
      (∀ N ∈ L, ∀ h, Good h → ∃ h1, evalMetric m kd N h = .ok h1 ∧ Good h1 ∧
        (Heap.val h c = some w → Heap.val h1 c = some w) ∧
        (N.expr ≠ none → StdMap.find m N.name = some (some c) → Heap.val h1 c = some w)) →
      ∀ h, Good h → ∃ h1, evalMetrics m kd L h = .ok h1 ∧ Good h1 ∧
        (Heap.val h c = some w → Heap.val h1 c = some w) ∧
        ((∃ N ∈ L, N.expr ≠ none ∧ StdMap.find m N.name = some (some c)) →
          Heap.val h1 c = some w) := by
  intro L
  induction L with
  | nil =>
    intro _ h hg
    refine ⟨h, rfl, hg, fun hv => hv, ?_⟩
    rintro ⟨N, hN, _⟩
    cases hN
  | cons N rest ih =>
    intro hstep h hg
    obtain ⟨h1, hrun, hg1, hkeep, hwrite⟩ := hstep N (List.mem_cons_self N rest) h hg
    obtain ⟨h2, hrun2, hg2, hkeep2, hwrite2⟩ :=
      ih (fun N1 hN1 => hstep N1 (List.mem_cons_of_mem N hN1)) h1 hg1
    refine ⟨h2, by simp only [evalMetrics, hrun, hrun2], hg2, fun hv => hkeep2 (hkeep hv), ?_⟩
    rintro ⟨N1, hN1, he1, hf1⟩
    rcases List.mem_cons.mp hN1 with heq | hmem
    · subst heq
      exact hkeep2 (hwrite he1 hf1)
    · exact hwrite2 ⟨N1, hmem, he1, hf1⟩

theorem Heap.val_congr {V : Type} (h h1 : Heap V) (a : Nat) (he : h1[a]? = h[a]?) :
    Heap.val h1 a = Heap.val h a := by
  simp only [Heap.val, he]

theorem HasResult_of_length {V : Type} (h h1 : Heap V) (m : StdMap String Ptr) (name : String)
    (hl : h1.length = h.length) (hr : HasResult h m name) : HasResult h1 m name := by
  obtain ⟨q, hf, hq⟩ := hr
  exact ⟨q, hf, by rw [hl]; exact hq⟩

/-- The derived metric `M = A + B` under `GetMetricsData`, for a heap `h` whose objects are
those of `heap` (the list is resolvable on `heap`). -/
theorem evalMetrics_sum {V : Type} [Add V] [Sub V] [Mul V] [Div V] [NatCast V]
    (heap : Heap V) (results_map : StdMap String Ptr) (metrics_list : List (Metric V))
    (kd : Nat) (nameA nameB : String) (M : Metric V) (a b c : Nat) (vA vB : V)
    (hM : M ∈ metrics_list) (hexpr : M.expr = some (.add (.var nameA) (.var nameB)))
    (hMk : M.name ≠ "KERNEL_DURATION")
    (hA : StdMap.find results_map nameA = some (some a))
    (hB : StdMap.find results_map nameB = some (some b))
    (hC : StdMap.find results_map M.name = some (some c))
    (hres : Resolvable heap results_map metrics_list)
    (hsep : ∀ N ∈ metrics_list, N.expr ≠ none →
      StdMap.find results_map N.name ≠ some (some a) ∧
      StdMap.find results_map N.name ≠ some (some b) ∧
      (StdMap.find results_map N.name = some (some c) → N = M))
    (h : Heap V) (hsame : SameButVal heap h)
    (hvA : Heap.val h a = some vA) (hvB : Heap.val h b = some vB) :
    ∃ h1, evalMetrics results_map kd metrics_list h = .ok h1 ∧ SameButVal heap h1 ∧
      Heap.val h1 c = some (vA + vB) ∧ Heap.val h1 a = some vA ∧ Heap.val h1 b = some vB := by
  obtain ⟨h1, hrun, ⟨hs1, ha1, hb1⟩, _, hw⟩ :=
    evalMetrics_track results_map kd
      (fun x => SameButVal heap x ∧ Heap.val x a = some vA ∧ Heap.val x b = some vB)
      c (vA + vB) metrics_list
      (by
        intro N hN x ⟨hsx, hax, hbx⟩
        have hresN : ∀ e, N.expr = some e → HasResult x results_map N.name ∧
            (N.name ≠ "KERNEL_DURATION" → ∀ v ∈ e.vars, HasResult x results_map v) := by
          intro e he
          obtain ⟨r1, r2⟩ := hres N hN e he
          exact ⟨HasResult_of_length heap x _ _ hsx.1 r1,
            fun hk v hv => HasResult_of_length heap x _ _ hsx.1 (r2 hk v hv)⟩
        obtain ⟨x1, hrun, hs, hfr, hval⟩ := evalMetric_spec results_map kd N x hresN
        have hwr : N.expr ≠ none → StdMap.find results_map N.name = some (some c) →
            Heap.val x1 c = some (vA + vB) := by
          intro he hf
          have hNM : N = M := (hsep N hN he).2.2 hf
          subst hNM
          rw [hval _ c hexpr hf, if_neg hMk,
            Eval_add_vars x results_map nameA nameB a b vA vB hA hB hax hbx]
          rfl
        refine ⟨x1, hrun, ⟨SameButVal_trans hsx hs, ?_, ?_⟩, ?_, hwr⟩
        · rw [Heap.val_congr _ _ _ (hfr a (fun he => (hsep N hN he).1))]; exact hax
        · rw [Heap.val_congr _ _ _ (hfr b (fun he => (hsep N hN he).2.1))]; exact hbx
        · intro hcx
          by_cases hc : N.expr ≠ none ∧ StdMap.find results_map N.name = some (some c)
          · exact hwr hc.1 hc.2
          · rw [Heap.val_congr _ _ _ (hfr c (fun he hf => hc ⟨he, hf⟩))]; exact hcx)
      h ⟨hsame, hvA, hvB⟩
  exact ⟨h1, hrun, hs1, hw ⟨M, hM, by rw [hexpr]; simp, hC⟩, ha1, hb1⟩

/-- C7: when the results map holds results for the names `A`, `B` and for a derived metric `M`
of the metrics list with expression `A + B`, `GetMetricsData` returns and sets the value of the
result of `M` to the sum of the current values of the results of `A` and `B`, whose values it
leaves unchanged. -/
theorem GetMetricsData_sum {V : Type} [Add V] [Sub V] [Mul V] [Div V] [NatCast V]
    (heap : Heap V) (results_map : StdMap String Ptr) (metrics_list : List (Metric V))
    (kernel_duration : Nat) (nameA nameB : String) (M : Metric V) (a b c : Nat) (vA vB : V)
    (hM : M ∈ metrics_list) (hexpr : M.expr = some (.add (.var nameA) (.var nameB)))
    (hMk : M.name ≠ "KERNEL_DURATION")
    (hA : StdMap.find results_map nameA = some (some a))
    (hB : StdMap.find results_map nameB = some (some b))
    (hC : StdMap.find results_map M.name = some (some c))
    (hvA : Heap.val heap a = some vA) (hvB : Heap.val heap b = some vB)
    (hres : Resolvable heap results_map metrics_list)
    (hsep : ∀ N ∈ metrics_list, N.expr ≠ none →
      StdMap.find results_map N.name ≠ some (some a) ∧
      StdMap.find results_map N.name ≠ some (some b) ∧
      (StdMap.find results_map N.name = some (some c) → N = M)) :
    ∃ heap1, GetMetricsData heap results_map metrics_list kernel_duration = .ok (true, heap1) ∧
      Heap.val heap1 c = some (vA + vB) ∧
      Heap.val heap1 a = some vA ∧ Heap.val heap1 b = some vB := by
  obtain ⟨h1, hrun, _, hc, ha, hb⟩ :=
    evalMetrics_sum heap results_map metrics_list kernel_duration nameA nameB M a b c vA vB
      hM hexpr hMk hA hB hC hres hsep heap (SameButVal_refl heap) hvA hvB
  exact ⟨h1, by simp only [GetMetricsData, hrun], hc, ha, hb⟩

theorem Resolvable_AB : Resolvable heap_AB results_map_AB metrics_list_AB := by
  intro N hN e he
  simp only [metrics_list_AB, List.mem_cons, List.mem_singleton, List.not_mem_nil,
    or_false] at hN
  rcases hN with rfl | rfl
  · simp only [metric_M, Option.some.injEq] at he
    subst he
    refine ⟨⟨2, by decide, by decide⟩, fun _ v hv => ?_⟩
    simp only [Expr.vars, List.mem_append, List.mem_singleton] at hv
    rcases hv with rfl | rfl
    · exact ⟨0, by decide, by decide⟩
    · exact ⟨1, by decide, by decide⟩
  · exact ⟨⟨3, by decide, by decide⟩, fun hk => absurd rfl hk⟩

theorem separate_AB : ∀ N ∈ metrics_list_AB, N.expr ≠ none →
    StdMap.find results_map_AB N.name ≠ some (some 0) ∧
    StdMap.find results_map_AB N.name ≠ some (some 1) ∧
    (StdMap.find results_map_AB N.name = some (some 2) → N = metric_M) := by
  intro N hN _
  simp only [metrics_list_AB, List.mem_cons, List.mem_singleton, List.not_mem_nil,
    or_false] at hN
  rcases hN with rfl | rfl
  · exact ⟨by decide, by decide, fun _ => rfl⟩
  · exact ⟨by decide, by decide, by decide⟩

theorem GetMetricsData_sum_witness :
    ∃ heap1, GetMetricsData heap_AB results_map_AB metrics_list_AB 7 = .ok (true, heap1) ∧
      Heap.val heap1 2 = some (3 + 30) ∧
      Heap.val heap1 0 = some 3 ∧ Heap.val heap1 1 = some 30 :=
  GetMetricsData_sum heap_AB results_map_AB metrics_list_AB 7 "A" "B" metric_M 0 1 2 3 30
    (List.mem_cons_self _ _) rfl (by decide) (by decide) (by decide) (by decide) rfl rfl
    Resolvable_AB separate_AB

/-! ## Per-partition view -/

theorem SameButVal_xcc_val {V : Type} {h h1 : Heap V} (hs : SameButVal h h1) (a p : Nat) :
    Heap.xcc_val h1 a p = Heap.xcc_val h a p := by
  unfold Heap.xcc_val
  cases hr : h[a]? with
  | none =>
    have : h1[a]? = none := by
      apply List.getElem?_eq_none
      rw [hs.1]
      by_contra hlt
      rw [List.getElem?_eq_getElem (by omega)] at hr
      cases hr
    rw [this]
  | some r =>
    obtain ⟨v, hv⟩ := hs.2 a r hr
    rw [hv]; rfl

/-- The loops that copy the value for partition `p` into `val_double`, run on a heap `h` whose
objects are those of `heap`. -/
theorem set_vals_to_xcc_spec {V : Type} (p : Nat) (heap : Heap V) :
    ∀ (ps : List Ptr) (h : Heap V), SameButVal heap h → InRange p heap ps →
      ∃ h1, set_vals_to_xcc p ps h = .ok h1 ∧ SameButVal heap h1 ∧
        (∀ a, some a ∈ ps → Heap.val h1 a = Heap.xcc_val heap a p) ∧
        (∀ a, Heap.val h a = Heap.xcc_val heap a p → Heap.val h1 a = Heap.xcc_val heap a p) := by
  intro ps
  induction ps with
  | nil =>
    intro h hs _
    exact ⟨h, rfl, hs, fun a ha => absurd ha (List.not_mem_nil _), fun _ hv => hv⟩
  | cons q ps ih =>
    intro h hs hr
    obtain ⟨a, r, hqa, ha, hp⟩ := hr q (List.mem_cons_self q ps)
    subst hqa
    obtain ⟨v, hv⟩ := hs.2 a r ha
    have hx : r.xcc_vals[p]? = some r.xcc_vals[p] := List.getElem?_eq_getElem hp
    have hxv : Heap.xcc_val heap a p = some r.xcc_vals[p] := by
      simp only [Heap.xcc_val, ha, Option.some_bind, hx]
    have hd : Heap.deref h (some a) = some { r with val_double := v } := hv
    have hstep : set_val_to_xcc p h (some a)
        = .ok (h.set a { r with val_double := r.xcc_vals[p] }) := by
      simp only [set_val_to_xcc, hd, hx]
    have hs1 : SameButVal h (h.set a { r with val_double := r.xcc_vals[p] }) :=
      SameButVal_set h a { r with val_double := v } r.xcc_vals[p] hv
    have hval : ∀ b, Heap.val h b = Heap.xcc_val heap b p ∨ b = a →
        Heap.val (h.set a { r with val_double := r.xcc_vals[p] }) b
          = Heap.xcc_val heap b p := by
      intro b hb
      by_cases hab : a = b
      · subst hab
        rw [hxv]
        exact Heap.val_of_getElem? _ _ _
          (List.getElem?_set_self (List.getElem?_eq_some.mp hv).1)
      · rcases hb with hb | hb
        · rw [Heap.val_congr _ _ _ (List.getElem?_set_ne hab)]; exact hb
        · exact absurd hb.symm hab
    obtain ⟨h2, hrun, hs2, hin, hkeep⟩ := ih _ (SameButVal_trans hs hs1)
      (fun q1 hq1 => hr q1 (List.mem_cons_of_mem _ hq1))
    refine ⟨h2, by simp only [set_vals_to_xcc, hstep, hrun], hs2, ?_, ?_⟩
    · intro b hb
      rcases List.mem_cons.mp hb with hb | hb
      · simp only [Option.some.injEq] at hb
        exact hkeep b (hval b (Or.inr hb))
      · exact hin b hb
    · intro b hb
      exact hkeep b (hval b (Or.inl hb))

theorem StdMap.mem_values_of_find {K α : Type} [DecidableEq K] (k : K) (v : α) :
    ∀ m : StdMap K α, StdMap.find m k = some v → v ∈ m.map Prod.snd := by
  intro m
  induction m with
  | nil => intro h; cases h
  | cons e t ih =>
    obtain ⟨k1, v1⟩ := e
    intro h
    simp only [StdMap.find] at h
    by_cases hk : k1 = k
    · simp only [hk, if_true, Option.some.injEq] at h
      subst h
      exact List.mem_cons_self _ _
    · simp only [hk, if_false] at h
      exact List.mem_cons_of_mem _ (ih h)

/-- The two copy loops of `GetCountersAndMetricResultsByXcc`: they return when every result
has a value for partition `p`, and leave that value as the current value of every result of
the list and of the map. -/
theorem copy_loops_spec {V : Type} (p : Nat) (heap : Heap V) (results_list : List Ptr)
    (results_map : StdMap String Ptr)
    (hlist : InRange p heap results_list)
    (hmap : InRange p heap (results_map.map Prod.snd)) :
    ∃ h1 h2, set_vals_to_xcc p results_list heap = .ok h1 ∧
      set_vals_to_xcc p (results_map.map Prod.snd) h1 = .ok h2 ∧ SameButVal heap h2 ∧
      (∀ a, some a ∈ results_list ∨ some a ∈ results_map.map Prod.snd →
        Heap.val h2 a = Heap.xcc_val heap a p) := by
  obtain ⟨h1, hrun1, hs1, hin1, _⟩ :=
    set_vals_to_xcc_spec p heap results_list heap (SameButVal_refl heap) hlist
  obtain ⟨h2, hrun2, hs2, hin2, hkeep2⟩ :=
    set_vals_to_xcc_spec p heap (results_map.map Prod.snd) h1 hs1 hmap
  refine ⟨h1, h2, hrun1, hrun2, hs2, ?_⟩
  intro a ha
  rcases ha with ha | ha
  · exact hkeep2 a (hin1 a ha)
  · exact hin2 a ha

theorem Resolvable_step {V : Type} {heap x : Heap V} {m : StdMap String Ptr}
    {L : List (Metric V)} (hres : Resolvable heap m L) (hs : SameButVal heap x)
    (N : Metric V) (hN : N ∈ L) :
    ∀ e, N.expr = some e → HasResult x m N.name ∧
      (N.name ≠ "KERNEL_DURATION" → ∀ v ∈ e.vars, HasResult x m v) := by
  intro e he
  obtain ⟨r1, r2⟩ := hres N hN e he
  exact ⟨HasResult_of_length heap x _ _ hs.1 r1,
    fun hk v hv => HasResult_of_length heap x _ _ hs.1 (r2 hk v hv)⟩

/-- The loop of `GetMetricsData` leaves alone a result that belongs to no metric with an
expression. -/
theorem evalMetrics_untouched {V : Type} [Add V] [Sub V] [Mul V] [Div V] [NatCast V]
    (heap : Heap V) (results_map : StdMap String Ptr) (metrics_list : List (Metric V))
    (kd : Nat) (a : Nat)
    (hres : Resolvable heap results_map metrics_list)
    (hsep : ∀ N ∈ metrics_list, N.expr ≠ none →
      StdMap.find results_map N.name ≠ some (some a))
    (h : Heap V) (hsame : SameButVal heap h) :
    ∃ h1, evalMetrics results_map kd metrics_list h = .ok h1 ∧ SameButVal heap h1 ∧
      h1[a]? = h[a]? := by
  obtain ⟨h1, hrun, ⟨hs1, ha1⟩, _, _⟩ :=
    evalMetrics_track results_map kd (fun x => SameButVal heap x ∧ x[a]? = h[a]?)
      a ((0 : Nat) : V) metrics_list
      (by
        intro N hN x ⟨hsx, hax⟩
        obtain ⟨x1, hrun, hs, hfr, _⟩ :=
          evalMetric_spec results_map kd N x (Resolvable_step hres hsx N hN)
        have hfa : x1[a]? = x[a]? := hfr a (fun he => hsep N hN he)
        refine ⟨x1, hrun, ⟨SameButVal_trans hsx hs, hfa.trans hax⟩, ?_, ?_⟩
        · intro hv; rw [Heap.val_congr _ _ _ hfa]; exact hv
        · intro he hf; exact absurd hf (hsep N hN he))
      h ⟨hsame, rfl⟩
  exact ⟨h1, hrun, hs1, ha1⟩

/-- The loop of `GetMetricsData` leaves the elapsed time in the result of a `KERNEL_DURATION`
metric that carries an expression. -/
theorem evalMetrics_kernel_duration {V : Type} [Add V] [Sub V] [Mul V] [Div V] [NatCast V]
    (heap : Heap V) (results_map : StdMap String Ptr) (metrics_list : List (Metric V))
    (d : Nat) (K : Metric V) (c : Nat)
    (hK : K ∈ metrics_list) (hKn : K.name = "KERNEL_DURATION") (hKe : K.expr ≠ none)
    (hC : StdMap.find results_map "KERNEL_DURATION" = some (some c))
    (hres : Resolvable heap results_map metrics_list)
    (hsep : ∀ N ∈ metrics_list, N.expr ≠ none → N.name ≠ "KERNEL_DURATION" →
      StdMap.find results_map N.name ≠ some (some c))
    (h : Heap V) (hsame : SameButVal heap h) :
    ∃ h1, evalMetrics results_map d metrics_list h = .ok h1 ∧ SameButVal heap h1 ∧
      Heap.val h1 c = some (d : V) := by
  obtain ⟨h1, hrun, hs1, _, hw⟩ :=
    evalMetrics_track results_map d (fun x => SameButVal heap x) c (d : V) metrics_list
      (by
        intro N hN x hsx
        obtain ⟨x1, hrun, hs, hfr, hval⟩ :=
          evalMetric_spec results_map d N x (Resolvable_step hres hsx N hN)
        have hwr : N.expr ≠ none → StdMap.find results_map N.name = some (some c) →
            Heap.val x1 c = some (d : V) := by
          intro he hf
          have hk : N.name = "KERNEL_DURATION" := by
            by_contra hk
            exact hsep N hN he hk hf
          obtain ⟨e, hee⟩ : ∃ e, N.expr = some e := by
            cases hne : N.expr with
            | none => exact absurd hne he
            | some e => exact ⟨e, rfl⟩
          rw [hval e c hee hf, if_pos hk]
        refine ⟨x1, hrun, SameButVal_trans hsx hs, ?_, hwr⟩
        intro hcx
        by_cases hc : N.expr ≠ none ∧ StdMap.find results_map N.name = some (some c)
        · exact hwr hc.1 hc.2
        · rw [Heap.val_congr _ _ _ (hfr c (fun he hf => hc ⟨he, hf⟩))]; exact hcx)
      h hsame
  exact ⟨h1, hrun, hs1, hw ⟨K, hK, hKe, by rw [hKn]; exact hC⟩⟩

/-- C5: for a partition index `p` for which every result has a value, and a results map that
holds results for `A`, `B` and a derived metric `M` of the metrics list with expression
`A + B`, `GetCountersAndMetricResultsByXcc` returns and leaves as the value of `M` the sum of
the partition-`p` values of `A` and `B`. -/
theorem GetCountersAndMetricResultsByXcc_sum {V : Type} [Add V] [Sub V] [Mul V] [Div V]
    [NatCast V] (p : Nat) (heap : Heap V) (results_list : List Ptr)
    (results_map : StdMap String Ptr) (metrics_list : List (Metric V)) (kernel_duration : Nat)
    (nameA nameB : String) (M : Metric V) (a b c : Nat) (xA xB : V)
    (hlist : InRange p heap results_list)
    (hmap : InRange p heap (results_map.map Prod.snd))
    (hM : M ∈ metrics_list) (hexpr : M.expr = some (.add (.var nameA) (.var nameB)))
    (hMk : M.name ≠ "KERNEL_DURATION")
    (hA : StdMap.find results_map nameA = some (some a))
    (hB : StdMap.find results_map nameB = some (some b))
    (hC : StdMap.find results_map M.name = some (some c))
    (hxA : Heap.xcc_val heap a p = some xA) (hxB : Heap.xcc_val heap b p = some xB)
    (hres : Resolvable heap results_map metrics_list)
    (hsep : ∀ N ∈ metrics_list, N.expr ≠ none →
      StdMap.find results_map N.name ≠ some (some a) ∧
      StdMap.find results_map N.name ≠ some (some b) ∧
      (StdMap.find results_map N.name = some (some c) → N = M)) :
    ∃ heap1, GetCountersAndMetricResultsByXcc p heap results_list results_map metrics_list
        kernel_duration = .ok heap1 ∧
      Heap.val heap1 c = some (xA + xB) ∧
      Heap.xcc_val heap1 a p = some xA ∧ Heap.xcc_val heap1 b p = some xB := by
  obtain ⟨h1, h2, hrun1, hrun2, hs2, hin⟩ :=
    copy_loops_spec p heap results_list results_map hlist hmap
  have hvA : Heap.val h2 a = some xA := by
    rw [hin a (Or.inr (StdMap.mem_values_of_find _ _ _ hA))]; exact hxA
  have hvB : Heap.val h2 b = some xB := by
    rw [hin b (Or.inr (StdMap.mem_values_of_find _ _ _ hB))]; exact hxB
  obtain ⟨h3, hrun3, hs3, hc, _, _⟩ :=
    evalMetrics_sum heap results_map metrics_list kernel_duration nameA nameB M a b c xA xB
      hM hexpr hMk hA hB hC hres hsep h2 hs2 hvA hvB
  refine ⟨h3, ?_, hc, ?_, ?_⟩
  · simp only [GetCountersAndMetricResultsByXcc, hrun1, hrun2, GetMetricsData, hrun3]
  · rw [SameButVal_xcc_val hs3]; exact hxA
  · rw [SameButVal_xcc_val hs3]; exact hxB

theorem InRange_AB_list : InRange 1 heap_AB results_list_AB := by
  intro q hq
  simp only [results_list_AB, List.mem_cons, List.mem_singleton, List.not_mem_nil,
    or_false] at hq
  rcases hq with rfl | rfl
  · exact ⟨0, _, rfl, rfl, by decide⟩
  · exact ⟨1, _, rfl, rfl, by decide⟩

theorem InRange_AB_map : InRange 1 heap_AB (results_map_AB.map Prod.snd) := by
  intro q hq
  simp only [results_map_AB, List.map_cons, List.map_nil, List.mem_cons, List.mem_singleton,
    List.not_mem_nil, or_false] at hq
  rcases hq with rfl | rfl | rfl | rfl
  · exact ⟨0, _, rfl, rfl, by decide⟩
  · exact ⟨1, _, rfl, rfl, by decide⟩
  · exact ⟨3, _, rfl, rfl, by decide⟩
  · exact ⟨2, _, rfl, rfl, by decide⟩

theorem GetCountersAndMetricResultsByXcc_sum_witness :
    ∃ heap1, GetCountersAndMetricResultsByXcc 1 heap_AB results_list_AB results_map_AB
        metrics_list_AB 7 = .ok heap1 ∧
      Heap.val heap1 2 = some (2 + 20) ∧
      Heap.xcc_val heap1 0 1 = some 2 ∧ Heap.xcc_val heap1 1 1 = some 20 :=
  GetCountersAndMetricResultsByXcc_sum 1 heap_AB results_list_AB results_map_AB
    metrics_list_AB 7 "A" "B" metric_M 0 1 2 2 20 InRange_AB_list InRange_AB_map
    (List.mem_cons_self _ _) rfl (by decide) (by decide) (by decide) (by decide) rfl rfl
    Resolvable_AB separate_AB

/-- C6, as stated, fails: the total of the counter result `A` is 3 before the call for
partition 0 and 1 after it. -/
theorem GetCountersAndMetricResultsByXcc_overwrites_total :
    ∃ heap1, GetCountersAndMetricResultsByXcc 0 heap_AB results_list_AB results_map_AB
        metrics_list_AB 7 = .ok heap1 ∧
      Heap.val heap_AB 0 = some 3 ∧ Heap.val heap1 0 = some 1 ∧
      Heap.val heap1 0 ≠ Heap.val heap_AB 0 :=
  ⟨_, rfl, rfl, rfl, by decide⟩

/-- C6, amended: for a partition index `p` for which every result has a value,
`GetCountersAndMetricResultsByXcc` returns and leaves the counter results `A` and `B` (results
of no metric with an expression) with their name, event and per-partition values unmodified
and with their partition-`p` value as the value of `val_double`. -/
theorem GetCountersAndMetricResultsByXcc_counter_results {V : Type} [Add V] [Sub V] [Mul V]
    [Div V] [NatCast V] (p : Nat) (heap : Heap V) (results_list : List Ptr)
    (results_map : StdMap String Ptr) (metrics_list : List (Metric V)) (kernel_duration : Nat)
    (nameA nameB : String) (a b : Nat) (rA rB : results_t V)
    (hlist : InRange p heap results_list)
    (hmap : InRange p heap (results_map.map Prod.snd))
    (hA : StdMap.find results_map nameA = some (some a))
    (hB : StdMap.find results_map nameB = some (some b))
    (hrA : heap[a]? = some rA) (hrB : heap[b]? = some rB)
    (hres : Resolvable heap results_map metrics_list)
    (hsep : ∀ N ∈ metrics_list, N.expr ≠ none →
      StdMap.find results_map N.name ≠ some (some a) ∧
      StdMap.find results_map N.name ≠ some (some b)) :
    ∃ heap1 xA xB, GetCountersAndMetricResultsByXcc p heap results_list results_map
        metrics_list kernel_duration = .ok heap1 ∧
      rA.xcc_vals[p]? = some xA ∧ rB.xcc_vals[p]? = some xB ∧
      heap1[a]? = some { rA with val_double := xA } ∧
      heap1[b]? = some { rB with val_double := xB } := by
  obtain ⟨h1, h2, hrun1, hrun2, hs2, hin⟩ :=
    copy_loops_spec p heap results_list results_map hlist hmap
  obtain ⟨h3, hrun3, hs3, ha3⟩ :=
    evalMetrics_untouched heap results_map metrics_list kernel_duration a hres
      (fun N hN he => (hsep N hN he).1) h2 hs2
  obtain ⟨h4, hrun4, _, hb4⟩ :=
    evalMetrics_untouched heap results_map metrics_list kernel_duration b hres
      (fun N hN he => (hsep N hN he).2) h2 hs2
  have h34 : h4 = h3 := by
    rw [hrun3] at hrun4
    cases hrun4; rfl
  subst h34
  have key : ∀ (q : Nat) (r : results_t V), heap[q]? = some r →
      some q ∈ results_map.map Prod.snd → h4[q]? = h2[q]? →
      ∃ x, r.xcc_vals[p]? = some x ∧ h4[q]? = some { r with val_double := x } := by
    intro q r hr hq h42
    obtain ⟨v, hv⟩ := hs2.2 q r hr
    have hval := hin q (Or.inr hq)
    rw [Heap.val_of_getElem? _ _ _ hv] at hval
    simp only [Heap.xcc_val, hr, Option.some_bind] at hval
    exact ⟨v, hval.symm, by rw [h42]; exact hv⟩
  obtain ⟨xA, hxA, hA4⟩ := key a rA hrA (StdMap.mem_values_of_find _ _ _ hA) ha3
  obtain ⟨xB, hxB, hB4⟩ := key b rB hrB (StdMap.mem_values_of_find _ _ _ hB) hb4
  refine ⟨h4, xA, xB, ?_, hxA, hxB, hA4, hB4⟩
  simp only [GetCountersAndMetricResultsByXcc, hrun1, hrun2, GetMetricsData, hrun3]

theorem GetCountersAndMetricResultsByXcc_counter_results_witness :
    ∃ heap1 xA xB, GetCountersAndMetricResultsByXcc 1 heap_AB results_list_AB results_map_AB
        metrics_list_AB 7 = .ok heap1 ∧
      ([1, 2] : List Int)[1]? = some xA ∧ ([10, 20] : List Int)[1]? = some xB ∧
      heap1[0]? = some ⟨"A", ⟨6, 0, 4⟩, xA, [1, 2]⟩ ∧
      heap1[1]? = some ⟨"B", ⟨6, 0, 3⟩, xB, [10, 20]⟩ :=
  GetCountersAndMetricResultsByXcc_counter_results 1 heap_AB results_list_AB results_map_AB
    metrics_list_AB 7 "A" "B" 0 1 ⟨"A", ⟨6, 0, 4⟩, 3, [1, 2]⟩ ⟨"B", ⟨6, 0, 3⟩, 30, [10, 20]⟩
    InRange_AB_list InRange_AB_map (by decide) (by decide) rfl rfl Resolvable_AB
    (fun N hN he => ⟨(separate_AB N hN he).1, (separate_AB N hN he).2.1⟩)

/-! ## Block capacity -/

theorem capacity_lt (get_info : event_t → Option Nat) (e : event_t) :
    capacity get_info e < UINT32_SIZE := by
  unfold capacity
  cases get_info e with
  | none => decide
  | some q => exact Nat.mod_lt _ (by decide)

theorem extractCounter_absent_fields {V : Type} [NatCast V] (xcc_count : Nat)
    (get_info : event_t → Option Nat) (c : counter_t) (s s1 : ExtractState V) (b : Bool)
    (bs : block_status_t)
    (hrun : extractCounter xcc_count get_info c s = .ok (b, s1))
    (hf : StdMap.find s.results_map c.name = none)
    (hq : (if ((StdMap.find s.groups_map ⟨c.event.block_name, c.event.block_index⟩).getD
              block_status_t.zero).max_counters = 0 then
            (get_info c.event).map (fun q =>
              { (StdMap.find s.groups_map ⟨c.event.block_name, c.event.block_index⟩).getD
                  block_status_t.zero with max_counters := q % UINT32_SIZE })
          else some ((StdMap.find s.groups_map ⟨c.event.block_name, c.event.block_index⟩).getD
              block_status_t.zero)) = some bs) :
    s1.groups_map = StdMap.assign lt_block_des
        (StdMap.emplace lt_block_des s.groups_map c.event.block block_status_t.zero)
        c.event.block
        (if bs.max_counters ≤ bs.counter_index then bs
         else { bs with counter_index := (bs.counter_index + 1) % UINT32_SIZE }) ∧
      s1.events_list =
        (if bs.max_counters ≤ bs.counter_index then s.events_list
         else s.events_list ++ [c.event]) ∧
      b = !decide (bs.max_counters ≤ bs.counter_index) := by
  rw [extractCounter_absent xcc_count get_info c s bs hf hq] at hrun
  by_cases hfull : bs.max_counters ≤ bs.counter_index
  · rw [if_pos hfull] at hrun
    simp only [Except.ok.injEq, Prod.mk.injEq] at hrun
    obtain ⟨hb, hs⟩ := hrun
    subst hs; subst hb
    simp only [hfull, if_true, decide_True, Bool.not_true]
    exact ⟨rfl, trivial, trivial⟩
  · rw [if_neg hfull] at hrun
    simp only [Except.ok.injEq, Prod.mk.injEq] at hrun
    obtain ⟨hb, hs⟩ := hrun
    subst hs; subst hb
    simp only [hfull, if_false, decide_False, Bool.not_false]
    exact ⟨rfl, trivial, trivial⟩

/-- The outcomes of one pass of the counter loop that returns: either the counter had a result
and nothing changed, or the block of the counter has the status `bs` after the capacity query
(a query result, or a cached non-zero maximum) and the pass claims a slot or returns `false`. -/
theorem extractCounter_cases {V : Type} [NatCast V] (xcc_count : Nat)
    (get_info : event_t → Option Nat) (c : counter_t) (s s1 : ExtractState V) (b : Bool)
    (hrun : extractCounter xcc_count get_info c s = .ok (b, s1)) :
    (b = true ∧ s1 = s) ∨
    ∃ bs, StdMap.find s.results_map c.name = none ∧
      s1.groups_map = StdMap.assign lt_block_des
        (StdMap.emplace lt_block_des s.groups_map c.event.block block_status_t.zero)
        c.event.block
        (if bs.max_counters ≤ bs.counter_index then bs
         else { bs with counter_index := (bs.counter_index + 1) % UINT32_SIZE }) ∧
      s1.events_list =
        (if bs.max_counters ≤ bs.counter_index then s.events_list
         else s.events_list ++ [c.event]) ∧
      b = !decide (bs.max_counters ≤ bs.counter_index) ∧
      bs.counter_index = claimed_slots s.groups_map c.event.block ∧
      ((∃ q, get_info c.event = some q ∧ bs.max_counters = q % UINT32_SIZE ∧
          ∀ st, StdMap.find s.groups_map c.event.block = some st → st.max_counters = 0) ∨
       (StdMap.find s.groups_map c.event.block = some bs ∧ bs.max_counters ≠ 0)) := by
  cases hf : StdMap.find s.results_map c.name with
  | some p =>
    rw [extractCounter_present xcc_count get_info c s p hf] at hrun
    simp only [Except.ok.injEq, Prod.mk.injEq] at hrun
    exact Or.inl ⟨hrun.1.symm, hrun.2.symm⟩
  | none =>
    right
    have hci : ((StdMap.find s.groups_map c.event.block).getD block_status_t.zero).counter_index
        = claimed_slots s.groups_map c.event.block := by
      unfold claimed_slots
      cases StdMap.find s.groups_map c.event.block <;> rfl
    by_cases hmax :
        ((StdMap.find s.groups_map c.event.block).getD block_status_t.zero).max_counters = 0
    · cases hg : get_info c.event with
      | none =>
        have hfe : (StdMap.find (StdMap.emplace lt_block_des s.groups_map
              ⟨c.event.block_name, c.event.block_index⟩ block_status_t.zero)
              ⟨c.event.block_name, c.event.block_index⟩).getD block_status_t.zero
            = (StdMap.find s.groups_map c.event.block).getD block_status_t.zero := by
          rw [StdMap.find_emplace]; simp only [if_true, Option.getD_some]; rfl
        simp only [extractCounter, hf, Heap.alloc, hfe, hmax, if_true, hg] at hrun
        cases hrun
      | some q =>
        have habs := extractCounter_absent_fields xcc_count get_info c s s1 b
          { (StdMap.find s.groups_map c.event.block).getD block_status_t.zero with
            max_counters := q % UINT32_SIZE } hrun hf
          (by
            have hmax1 : ((StdMap.find s.groups_map
                ⟨c.event.block_name, c.event.block_index⟩).getD
                  block_status_t.zero).max_counters = 0 := hmax
            simp only [hmax1, if_true, hg, Option.map_some']
            rfl)
        obtain ⟨h1, h2, h3⟩ := habs
        refine ⟨_, rfl, h1, h2, h3, hci, Or.inl ⟨q, rfl, rfl, ?_⟩⟩
        intro st hst
        rw [hst] at hmax
        exact hmax
    · have habs := extractCounter_absent_fields xcc_count get_info c s s1 b
        ((StdMap.find s.groups_map c.event.block).getD block_status_t.zero) hrun hf
        (by
          have hmax1 : ¬ ((StdMap.find s.groups_map
              ⟨c.event.block_name, c.event.block_index⟩).getD
                block_status_t.zero).max_counters = 0 := hmax
          simp only [hmax1, if_false]
          rfl)
      obtain ⟨h1, h2, h3⟩ := habs
      refine ⟨_, rfl, h1, h2, h3, hci, Or.inr ⟨?_, hmax⟩⟩
      cases hfind : StdMap.find s.groups_map c.event.block with
      | none => rw [hfind] at hmax; exact absurd rfl hmax
      | some st => rfl

theorem claimed_slots_assign (gm : StdMap block_des_t block_status_t) (blk0 blk : block_des_t)
    (x : block_status_t) :
    claimed_slots (StdMap.assign lt_block_des
        (StdMap.emplace lt_block_des gm blk0 block_status_t.zero) blk0 x) blk
      = if blk0 = blk then x.counter_index else claimed_slots gm blk := by
  unfold claimed_slots
  rw [StdMap.find_assign]
  by_cases h : blk0 = blk
  · simp only [h, if_true]
  · simp only [h, if_false, StdMap.find_emplace]

theorem eventsOnBlock_append (l : List event_t) (e : event_t) (blk : block_des_t) :
    eventsOnBlock (l ++ [e]) blk = eventsOnBlock l blk + (if e.block = blk then 1 else 0) := by
  unfold eventsOnBlock
  rw [List.countP_append]
  by_cases h : e.block = blk
  · simp [h]
  · simp [h]

/-- Every pass of the counter loop that returns, also with `false`, keeps the claimed slots
within the capacity of the block, and keeps the events of the list in step with the slots. -/
theorem extractCounter_invariant {V : Type} [NatCast V] (xcc_count : Nat)
    (get_info : event_t → Option Nat)
    (hblock : ∀ e1 e2 : event_t, e1.block = e2.block → get_info e1 = get_info e2)
    (c : counter_t) (s s1 : ExtractState V) (b : Bool)
    (hslots : SlotsWithinCapacity get_info s)
    (hrun : extractCounter xcc_count get_info c s = .ok (b, s1)) :
    SlotsWithinCapacity get_info s1 ∧ (EventsMatchSlots s → EventsMatchSlots s1) := by
  rcases extractCounter_cases xcc_count get_info c s s1 b hrun with
    ⟨_, hs⟩ | ⟨bs, _, hgm, hev, _, hci, hsrc⟩
  · subst hs; exact ⟨hslots, fun h => h⟩
  · have hbs : bs.counter_index ≤ bs.max_counters ∧
        ∀ e : event_t, e.block = c.event.block → bs.max_counters = capacity get_info e := by
      rcases hsrc with ⟨q, hq, hmax, hzero⟩ | ⟨hfind, _⟩
      · constructor
        · rw [hci]; unfold claimed_slots
          cases hfind : StdMap.find s.groups_map c.event.block with
          | none => exact Nat.zero_le _
          | some st =>
            have h1 := (hslots _ st hfind).1
            have h2 := hzero st hfind
            simp only []; omega
        · intro e he
          rw [hmax]; unfold capacity
          rw [hblock e c.event he, hq]
      · exact hslots _ bs hfind
    have hlt : bs.max_counters < UINT32_SIZE := by
      rw [hbs.2 c.event rfl]; exact capacity_lt get_info c.event
    constructor
    · intro blk st hfind
      rw [hgm, StdMap.find_assign] at hfind
      by_cases hk : c.event.block = blk
      · simp only [hk, if_true, Option.some.injEq] at hfind
        subst hfind
        by_cases hfull : bs.max_counters ≤ bs.counter_index
        · simp only [hfull, if_true]
          exact ⟨hbs.1, fun e he => hbs.2 e (he.trans hk.symm)⟩
        · simp only [hfull, if_false]
          refine ⟨?_, fun e he => hbs.2 e (he.trans hk.symm)⟩
          rw [Nat.mod_eq_of_lt (by omega)]; omega
      · simp only [hk, if_false, StdMap.find_emplace] at hfind
        exact hslots blk st hfind
    · intro hmatch blk
      rw [hgm, claimed_slots_assign, hev]
      by_cases hfull : bs.max_counters ≤ bs.counter_index
      · simp only [hfull, if_true]
        by_cases hk : c.event.block = blk
        · simp only [hk, if_true]
          rw [hmatch blk, hci, hk]
        · simp only [hk, if_false]
          exact hmatch blk
      · simp only [hfull, if_false]
        rw [eventsOnBlock_append, hmatch blk]
        by_cases hk : c.event.block = blk
        · simp only [hk, if_true]
          rw [Nat.mod_eq_of_lt (by omega), hci, hk]
        · simp only [hk, if_false, Nat.add_zero]

theorem SlotsWithinCapacity_congr {V : Type} (get_info : event_t → Option Nat)
    (s s1 : ExtractState V) (hg : s1.groups_map = s.groups_map)
    (h : SlotsWithinCapacity get_info s) : SlotsWithinCapacity get_info s1 := by
  intro blk st hfind
  rw [hg] at hfind
  exact h blk st hfind

theorem EventsMatchSlots_congr {V : Type} (s s1 : ExtractState V)
    (hg : s1.groups_map = s.groups_map) (he : s1.events_list = s.events_list)
    (h : EventsMatchSlots s) : EventsMatchSlots s1 := by
  intro blk
  rw [hg, he]
  exact h blk

theorem extractCounters_invariant {V : Type} [NatCast V] (xcc_count : Nat)
    (get_info : event_t → Option Nat)
    (hblock : ∀ e1 e2 : event_t, e1.block = e2.block → get_info e1 = get_info e2) :
    ∀ (cs : List counter_t) (s s1 : ExtractState V) (b : Bool),
      SlotsWithinCapacity get_info s →
      extractCounters xcc_count get_info cs s = .ok (b, s1) →
      SlotsWithinCapacity get_info s1 ∧ (EventsMatchSlots s → EventsMatchSlots s1) := by
  intro cs
  induction cs with
  | nil =>
    intro s s1 b hslots hrun
    simp only [extractCounters, Except.ok.injEq, Prod.mk.injEq] at hrun
    rw [← hrun.2]; exact ⟨hslots, fun h => h⟩
  | cons c rest ih =>
    intro s s1 b hslots hrun
    simp only [extractCounters] at hrun
    cases hc : extractCounter xcc_count get_info c s with
    | error f => rw [hc] at hrun; cases hrun
    | ok r =>
      obtain ⟨b2, s2⟩ := r
      obtain ⟨hsl2, hev2⟩ := extractCounter_invariant xcc_count get_info hblock c s s2 b2 hslots hc
      rw [hc] at hrun
      cases b2 with
      | false =>
        simp only [Except.ok.injEq, Prod.mk.injEq] at hrun
        rw [← hrun.2]; exact ⟨hsl2, hev2⟩
      | true =>
        simp only [] at hrun
        obtain ⟨hsl3, hev3⟩ := ih s2 s1 b hsl2 hrun
        exact ⟨hsl3, fun h => hev3 (hev2 h)⟩

theorem extractMetric_invariant {V : Type} [NatCast V] (xcc_count : Nat)
    (get_info : event_t → Option Nat)
    (hblock : ∀ e1 e2 : event_t, e1.block = e2.block → get_info e1 = get_info e2)
    (metrics_dict : String → Option (Metric V)) (n : String) (s s1 : ExtractState V) (b : Bool)
    (hslots : SlotsWithinCapacity get_info s)
    (hrun : extractMetric xcc_count get_info metrics_dict n s = .ok (b, s1)) :
    SlotsWithinCapacity get_info s1 ∧ (EventsMatchSlots s → EventsMatchSlots s1) := by
  unfold extractMetric at hrun
  cases hd : metrics_dict n with
  | none => rw [hd] at hrun; cases hrun
  | some m =>
    rw [hd] at hrun
    simp only [] at hrun
    by_cases hk : n = "KERNEL_DURATION"
    · rw [if_pos hk] at hrun
      cases hf : StdMap.find s.results_map n with
      | none =>
        rw [hf] at hrun
        simp only [Heap.alloc, Except.ok.injEq, Prod.mk.injEq] at hrun
        rw [← hrun.2]
        exact ⟨SlotsWithinCapacity_congr get_info s _ rfl hslots,
          fun h => EventsMatchSlots_congr s _ rfl rfl h⟩
      | some q =>
        rw [hf] at hrun
        simp only [Except.ok.injEq, Prod.mk.injEq] at hrun
        rw [← hrun.2]; exact ⟨hslots, fun h => h⟩
    · rw [if_neg hk] at hrun
      by_cases hem : m.counters.isEmpty = true
      · rw [if_pos hem] at hrun; cases hrun
      · rw [if_neg hem] at hrun
        have hpre : ∀ s0 : ExtractState V, s0.groups_map = s.groups_map →
            s0.events_list = s.events_list →
            extractCounters xcc_count get_info m.counters s0 = .ok (b, s1) →
            SlotsWithinCapacity get_info s1 ∧ (EventsMatchSlots s → EventsMatchSlots s1) := by
          intro s0 hg he hr
          obtain ⟨h1, h2⟩ := extractCounters_invariant xcc_count get_info hblock m.counters
            s0 s1 b (SlotsWithinCapacity_congr get_info s s0 hg hslots) hr
          exact ⟨h1, fun h => h2 (EventsMatchSlots_congr s s0 hg he h)⟩
        cases he : m.expr with
        | none =>
          rw [he] at hrun
          exact hpre s rfl rfl hrun
        | some e =>
          rw [he] at hrun
          cases hf : StdMap.find s.results_map n with
          | none =>
            rw [hf] at hrun
            refine hpre _ ?_ ?_ hrun <;> rfl
          | some q =>
            rw [hf] at hrun
            exact hpre s rfl rfl hrun

theorem extractMetrics_invariant {V : Type} [NatCast V] (xcc_count : Nat)
    (get_info : event_t → Option Nat)
    (hblock : ∀ e1 e2 : event_t, e1.block = e2.block → get_info e1 = get_info e2)
    (metrics_dict : String → Option (Metric V)) :
    ∀ (names : List String) (s s1 : ExtractState V) (b : Bool),
      SlotsWithinCapacity get_info s →
      extractMetrics xcc_count get_info metrics_dict names s = .ok (b, s1) →
      SlotsWithinCapacity get_info s1 ∧ (EventsMatchSlots s → EventsMatchSlots s1) := by
  intro names
  induction names with
  | nil =>
    intro s s1 b hslots hrun
    simp only [extractMetrics, Except.ok.injEq, Prod.mk.injEq] at hrun
    rw [← hrun.2]; exact ⟨hslots, fun h => h⟩
  | cons n rest ih =>
    intro s s1 b hslots hrun
    simp only [extractMetrics] at hrun
    cases hc : extractMetric xcc_count get_info metrics_dict n s with
    | error f => rw [hc] at hrun; cases hrun
    | ok r =>
      obtain ⟨b2, s2⟩ := r
      obtain ⟨hsl2, hev2⟩ :=
        extractMetric_invariant xcc_count get_info hblock metrics_dict n s s2 b2 hslots hc
      rw [hc] at hrun
      cases b2 with
      | false =>
        simp only [Except.ok.injEq, Prod.mk.injEq] at hrun
        rw [← hrun.2]; exact ⟨hsl2, hev2⟩
      | true =>
        simp only [] at hrun
        obtain ⟨hsl3, hev3⟩ := ih s2 s1 b hsl2 hrun
        exact ⟨hsl3, fun h => hev3 (hev2 h)⟩

/-- A pass of the counter loop for a counter without a result whose block has no slot left:
it returns `false` after writing one message and appends nothing. -/
theorem extractCounter_no_slot {V : Type} [NatCast V] (xcc_count : Nat)
    (get_info : event_t → Option Nat) (c : counter_t) (s : ExtractState V) (q : Nat)
    (hslots : SlotsWithinCapacity get_info s)
    (hf : StdMap.find s.results_map c.name = none)
    (hq : get_info c.event = some q)
    (hfull : capacity get_info c.event ≤ claimed_slots s.groups_map c.event.block) :
    ∃ s1, extractCounter xcc_count get_info c s = .ok (false, s1) ∧
      s1.events_list = s.events_list ∧ s1.results_list = s.results_list ∧
      s1.cerr.length = s.cerr.length + 1 := by
  have hcap : capacity get_info c.event = q % UINT32_SIZE := by
    unfold capacity; rw [hq]
  have hci : ((StdMap.find s.groups_map c.event.block).getD block_status_t.zero).counter_index
      = claimed_slots s.groups_map c.event.block := by
    unfold claimed_slots
    cases StdMap.find s.groups_map c.event.block <;> rfl
  by_cases hmax :
      ((StdMap.find s.groups_map c.event.block).getD block_status_t.zero).max_counters = 0
  · have habs := extractCounter_absent xcc_count get_info c s
      { (StdMap.find s.groups_map c.event.block).getD block_status_t.zero with
        max_counters := q % UINT32_SIZE } hf
      (by
        have hmax1 : ((StdMap.find s.groups_map
            ⟨c.event.block_name, c.event.block_index⟩).getD
              block_status_t.zero).max_counters = 0 := hmax
        simp only [hmax1, if_true, hq, Option.map_some']
        rfl)
    rw [if_pos (by simp only [ge_iff_le]; rw [hci, ← hcap]; exact hfull)] at habs
    exact ⟨_, habs, rfl, rfl, by simp only [List.length_append, List.length_singleton]⟩
  · have hfind : StdMap.find s.groups_map c.event.block
        = some ((StdMap.find s.groups_map c.event.block).getD block_status_t.zero) := by
      cases hfind : StdMap.find s.groups_map c.event.block with
      | none => rw [hfind] at hmax; exact absurd rfl hmax
      | some st => rfl
    have hinv := (hslots _ _ hfind).2 c.event rfl
    have habs := extractCounter_absent xcc_count get_info c s
      ((StdMap.find s.groups_map c.event.block).getD block_status_t.zero) hf
      (by
        have hmax1 : ¬ ((StdMap.find s.groups_map
            ⟨c.event.block_name, c.event.block_index⟩).getD
              block_status_t.zero).max_counters = 0 := hmax
        simp only [hmax1, if_false]
        rfl)
    rw [if_pos (by simp only [ge_iff_le]; rw [hci, hinv]; exact hfull)] at habs
    exact ⟨_, habs, rfl, rfl, by simp only [List.length_append, List.length_singleton]⟩

/-- C9: in an `ExtractMetricEvents` pass, with a capacity query that depends on the block of
the event only, the claimed slots of every block are at most the maximum that the hardware
reports for it: this holds when the pass starts, after every pass of the counter loop that
returns (also with `false`), and when the call returns.  For a call started with an empty
event list, the events of the list that belong to one block are at most the capacity of the
block.  A counter without a result whose block has no slot left makes its pass return `false`
with a message and nothing appended, and a `false` from a counter ends the counter loop and
the metric loop with `false`. -/
theorem ExtractMetricEvents_block_capacity {V : Type} [NatCast V] (xcc_count : Nat)
    (get_info : event_t → Option Nat) (metrics_dict : String → Option (Metric V))
    (hblock : ∀ e1 e2 : event_t, e1.block = e2.block → get_info e1 = get_info e2) :
    (∀ s0 : ExtractState V,
      SlotsWithinCapacity get_info { s0 with groups_map := [], cerr := [] }) ∧
    (∀ (c : counter_t) (s s1 : ExtractState V) (b : Bool), SlotsWithinCapacity get_info s →
      extractCounter xcc_count get_info c s = .ok (b, s1) → SlotsWithinCapacity get_info s1) ∧
    (∀ (names : List String) (s0 s : ExtractState V) (b : Bool),
      ExtractMetricEvents names xcc_count get_info metrics_dict s0 = .ok (b, s) →
      SlotsWithinCapacity get_info s) ∧
    (∀ (names : List String) (s0 s : ExtractState V) (b : Bool), s0.events_list = [] →
      ExtractMetricEvents names xcc_count get_info metrics_dict s0 = .ok (b, s) →
      ∀ e : event_t, eventsOnBlock s.events_list e.block ≤ capacity get_info e) ∧
    (∀ (c : counter_t) (s : ExtractState V) (q : Nat), SlotsWithinCapacity get_info s →
      StdMap.find s.results_map c.name = none → get_info c.event = some q →
      capacity get_info c.event ≤ claimed_slots s.groups_map c.event.block →
      ∃ s1, extractCounter xcc_count get_info c s = .ok (false, s1) ∧
        s1.events_list = s.events_list ∧ s1.results_list = s.results_list ∧
        s1.cerr.length = s.cerr.length + 1) ∧
    (∀ (c : counter_t) (rest : List counter_t) (s s1 : ExtractState V),
      extractCounter xcc_count get_info c s = .ok (false, s1) →
      extractCounters xcc_count get_info (c :: rest) s = .ok (false, s1)) ∧
    (∀ (n : String) (rest : List String) (s s1 : ExtractState V),
      extractMetric xcc_count get_info metrics_dict n s = .ok (false, s1) →
      extractMetrics xcc_count get_info metrics_dict (n :: rest) s = .ok (false, s1)) := by
  have hstart : ∀ s0 : ExtractState V,
      SlotsWithinCapacity get_info { s0 with groups_map := [], cerr := [] } := by
    intro s0 blk st hfind
    simp only [StdMap.find] at hfind
    cases hfind
  refine ⟨hstart, ?_, ?_, ?_, ?_, ?_, ?_⟩
  · intro c s s1 b hslots hrun
    exact (extractCounter_invariant xcc_count get_info hblock c s s1 b hslots hrun).1
  · intro names s0 s b hrun
    exact (extractMetrics_invariant xcc_count get_info hblock metrics_dict names _ s b
      (hstart s0) hrun).1
  · intro names s0 s b hempty hrun e
    obtain ⟨hslots, hev⟩ := extractMetrics_invariant xcc_count get_info hblock metrics_dict
      names _ s b (hstart s0) hrun
    have hmatch : EventsMatchSlots s := by
      apply hev
      intro blk
      simp only [hempty, eventsOnBlock, List.countP_nil, claimed_slots, StdMap.find]
    rw [hmatch e.block]
    unfold claimed_slots
    cases hfind : StdMap.find s.groups_map e.block with
    | none => exact Nat.zero_le _
    | some st =>
      obtain ⟨h1, h2⟩ := hslots _ st hfind
      simp only []
      rw [← h2 e rfl]; exact h1
  · intro c s q hslots hf hq hfull
    exact extractCounter_no_slot xcc_count get_info c s q hslots hf hq hfull
  · intro c rest s s1 hrun
    simp only [extractCounters, hrun]
  · intro n rest s s1 hrun
    simp only [extractMetrics, hrun]

theorem ExtractMetricEvents_basic_example_returns :
    ∃ s, ExtractMetricEvents ["SQ_WAVES", "SQ_BUSY_CYCLES"] 1 (fun _ => some 1)
      catalog_basic ExtractState.empty = .ok (false, s) :=
  ⟨_, rfl⟩

theorem ExtractMetricEvents_block_capacity_witness :
    (∀ e1 e2 : event_t, e1.block = e2.block →
      (fun _ : event_t => some 1) e1 = (fun _ : event_t => some 1) e2) ∧
    ∃ s, ExtractMetricEvents ["SQ_WAVES", "SQ_BUSY_CYCLES"] 1 (fun _ => some 1)
        catalog_basic ExtractState.empty = .ok (false, s) ∧
      SlotsWithinCapacity (fun _ => some 1) s ∧
      ∀ e : event_t, eventsOnBlock s.events_list e.block ≤ capacity (fun _ => some 1) e := by
  obtain ⟨s, hs⟩ := ExtractMetricEvents_basic_example_returns
  exact ⟨fun _ _ _ => rfl, s, hs,
    (ExtractMetricEvents_block_capacity 1 (fun _ => some 1) catalog_basic
      (fun _ _ _ => rfl)).2.2.1 _ ExtractState.empty s false hs,
    (ExtractMetricEvents_block_capacity 1 (fun _ => some 1) catalog_basic
      (fun _ _ _ => rfl)).2.2.2.1 _ ExtractState.empty s false rfl hs⟩

/-! ## Lookup of a variable that is not in the results map -/

/-- C10, at a failing input: for the variable `C`, which is not a key of the results map, the
lookup prints its message and goes on to read through the `end()` iterator, so neither it nor
`GetMetricsData` for a metric with the expression `A + C` ends in a fatal error. -/
theorem Lookup_missing_variable :
    StdMap.find results_map_AB "C" = none ∧
    Lookup heap_AB results_map_AB "C" = .error (.undefined "var 'C' is not found") ∧
    GetMetricsData heap_AB results_map_AB
        [⟨"M", [], some (.add (.var "A") (.var "C"))⟩] 7
      = .error (.undefined "var 'C' is not found") :=
  ⟨by decide, rfl, rfl⟩

/-! ## Session registry -/

theorem StdMap.find_erase {K α : Type} [DecidableEq K] (k k2 : K) :
    ∀ m : StdMap K α,
      StdMap.find (StdMap.erase m k) k2 = if k = k2 then none else StdMap.find m k2 := by
  intro m
  induction m with
  | nil =>
    simp only [StdMap.erase, List.filter_nil, StdMap.find, ite_self]
  | cons e t ih =>
    obtain ⟨k1, v1⟩ := e
    unfold StdMap.erase at ih ⊢
    by_cases h1 : k1 = k
    · subst h1
      simp only [List.filter_cons, ne_eq, not_true_eq_false, decide_False, Bool.false_eq_true,
        if_false, ih, StdMap.find]
      by_cases h2 : k1 = k2
      · simp only [h2, if_true]
      · simp only [h2, if_false]
    · simp only [List.filter_cons, ne_eq, h1, not_false_eq_true, decide_True, if_true,
        StdMap.find, ih]
      by_cases h2 : k1 = k2
      · have h3 : ¬ k = k2 := fun h => h1 (h2.trans h.symm)
        simp only [h2, if_true, h3, if_false]
      · simp only [h2, if_false]

theorem StdMap.eq_nil_of_find_none {K α : Type} [DecidableEq K] (m : StdMap K α)
    (h : ∀ k, StdMap.find m k = none) : m = [] := by
  cases m with
  | nil => rfl
  | cons e t =>
    obtain ⟨k1, v1⟩ := e
    have := h k1
    simp only [StdMap.find, if_true] at this
    cases this

theorem CreateSession_id (self : ROCProfiler_Singleton) (replay_mode : rocprofiler_replay_mode_t) :
    (CreateSession self replay_mode).1 = self.session_id_counter := rfl

theorem CreateSession_find (self : ROCProfiler_Singleton)
    (replay_mode : rocprofiler_replay_mode_t) (session_id : Nat) :
    StdMap.find (CreateSession self replay_mode).2.sessions_ session_id =
      if self.session_id_counter = session_id then
        some ((StdMap.find self.sessions_ self.session_id_counter).getD
          (some ⟨replay_mode, self.session_id_counter⟩))
      else StdMap.find self.sessions_ session_id := by
  simp only [CreateSession, GenerateUniqueSessionId, StdMap.find_emplace]

/-- C14: `GetSession` returns the session stored under the identifier whenever the identifier
is in the session table, which after a `CreateSession` of a new identifier is the session that
this call constructed; it fails, returning no session, exactly when the identifier is absent
from the table (by the assertion, or by `std::out_of_range` when assertions are compiled out);
in neither case does it change the registry. -/
theorem GetSession_spec (assertions : Bool) (self : ROCProfiler_Singleton) (session_id : Nat) :
    (∀ session, StdMap.find self.sessions_ session_id = some session →
      GetSession assertions self session_id = (.ok session, self)) ∧
    (StdMap.find self.sessions_ session_id = none →
      GetSession assertions self session_id =
        (.error (if assertions then .assertion_failed "Error: Can't find the session!"
          else .out_of_range), self)) ∧
    ((∃ f, (GetSession assertions self session_id).1 = .error f) ↔
      FindSession self session_id = false) ∧
    (GetSession assertions self session_id).2 = self ∧
    (∀ replay_mode, FindSession self (CreateSession self replay_mode).1 = false →
      GetSession assertions (CreateSession self replay_mode).2
          (CreateSession self replay_mode).1
        = (.ok (some ⟨replay_mode, (CreateSession self replay_mode).1⟩),
            (CreateSession self replay_mode).2)) := by
  refine ⟨?_, ?_, ?_, ?_, ?_⟩
  · intro session h
    simp only [GetSession, h]
  · intro h
    simp only [GetSession, h]
    cases assertions <;> rfl
  · unfold GetSession FindSession
    cases h : StdMap.find self.sessions_ session_id with
    | none =>
      simp only [Option.isSome_none, iff_true]
      cases assertions
      · exact ⟨_, rfl⟩
      · exact ⟨_, rfl⟩
    | some session =>
      simp only [Option.isSome_some, Bool.true_eq_false, iff_false, not_exists]
      intro f hf
      cases hf
  · unfold GetSession
    cases StdMap.find self.sessions_ session_id <;> rfl
  · intro replay_mode hfresh
    have hnone : StdMap.find self.sessions_ self.session_id_counter = none := by
      simp only [FindSession, CreateSession_id] at hfresh
      cases h : StdMap.find self.sessions_ self.session_id_counter with
      | none => rfl
      | some v => rw [h] at hfresh; cases hfresh
    have hf := CreateSession_find self replay_mode self.session_id_counter
    simp only [if_true, hnone, Option.getD_none] at hf
    simp only [GetSession, CreateSession_id, hf]

theorem GetSession_spec_witness :
    FindSession (ROCProfiler_Singleton.new 0 0)
        (CreateSession (ROCProfiler_Singleton.new 0 0) .ROCPROFILER_USER_REPLAY_MODE).1 = false ∧
    GetSession true (CreateSession (ROCProfiler_Singleton.new 0 0) .ROCPROFILER_USER_REPLAY_MODE).2
        (CreateSession (ROCProfiler_Singleton.new 0 0) .ROCPROFILER_USER_REPLAY_MODE).1
      = (.ok (some ⟨.ROCPROFILER_USER_REPLAY_MODE,
            (CreateSession (ROCProfiler_Singleton.new 0 0) .ROCPROFILER_USER_REPLAY_MODE).1⟩),
          (CreateSession (ROCProfiler_Singleton.new 0 0) .ROCPROFILER_USER_REPLAY_MODE).2) :=
  ⟨by decide,
    (GetSession_spec true (ROCProfiler_Singleton.new 0 0)
      (CreateSession (ROCProfiler_Singleton.new 0 0) .ROCPROFILER_USER_REPLAY_MODE).1).2.2.2.2
      .ROCPROFILER_USER_REPLAY_MODE (by decide)⟩

theorem successive_calls_fetch_add (f : ROCProfiler_Singleton → Nat × ROCProfiler_Singleton)
    (counter : ROCProfiler_Singleton → Nat)
    (hf : ∀ self, (f self).1 = counter self ∧
      counter (f self).2 = (counter self + 1) % UINT64_SIZE) :
    ∀ (n : Nat) (self : ROCProfiler_Singleton), counter self < UINT64_SIZE →
      (successive_calls f n self).1
        = (List.range n).map (fun i => (counter self + i) % UINT64_SIZE) := by
  intro n
  induction n with
  | zero => intro self _; rfl
  | succ n ih =>
    intro self hc
    have h1 := hf self
    have hlt : counter (f self).2 < UINT64_SIZE := by
      rw [h1.2]; exact Nat.mod_lt _ (by decide)
    have hrec := ih (f self).2 hlt
    simp only [successive_calls, hrec, h1.1, List.range_succ_eq_map, List.map_cons,
      List.map_map, Nat.add_zero, Nat.mod_eq_of_lt hc, List.cons.injEq, true_and]
    apply List.map_congr_left
    intro i _
    simp only [Function.comp, h1.2, Nat.succ_eq_add_one]
    rw [Nat.add_mod, Nat.mod_mod, ← Nat.add_mod]
    congr 1
    omega

theorem nodup_fetch_add (c n : Nat) (hn : n ≤ UINT64_SIZE) :
    ((List.range n).map (fun i => (c + i) % UINT64_SIZE)).Nodup := by
  apply List.Nodup.map_on _ (List.nodup_range n)
  intro i hi j hj h
  have hi1 : i < UINT64_SIZE := lt_of_lt_of_le (List.mem_range.mp hi) hn
  have hj1 : j < UINT64_SIZE := lt_of_lt_of_le (List.mem_range.mp hj) hn
  have hmod : i ≡ j [MOD UINT64_SIZE] := Nat.ModEq.add_left_cancel' c h
  unfold Nat.ModEq at hmod
  rw [Nat.mod_eq_of_lt hi1, Nat.mod_eq_of_lt hj1] at hmod
  exact hmod

theorem range_fetch_add (c n : Nat) (hn : c + n ≤ UINT64_SIZE) :
    (List.range n).map (fun i => (c + i) % UINT64_SIZE) = List.range' c n := by
  rw [List.range'_eq_map_range]
  apply List.map_congr_left
  intro i hi
  have := List.mem_range.mp hi
  exact Nat.mod_eq_of_lt (by omega)

/-- C13: every call of `GetUniqueRecordId` and of `GetUniqueKernelDispatchId` returns the value
of its 64-bit counter before the call and increases the counter by one; `N < 2^64` successive
calls return `N` pairwise distinct values, and while the counter does not wrap around
(`counter + N ≤ 2^64`) the `k`-th call returns `counter + k`, so the values are strictly
increasing. -/
theorem unique_ids_distinct (self : ROCProfiler_Singleton) (N : Nat)
    (hr : self.records_counter_ < UINT64_SIZE)
    (hk : self.kernel_dispatch_counter_ < UINT64_SIZE) (hN : N < UINT64_SIZE) :
    ((GetUniqueRecordId self).1 = self.records_counter_ ∧
      (GetUniqueRecordId self).2.records_counter_
        = (self.records_counter_ + 1) % UINT64_SIZE) ∧
    ((GetUniqueKernelDispatchId self).1 = self.kernel_dispatch_counter_ ∧
      (GetUniqueKernelDispatchId self).2.kernel_dispatch_counter_
        = (self.kernel_dispatch_counter_ + 1) % UINT64_SIZE) ∧
    ((successive_calls GetUniqueRecordId N self).1.length = N ∧
      (successive_calls GetUniqueRecordId N self).1.Nodup) ∧
    ((successive_calls GetUniqueKernelDispatchId N self).1.length = N ∧
      (successive_calls GetUniqueKernelDispatchId N self).1.Nodup) ∧
    (self.records_counter_ + N ≤ UINT64_SIZE →
      (successive_calls GetUniqueRecordId N self).1 = List.range' self.records_counter_ N ∧
      List.Pairwise (fun x y => x < y) (successive_calls GetUniqueRecordId N self).1) ∧
    (self.kernel_dispatch_counter_ + N ≤ UINT64_SIZE →
      (successive_calls GetUniqueKernelDispatchId N self).1
        = List.range' self.kernel_dispatch_counter_ N ∧
      List.Pairwise (fun x y => x < y) (successive_calls GetUniqueKernelDispatchId N self).1) := by
  have hrec := successive_calls_fetch_add GetUniqueRecordId (fun s => s.records_counter_)
    (fun s => ⟨rfl, rfl⟩) N self hr
  have hdis := successive_calls_fetch_add GetUniqueKernelDispatchId
    (fun s => s.kernel_dispatch_counter_) (fun s => ⟨rfl, rfl⟩) N self hk
  refine ⟨⟨rfl, rfl⟩, ⟨rfl, rfl⟩, ⟨?_, ?_⟩, ⟨?_, ?_⟩, ?_, ?_⟩
  · rw [hrec]; simp only [List.length_map, List.length_range]
  · rw [hrec]; exact nodup_fetch_add _ N (le_of_lt hN)
  · rw [hdis]; simp only [List.length_map, List.length_range]
  · rw [hdis]; exact nodup_fetch_add _ N (le_of_lt hN)
  · intro h
    rw [hrec, range_fetch_add _ N h]
    exact ⟨rfl, List.pairwise_lt_range' _ _⟩
  · intro h
    rw [hdis, range_fetch_add _ N h]
    exact ⟨rfl, List.pairwise_lt_range' _ _⟩

theorem unique_ids_distinct_witness :
    ((ROCProfiler_Singleton.new 0 0).records_counter_ < UINT64_SIZE ∧
      (ROCProfiler_Singleton.new 0 0).kernel_dispatch_counter_ < UINT64_SIZE ∧
      3 < UINT64_SIZE ∧ (ROCProfiler_Singleton.new 0 0).records_counter_ + 3 ≤ UINT64_SIZE) ∧
    (successive_calls GetUniqueRecordId 3 (ROCProfiler_Singleton.new 0 0)).1
      = List.range' (ROCProfiler_Singleton.new 0 0).records_counter_ 3 ∧
    List.Pairwise (fun x y => x < y)
      (successive_calls GetUniqueRecordId 3 (ROCProfiler_Singleton.new 0 0)).1 :=
  ⟨⟨by decide, by decide, by decide, by decide⟩,
    (unique_ids_distinct (ROCProfiler_Singleton.new 0 0) 3 (by decide) (by decide)
      (by decide)).2.2.2.2.1 (by decide)⟩

theorem DestroySession_present (assertions : Bool) (self : ROCProfiler_Singleton)
    (session_id : Nat) (hs : self.active_interrupt_signals = 0)
    (hf : (StdMap.find self.sessions_ session_id).isSome = true) :
    DestroySession assertions self session_id
      = .ok { self with sessions_ := StdMap.erase self.sessions_ session_id } := by
  unfold DestroySession
  cases h : StdMap.find self.sessions_ session_id with
  | none => rw [h] at hf; cases hf
  | some v => simp only [hs, ne_eq, not_true_eq_false, if_false]

/-- A well-paired sequence of calls, run from a state in which `created` sessions have been
created with the identifiers `c0, c0 + 1, ..`, of which those in `destroyed` are destroyed
and the others are in the table. -/
theorem run_session_ops_paired (assertions : Bool) (c0 : Nat) :
    ∀ (ops : List SessionOp) (self : ROCProfiler_Singleton) (created : Nat)
      (destroyed : List Nat),
      self.session_id_counter = c0 + created →
      self.active_interrupt_signals = 0 →
      (∀ k ∈ destroyed, k < created) →
      (∀ id, (StdMap.find self.sessions_ id).isSome = true ↔
        ∃ k, k < created ∧ k ∉ destroyed ∧ id = c0 + k) →
      well_paired ops created destroyed = true →
      c0 + created + creates ops < UINT64_SIZE →
      ∃ self1, run_session_ops assertions ops self (List.range' c0 created)
          = some (self1, List.range' c0 (created + creates ops)) ∧
        ∀ id, StdMap.find self1.sessions_ id = none := by
  intro ops
  induction ops with
  | nil =>
    intro self created destroyed _ _ _ hfind hwp _
    refine ⟨self, rfl, ?_⟩
    intro id
    cases h : StdMap.find self.sessions_ id with
    | none => rfl
    | some v =>
      exfalso
      obtain ⟨k, hk, hkd, _⟩ := (hfind id).mp (by rw [h]; rfl)
      simp only [well_paired, List.all_eq_true, List.mem_range, decide_eq_true_eq] at hwp
      exact hkd (hwp k hk)
  | cons op ops ih =>
    intro self created destroyed hcnt hsig hdes hfind hwp hlt
    cases op with
    | create replay_mode =>
      simp only [creates] at hlt ⊢
      simp only [well_paired] at hwp
      have hcnt1 : (CreateSession self replay_mode).2.session_id_counter
          = c0 + (created + 1) := by
        simp only [CreateSession, GenerateUniqueSessionId, hcnt]
        rw [Nat.mod_eq_of_lt (by omega)]; omega
      have hfind1 : ∀ id,
          (StdMap.find (CreateSession self replay_mode).2.sessions_ id).isSome = true ↔
            ∃ k, k < created + 1 ∧ k ∉ destroyed ∧ id = c0 + k := by
        intro id
        rw [CreateSession_find, hcnt]
        by_cases hid : c0 + created = id
        · simp only [hid, if_true, Option.isSome_some, true_iff]
          exact ⟨created, by omega, fun h => absurd (hdes created h) (by omega), hid.symm⟩
        · simp only [hid, if_false]
          rw [hfind id]
          constructor
          · rintro ⟨k, hk, hkd, hke⟩
            exact ⟨k, by omega, hkd, hke⟩
          · rintro ⟨k, hk, hkd, hke⟩
            refine ⟨k, ?_, hkd, hke⟩
            by_contra hge
            have : k = created := by omega
            subst this
            exact hid hke.symm
      obtain ⟨self1, hrun, hnone⟩ := ih (CreateSession self replay_mode).2 (created + 1)
        destroyed hcnt1 hsig (fun k hk => Nat.lt_succ_of_lt (hdes k hk)) hfind1 hwp (by omega)
      refine ⟨self1, ?_, hnone⟩
      have hissued : List.range' c0 created ++ [(CreateSession self replay_mode).1]
          = List.range' c0 (created + 1) := by
        rw [CreateSession_id, hcnt, List.range'_concat, Nat.one_mul]
      simp only [run_session_ops, hissued]
      rw [hrun]
      congr 3
      omega
    | destroy k =>
      simp only [creates] at hlt ⊢
      simp only [well_paired, Bool.and_eq_true, decide_eq_true_eq] at hwp
      obtain ⟨⟨hk, hkd⟩, hwp1⟩ := hwp
      have hget : (List.range' c0 created)[k]? = some (c0 + k) := by
        rw [List.getElem?_range' _ _ hk, Nat.one_mul]
      have hpres : (StdMap.find self.sessions_ (c0 + k)).isSome = true :=
        (hfind (c0 + k)).mpr ⟨k, hk, hkd, rfl⟩
      have hdestroy := DestroySession_present assertions self (c0 + k) hsig hpres
      obtain ⟨self1, hrun, hnone⟩ := ih
        { self with sessions_ := StdMap.erase self.sessions_ (c0 + k) } created (k :: destroyed)
        hcnt hsig
        (by
          intro j hj
          rcases List.mem_cons.mp hj with rfl | hj
          · exact hk
          · exact hdes j hj)
        (by
          intro id
          simp only [StdMap.find_erase]
          by_cases hid : c0 + k = id
          · simp only [hid, if_true, Option.isSome_none, Bool.false_eq_true, false_iff,
              not_exists, not_and]
            intro j _ hjd hje
            have : j = k := by omega
            subst this
            exact hjd (List.mem_cons_self _ _)
          · simp only [hid, if_false]
            rw [hfind id]
            constructor
            · rintro ⟨j, hj, hjd, hje⟩
              refine ⟨j, hj, ?_, hje⟩
              intro hmem
              rcases List.mem_cons.mp hmem with rfl | hmem
              · exact hid hje.symm
              · exact hjd hmem
            · rintro ⟨j, hj, hjd, hje⟩
              exact ⟨j, hj, fun h => hjd (List.mem_cons_of_mem _ h), hje⟩)
        hwp1 hlt
      refine ⟨self1, ?_, hnone⟩
      simp only [run_session_ops, hget, hdestroy]
      exact hrun

/-- C12: from an empty session table with no interrupt signal in flight, a sequence of calls
with `n` `CreateSession` calls and one `DestroySession` for each returned identifier, each
after its own create, runs to its end while the identifiers fit 64 bits; then the session
table is empty (`FindSession` is false for every identifier) and the `n` identifiers issued
are pairwise distinct. -/
theorem create_destroy_pairs (assertions : Bool) (self : ROCProfiler_Singleton)
    (ops : List SessionOp) (hempty : self.sessions_ = [])
    (hsig : self.active_interrupt_signals = 0)
    (hpaired : well_paired ops 0 [] = true)
    (hfit : self.session_id_counter + creates ops < UINT64_SIZE) :
    ∃ self1 issued, run_session_ops assertions ops self [] = some (self1, issued) ∧
      issued.length = creates ops ∧ issued.Nodup ∧
      self1.sessions_ = [] ∧ ∀ id, FindSession self1 id = false := by
  obtain ⟨self1, hrun, hnone⟩ := run_session_ops_paired assertions self.session_id_counter ops
    self 0 [] rfl hsig (fun k hk => absurd hk (List.not_mem_nil k))
    (by
      intro id
      simp only [hempty, StdMap.find, Option.isSome_none, Bool.false_eq_true, false_iff,
        not_exists, not_and]
      intro k hk
      exact absurd hk (Nat.not_lt_zero k))
    hpaired (by omega)
  refine ⟨self1, _, hrun, ?_, ?_, StdMap.eq_nil_of_find_none _ hnone, ?_⟩
  · simp only [List.length_range', Nat.zero_add]
  · exact List.nodup_range' _ _
  · intro id
    simp only [FindSession, hnone id, Option.isSome_none]

theorem create_destroy_pairs_witness :
    ((ROCProfiler_Singleton.new 0 0).sessions_ = [] ∧
      (ROCProfiler_Singleton.new 0 0).active_interrupt_signals = 0 ∧
      well_paired [.create .ROCPROFILER_KERNEL_REPLAY_MODE,
        .create .ROCPROFILER_USER_REPLAY_MODE, .destroy 1, .destroy 0] 0 [] = true) ∧
    ∃ self1 issued, run_session_ops true
        [.create .ROCPROFILER_KERNEL_REPLAY_MODE, .create .ROCPROFILER_USER_REPLAY_MODE,
          .destroy 1, .destroy 0] (ROCProfiler_Singleton.new 0 0) [] = some (self1, issued) ∧
      issued.length = creates [.create .ROCPROFILER_KERNEL_REPLAY_MODE,
        .create .ROCPROFILER_USER_REPLAY_MODE, .destroy 1, .destroy 0] ∧ issued.Nodup ∧
      self1.sessions_ = [] ∧ ∀ id, FindSession self1 id = false :=
  ⟨⟨rfl, rfl, by decide⟩,
    create_destroy_pairs true (ROCProfiler_Singleton.new 0 0)
      [.create .ROCPROFILER_KERNEL_REPLAY_MODE, .create .ROCPROFILER_USER_REPLAY_MODE,
        .destroy 1, .destroy 0] rfl rfl (by decide) (by decide)⟩

/-! ## Sample counts of a buffer -/

theorem umc_count_foldl (UMC : Nat) :
    ∀ (events : List event_t) (acc : Nat),
      events.foldl (fun count p =>
          if p.block_name = UMC then (count + 1) % UINT32_SIZE else count) acc % UINT32_SIZE
        = (acc + events.countP (fun p => decide (p.block_name = UMC))) % UINT32_SIZE := by
  intro events
  induction events with
  | nil => intro acc; simp only [List.foldl_nil, List.countP_nil, Nat.add_zero]
  | cons e t ih =>
    intro acc
    simp only [List.foldl_cons, List.countP_cons]
    by_cases h : e.block_name = UMC
    · simp only [h, if_true, decide_True]
      rw [ih, Nat.add_mod, Nat.mod_mod, ← Nat.add_mod]
      congr 1; omega
    · simp only [h, if_false, decide_False, Bool.false_eq_true, Nat.add_zero]
      exact ih acc

theorem umc_count_foldl_lt (UMC : Nat) :
    ∀ (events : List event_t) (acc : Nat), acc < UINT32_SIZE →
      events.foldl (fun count p =>
          if p.block_name = UMC then (count + 1) % UINT32_SIZE else count) acc < UINT32_SIZE := by
  intro events
  induction events with
  | nil => intro acc h; exact h
  | cons e t ih =>
    intro acc hacc
    simp only [List.foldl_cons]
    by_cases h : e.block_name = UMC
    · simp only [h, if_true]
      exact ih _ (Nat.mod_lt _ (by decide))
    · simp only [h, if_false]
      exact ih _ hacc

theorem umc_count_eq (UMC : Nat) (events : List event_t) (hlen : events.length < UINT32_SIZE) :
    events.foldl (fun count p =>
        if p.block_name = UMC then (count + 1) % UINT32_SIZE else count) 0
      = events.countP (fun p => decide (p.block_name = UMC)) := by
  have h1 := umc_count_foldl UMC events 0
  have h2 := umc_count_foldl_lt UMC events 0 (by decide)
  rw [Nat.mod_eq_of_lt h2, Nat.zero_add] at h1
  rw [h1]
  exact Nat.mod_eq_of_lt (lt_of_le_of_lt (List.countP_le_length _) hlen)

/-- C17: for a profile (`event_count` and `output_buffer.size` are `uint32_t`) and
`xcc_count >= 1`, `get_umc_and_xcc_sample_count` returns as extra sample count the number of
profile events on the UMC block when `xcc_count > 1` and 0 when `xcc_count = 1`, and as
per-partition sample count the quotient of the `uint32_t` difference
`buffer_size - extra * 8` by `8 * xcc_count`; the difference is the exact one whenever
`extra * 8 <= buffer_size`. -/
theorem get_umc_and_xcc_sample_count_spec (BLOCK_NAME_UMC : Nat) (profile : profile_t)
    (xcc_count : Nat) (hx : 1 ≤ xcc_count) (hev : profile.events.length < UINT32_SIZE)
    (hsize : profile.output_buffer_size < UINT32_SIZE) :
    ∃ extra per_partition,
      get_umc_and_xcc_sample_count BLOCK_NAME_UMC profile xcc_count
        = .ok (per_partition, extra) ∧
      extra = (if xcc_count > 1 then
          profile.events.countP (fun p => decide (p.block_name = BLOCK_NAME_UMC)) else 0) ∧
      per_partition =
        ((profile.output_buffer_size + UINT32_SIZE - (extra * 8) % UINT32_SIZE) % UINT32_SIZE)
          / (8 * xcc_count) ∧
      (extra * 8 ≤ profile.output_buffer_size →
        per_partition = (profile.output_buffer_size - extra * 8) / (8 * xcc_count)) := by
  have hne : ¬ (8 * xcc_count = 0) := by omega
  have hq : ∀ extra : Nat,
      ((profile.output_buffer_size + UINT32_SIZE - (extra * 8) % UINT32_SIZE) % UINT32_SIZE)
          / (8 * xcc_count) % UINT32_SIZE
        = ((profile.output_buffer_size + UINT32_SIZE - (extra * 8) % UINT32_SIZE)
            % UINT32_SIZE) / (8 * xcc_count) := by
    intro extra
    apply Nat.mod_eq_of_lt
    exact lt_of_le_of_lt (Nat.div_le_self _ _) (Nat.mod_lt _ (by decide))
  refine ⟨_, _, ?_, rfl, rfl, ?_⟩
  · simp only [get_umc_and_xcc_sample_count, hne, if_false, hq,
      umc_count_eq BLOCK_NAME_UMC profile.events hev]
  · intro hle
    have h8 : ∀ extra : Nat, extra * 8 ≤ profile.output_buffer_size →
        (profile.output_buffer_size + UINT32_SIZE - (extra * 8) % UINT32_SIZE) % UINT32_SIZE
          = profile.output_buffer_size - extra * 8 := by
      intro extra hle
      rw [Nat.mod_eq_of_lt (show extra * 8 < UINT32_SIZE by omega)]
      have : profile.output_buffer_size + UINT32_SIZE - extra * 8
          = (profile.output_buffer_size - extra * 8) + UINT32_SIZE := by omega
      rw [this, Nat.add_mod_right]
      exact Nat.mod_eq_of_lt (by omega)
    rw [h8 _ hle]

theorem get_umc_and_xcc_sample_count_spec_witness :
    ((1 : Nat) ≤ 2 ∧ ([⟨6, 0, 4⟩, ⟨32, 0, 1⟩] : List event_t).length < UINT32_SIZE ∧
      (40 : Nat) < UINT32_SIZE) ∧
    ∃ extra per_partition,
      get_umc_and_xcc_sample_count 32 ⟨[⟨6, 0, 4⟩, ⟨32, 0, 1⟩], 40⟩ 2
        = .ok (per_partition, extra) ∧
      extra = (if 2 > 1 then
          ([⟨6, 0, 4⟩, ⟨32, 0, 1⟩] : List event_t).countP
            (fun p => decide (p.block_name = 32)) else 0) ∧
      per_partition =
        ((40 + UINT32_SIZE - (extra * 8) % UINT32_SIZE) % UINT32_SIZE) / (8 * 2) ∧
      (extra * 8 ≤ 40 → per_partition = (40 - extra * 8) / (8 * 2)) :=
  ⟨⟨by decide, by decide, by decide⟩,
    get_umc_and_xcc_sample_count_spec 32 ⟨[⟨6, 0, 4⟩, ⟨32, 0, 1⟩], 40⟩ 2 (by decide)
      (by decide) (by decide)⟩

/-! ## One delivered pair -/

theorem IsEventMatch_iff (e1 e2 : event_t) : IsEventMatch e1 e2 = true ↔ e1 = e2 := by
  cases e1; cases e2
  simp only [IsEventMatch, Bool.and_eq_true, beq_iff_eq, event_t.mk.injEq, and_assoc]

/-- The loop of `pmcCallback` for a PMC pair whose partition id `x` is within the
per-partition values of every matching result, over distinct pointers: no exception is thrown,
every matching result of `ps` gets the value added to slot `x` and to the total, and every
other object of the heap stays as it is. -/
theorem pmcLoop_in_range {V : Type} [Add V] [NatCast V] (pmc_data : pmc_data_t)
    (cd : callback_data_t) (x : Nat) (hcd : calculate_xcc_index cd = .ok x) :
    ∀ (ps : List Ptr) (h : Heap V), ps.Nodup →
      (∀ p ∈ ps, ∃ a r, p = some a ∧ h[a]? = some r ∧
        (IsEventMatch pmc_data.event r.event = true → x < r.xcc_vals.length)) →
      ∃ h1, pmcLoop .HSA_VEN_AMD_AQLPROFILE_INFO_PMC_DATA pmc_data cd ps h = .ok (h1, false) ∧
        ∀ (a : Nat) (r : results_t V), h[a]? = some r →
          (some a ∈ ps → IsEventMatch pmc_data.event r.event = true →
            ∃ y, r.xcc_vals[x]? = some y ∧
              h1[a]? = some { r with
                xcc_vals := r.xcc_vals.set x (y + (pmc_data.result : V))
                val_double := r.val_double + (pmc_data.result : V) }) ∧
          (some a ∉ ps ∨ IsEventMatch pmc_data.event r.event = false → h1[a]? = some r) := by
  intro ps
  induction ps with
  | nil =>
    intro h _ _
    refine ⟨h, rfl, fun a r hr => ⟨fun hm => absurd hm (List.not_mem_nil _), fun _ => hr⟩⟩
  | cons p ps ih =>
    intro h hnd hvalid
    obtain ⟨hp, hnd1⟩ := List.nodup_cons.mp hnd
    obtain ⟨a, r, hpa, ha, hrange⟩ := hvalid p (List.mem_cons_self p ps)
    subst hpa
    have hd : Heap.deref h (some a) = some r := ha
    have hne : ¬ (hsa_ven_amd_aqlprofile_info_type_t.HSA_VEN_AMD_AQLPROFILE_INFO_PMC_DATA ≠
        hsa_ven_amd_aqlprofile_info_type_t.HSA_VEN_AMD_AQLPROFILE_INFO_PMC_DATA) :=
      fun hh => hh rfl
    unfold pmcLoop
    rw [if_neg hne]
    simp only [hd]
    by_cases hm : IsEventMatch pmc_data.event r.event = true
    · obtain ⟨y, hx⟩ : ∃ y, r.xcc_vals[x]? = some y :=
        ⟨_, List.getElem?_eq_getElem (hrange hm)⟩
      have hlt : a < h.length := (List.getElem?_eq_some.mp ha).1
      simp only [hm, Bool.not_true, Bool.false_eq_true, if_false, hcd, hx]
      obtain ⟨h1, hrun, hspec⟩ := ih
        (h.set a { r with
          xcc_vals := r.xcc_vals.set x (y + (pmc_data.result : V))
          val_double := r.val_double + (pmc_data.result : V) }) hnd1
        (by
          intro q hq
          obtain ⟨b, rb, hqb, hb, hrb⟩ := hvalid q (List.mem_cons_of_mem _ hq)
          subst hqb
          have hab : a ≠ b := fun hab => hp (by rw [hab]; exact hq)
          exact ⟨b, rb, rfl, by rw [List.getElem?_set_ne hab]; exact hb, hrb⟩)
      refine ⟨h1, hrun, ?_⟩
      intro b rb hb
      by_cases hab : a = b
      · subst hab
        rw [ha] at hb
        simp only [Option.some.injEq] at hb
        subst hb
        have hkeep := (hspec a _ (List.getElem?_set_self hlt)).2 (Or.inl hp)
        constructor
        · intro _ _
          exact ⟨y, hx, hkeep⟩
        · intro hor
          rcases hor with hn | hn
          · exact absurd (List.mem_cons_self _ _) hn
          · rw [hm] at hn; cases hn
      · have hb1 : (h.set a { r with
            xcc_vals := r.xcc_vals.set x (y + (pmc_data.result : V))
            val_double := r.val_double + (pmc_data.result : V) })[b]? = some rb := by
          rw [List.getElem?_set_ne hab]; exact hb
        obtain ⟨s1, s2⟩ := hspec b rb hb1
        constructor
        · intro hmem hmb
          rcases List.mem_cons.mp hmem with heq | hmem
          · simp only [Option.some.injEq] at heq
            exact absurd heq.symm hab
          · exact s1 hmem hmb
        · intro hor
          apply s2
          rcases hor with hn | hn
          · exact Or.inl (fun hmem => hn (List.mem_cons_of_mem _ hmem))
          · exact Or.inr hn
    · simp only [Bool.not_eq_true] at hm
      simp only [hm, Bool.not_false, if_true]
      obtain ⟨h1, hrun, hspec⟩ := ih h hnd1
        (fun q hq => hvalid q (List.mem_cons_of_mem _ hq))
      refine ⟨h1, hrun, ?_⟩
      intro b rb hb
      obtain ⟨s1, s2⟩ := hspec b rb hb
      constructor
      · intro hmem hmb
        rcases List.mem_cons.mp hmem with heq | hmem
        · simp only [Option.some.injEq] at heq
          subst heq
          rw [ha] at hb
          simp only [Option.some.injEq] at hb
          subst hb
          rw [hm] at hmb; cases hmb
        · exact s1 hmem hmb
      · intro hor
        apply s2
        rcases hor with hn | hn
        · exact Or.inl (fun hmem => hn (List.mem_cons_of_mem _ hmem))
        · exact Or.inr hn


/-- The loop of `pmcCallback` for a pair whose partition id `x` is defined, over pointers to
objects with a property `P` that the addition of a sample keeps: the loop returns, the objects
keep `P`, and nothing is thrown when `P` puts `x` within the per-partition values. -/
theorem pmcLoop_run {V : Type} [Add V] [NatCast V] (P : results_t V → Prop)
    (info_type : hsa_ven_amd_aqlprofile_info_type_t) (pmc_data : pmc_data_t)
    (cd : callback_data_t) (L : List Ptr) (x : Nat) (hcd : calculate_xcc_index cd = .ok x)
    (hupd : ∀ (r : results_t V) (y : V), P r → r.xcc_vals[x]? = some y →
      P { r with xcc_vals := r.xcc_vals.set x (y + (pmc_data.result : V))
                 val_double := r.val_double + (pmc_data.result : V) }) :
    ∀ (ps : List Ptr) (h : Heap V), (∀ p ∈ ps, p ∈ L) →
      (∀ p ∈ L, ∃ a r, p = some a ∧ h[a]? = some r ∧ P r) →
      ∃ h1 thrown, pmcLoop info_type pmc_data cd ps h = .ok (h1, thrown) ∧
        (∀ p ∈ L, ∃ a r, p = some a ∧ h1[a]? = some r ∧ P r) ∧
        ((∀ r, P r → x < r.xcc_vals.length) → thrown = false) := by
  intro ps
  induction ps with
  | nil => intro h _ hinv; exact ⟨h, false, rfl, hinv, fun _ => rfl⟩
  | cons p ps ih =>
    intro h hsub hinv
    have hsub1 : ∀ q ∈ ps, q ∈ L := fun q hq => hsub q (List.mem_cons_of_mem p hq)
    unfold pmcLoop
    by_cases hty : info_type ≠ .HSA_VEN_AMD_AQLPROFILE_INFO_PMC_DATA
    · rw [if_pos hty]; exact ih h hsub1 hinv
    · rw [if_neg hty]
      obtain ⟨a, r, hpa, ha, hr⟩ := hinv p (hsub p (List.mem_cons_self p ps))
      subst hpa
      have hd : Heap.deref h (some a) = some r := ha
      simp only [hd]
      by_cases hm : IsEventMatch pmc_data.event r.event = true
      · simp only [hm, Bool.not_true, Bool.false_eq_true, if_false, hcd]
        cases hx : r.xcc_vals[x]? with
        | none =>
          refine ⟨h, true, rfl, hinv, ?_⟩
          intro hall
          have hlt := hall r hr
          rw [List.getElem?_eq_getElem hlt] at hx
          cases hx
        | some y =>
          simp only []
          apply ih _ hsub1
          intro q hq
          obtain ⟨b, rb, hqb, hb, hrb⟩ := hinv q hq
          by_cases hab : a = b
          · subst hab
            rw [ha] at hb
            simp only [Option.some.injEq] at hb
            subst hb
            exact ⟨a, _, hqb, List.getElem?_set_self (List.getElem?_eq_some.mp ha).1,
              hupd r y hr hx⟩
          · exact ⟨b, rb, hqb, by rw [List.getElem?_set_ne hab]; exact hb, hrb⟩
      · simp only [Bool.not_eq_true] at hm
        simp only [hm, Bool.not_false, if_true]
        exact ih h hsub1 hinv

/-- Whenever the loop of `pmcCallback` returns, a property that the addition of a sample
keeps still holds for every result of the list. -/
theorem pmcLoop_invariant {V : Type} [Add V] [NatCast V] (P : results_t V → Prop)
    (info_type : hsa_ven_amd_aqlprofile_info_type_t) (pmc_data : pmc_data_t)
    (cd : callback_data_t) (L : List Ptr)
    (hupd : ∀ (r : results_t V) (x : Nat) (y : V), P r → r.xcc_vals[x]? = some y →
      P { r with xcc_vals := r.xcc_vals.set x (y + (pmc_data.result : V))
                 val_double := r.val_double + (pmc_data.result : V) }) :
    ∀ (ps : List Ptr) (h h1 : Heap V) (thrown : Bool), (∀ p ∈ ps, p ∈ L) →
      (∀ p ∈ L, ∃ a r, p = some a ∧ h[a]? = some r ∧ P r) →
      pmcLoop info_type pmc_data cd ps h = .ok (h1, thrown) →
      ∀ p ∈ L, ∃ a r, p = some a ∧ h1[a]? = some r ∧ P r := by
  intro ps h h1 thrown hsub hinv hrun
  cases hcd : calculate_xcc_index cd with
  | ok x =>
    obtain ⟨h2, t2, hrun2, hinv2, _⟩ := pmcLoop_run P info_type pmc_data cd L x hcd
      (fun r y hr hy => hupd r x y hr hy) ps h hsub hinv
    rw [hrun] at hrun2
    simp only [Except.ok.injEq, Prod.mk.injEq] at hrun2
    rw [hrun2.1]; exact hinv2
  | error f =>
    have key : ∀ (qs : List Ptr), (∀ q ∈ qs, q ∈ L) →
        pmcLoop info_type pmc_data cd qs h = .ok (h1, thrown) → h1 = h := by
      intro qs
      induction qs with
      | nil =>
        intro _ hr
        simp only [pmcLoop, Except.ok.injEq, Prod.mk.injEq] at hr
        exact hr.1.symm
      | cons q qs ihq =>
        intro hsubq hr
        have hsubq1 : ∀ q1 ∈ qs, q1 ∈ L := fun q1 hq1 => hsubq q1 (List.mem_cons_of_mem q hq1)
        unfold pmcLoop at hr
        by_cases hty : info_type ≠ .HSA_VEN_AMD_AQLPROFILE_INFO_PMC_DATA
        · rw [if_pos hty] at hr; exact ihq hsubq1 hr
        · rw [if_neg hty] at hr
          obtain ⟨a, r, hqa, ha, _⟩ := hinv q (hsubq q (List.mem_cons_self q qs))
          subst hqa
          have hd : Heap.deref h (some a) = some r := ha
          simp only [hd] at hr
          by_cases hm : IsEventMatch pmc_data.event r.event = true
          · simp only [hm, Bool.not_true, Bool.false_eq_true, if_false, hcd] at hr
            cases hr
          · simp only [Bool.not_eq_true] at hm
            simp only [hm, Bool.not_false, if_true] at hr
            exact ihq hsubq1 hr
    rw [key ps hsub hrun]; exact hinv

/-- A pair that is not PMC data, or that matches no result of the list, leaves the heap as it
is and throws nothing. -/
theorem pmcLoop_no_match {V : Type} [Add V] [NatCast V]
    (info_type : hsa_ven_amd_aqlprofile_info_type_t) (pmc_data : pmc_data_t)
    (cd : callback_data_t) (h : Heap V) :
    ∀ (ps : List Ptr), (∀ p ∈ ps, ∃ a r, p = some a ∧ h[a]? = some r) →
      (info_type ≠ .HSA_VEN_AMD_AQLPROFILE_INFO_PMC_DATA ∨
        ∀ p ∈ ps, ∀ a r, p = some a → h[a]? = some r →
          IsEventMatch pmc_data.event r.event = false) →
      pmcLoop info_type pmc_data cd ps h = .ok (h, false) := by
  intro ps
  induction ps with
  | nil => intro _ _; rfl
  | cons p ps ih =>
    intro hvalid hno
    have hvalid1 : ∀ q ∈ ps, ∃ a r, q = some a ∧ h[a]? = some r :=
      fun q hq => hvalid q (List.mem_cons_of_mem p hq)
    have hno1 : info_type ≠ .HSA_VEN_AMD_AQLPROFILE_INFO_PMC_DATA ∨
        ∀ q ∈ ps, ∀ a r, q = some a → h[a]? = some r →
          IsEventMatch pmc_data.event r.event = false := by
      rcases hno with hno | hno
      · exact Or.inl hno
      · exact Or.inr (fun q hq => hno q (List.mem_cons_of_mem p hq))
    unfold pmcLoop
    by_cases hty : info_type ≠ .HSA_VEN_AMD_AQLPROFILE_INFO_PMC_DATA
    · rw [if_pos hty]; exact ih hvalid1 hno1
    · rw [if_neg hty]
      obtain ⟨a, r, hpa, ha⟩ := hvalid p (List.mem_cons_self p ps)
      subst hpa
      have hd : Heap.deref h (some a) = some r := ha
      have hm : IsEventMatch pmc_data.event r.event = false := by
        rcases hno with hno | hno
        · exact absurd hno hty
        · exact hno _ (List.mem_cons_self _ _) a r rfl ha
      simp only [hd, hm, Bool.not_false, if_true]
      exact ih hvalid1 hno1

/-- C16: an invocation of `pmcCallback` on valid result pointers, with a partition id that is
defined for the running index, returns success and advances the running index by exactly one,
whether or not the pair matches a result; a pair that is not PMC data or matches no result of
the list needs no partition id and moreover leaves every object of the heap, totals and
per-partition values included, unchanged and prints nothing. -/
theorem pmcCallback_advances_index {V : Type} [Add V] [NatCast V]
    (info_type : hsa_ven_amd_aqlprofile_info_type_t) (pmc_data : pmc_data_t) (st : PmcState V)
    (hvalid : ∀ p ∈ st.data.results, ∃ a r, p = some a ∧ st.heap[a]? = some r)
    (hindex : st.data.index + 1 < UINT64_SIZE) :
    ((∃ x, calculate_xcc_index st.data = .ok x) →
      ∃ st1, pmcCallback info_type pmc_data st = .ok (.HSA_STATUS_SUCCESS, st1) ∧
        st1.data = { st.data with index := st.data.index + 1 }) ∧
    ((info_type ≠ .HSA_VEN_AMD_AQLPROFILE_INFO_PMC_DATA ∨
        ∀ p ∈ st.data.results, ∀ a r, p = some a → st.heap[a]? = some r →
          IsEventMatch pmc_data.event r.event = false) →
      pmcCallback info_type pmc_data st
        = .ok (.HSA_STATUS_SUCCESS,
            { heap := st.heap, data := { st.data with index := st.data.index + 1 },
              cout := st.cout })) := by
  have hmod : (st.data.index + 1) % UINT64_SIZE = st.data.index + 1 := Nat.mod_eq_of_lt hindex
  constructor
  · rintro ⟨x, hx⟩
    obtain ⟨h1, thrown, hrun, _, _⟩ := pmcLoop_run (fun _ => True) info_type pmc_data st.data
      st.data.results x hx (fun _ _ _ _ => trivial) st.data.results st.heap (fun _ hp => hp)
      (by
        intro p hp
        obtain ⟨a, r, hpa, ha⟩ := hvalid p hp
        exact ⟨a, r, hpa, ha, trivial⟩)
    exact ⟨_, by simp only [pmcCallback, hrun, hmod]; rfl, rfl⟩
  · intro hno
    have hrun := pmcLoop_no_match info_type pmc_data st.data st.heap st.data.results hvalid hno
    simp only [pmcCallback, hrun, hmod, Bool.false_eq_true, if_false]

theorem pmcCallback_advances_index_witness :
    (state_out_of_range.data.index + 1 < UINT64_SIZE ∧
      ∃ x, calculate_xcc_index state_out_of_range.data = .ok x) ∧
    ∃ st1, pmcCallback .HSA_VEN_AMD_AQLPROFILE_INFO_PMC_DATA ⟨⟨6, 0, 4⟩, 7⟩ state_out_of_range
        = .ok (.HSA_STATUS_SUCCESS, st1) ∧
      st1.data = { state_out_of_range.data with index := state_out_of_range.data.index + 1 } :=
  ⟨⟨by decide, 1, rfl⟩,
    (pmcCallback_advances_index .HSA_VEN_AMD_AQLPROFILE_INFO_PMC_DATA ⟨⟨6, 0, 4⟩, 7⟩
      state_out_of_range
      (by
        intro p hp
        have hp0 : p = some 0 := List.mem_singleton.mp hp
        exact ⟨0, _, hp0, rfl⟩)
      (by decide)).1 ⟨1, rfl⟩⟩

theorem calculate_xcc_index_lt (R : List Ptr) (n k s i : Nat) (hn : 1 ≤ n)
    (hnU : n ≤ UINT32_SIZE) (hs : 1 ≤ s) (hks : k + s < UINT32_SIZE) (hi : i < k + n * s) :
    ∃ x, calculate_xcc_index ⟨R, i, s, k⟩ = .ok x ∧ x < n := by
  by_cases hlt : i < k + s
  · exact ⟨0, calculate_xcc_index_below R i s k hks hlt, by omega⟩
  · have hq : (i - (k + s)) / s < n - 1 := by
      rw [Nat.div_lt_iff_lt_mul (by omega)]
      have : (n - 1) * s + s = n * s := by
        have hn1 : n = (n - 1) + 1 := by omega
        conv_rhs => rw [hn1]
        ring
      omega
    refine ⟨1 + (i - (k + s)) / s,
      calculate_xcc_index_above R i s k (by omega) hks (by omega) (by omega), by omega⟩

/-- C18: for a partition count `n >= 1` (a `uint32_t`), sample counts `k` and `s >= 1` whose
`uint32_t` sum does not wrap, and a running index `i < k + n * s`, `calculate_xcc_index` returns
a partition id strictly below `n`; the slot access of `pmcCallback` is then in range for
results with `n` partitions, so its loop throws nothing; and with `s = 0` the division is by
zero for every index at or beyond `k`. -/
theorem calculate_xcc_index_in_range {V : Type} [Add V] [NatCast V] (R : List Ptr)
    (n k s i : Nat) (hn : 1 ≤ n) (hnU : n ≤ UINT32_SIZE) (hs : 1 ≤ s)
    (hks : k + s < UINT32_SIZE) (hi : i < k + n * s) :
    (∃ x, calculate_xcc_index ⟨R, i, s, k⟩ = .ok x ∧ x < n) ∧
    (∀ (info_type : hsa_ven_amd_aqlprofile_info_type_t) (pmc_data : pmc_data_t) (h : Heap V),
      (∀ p ∈ R, ∃ a r, p = some a ∧ h[a]? = some r ∧ r.xcc_vals.length = n) →
      ∃ h1, pmcLoop info_type pmc_data ⟨R, i, s, k⟩ R h = .ok (h1, false)) ∧
    (∀ j, k % UINT32_SIZE ≤ j →
      calculate_xcc_index ⟨R, j, 0, k⟩
        = .error (.undefined "calculate_xcc_index: division by zero")) := by
  obtain ⟨x, hx, hxn⟩ := calculate_xcc_index_lt R n k s i hn hnU hs hks hi
  refine ⟨⟨x, hx, hxn⟩, ?_, ?_⟩
  · intro info_type pmc_data h hinv
    obtain ⟨h1, thrown, hrun, _, hthrown⟩ := pmcLoop_run (fun r => r.xcc_vals.length = n)
      info_type pmc_data ⟨R, i, s, k⟩ R x hx
      (by
        intro r y hr _
        simp only [List.length_set]
        exact hr)
      R h (fun _ hp => hp) hinv
    have hf : thrown = false := hthrown (fun r hr => by rw [hr]; exact hxn)
    subst hf
    exact ⟨h1, hrun⟩
  · intro j hj
    simp only [calculate_xcc_index, Nat.add_zero, ge_iff_le, hj, if_true]

theorem calculate_xcc_index_in_range_witness :
    ((1 : Nat) ≤ 4 ∧ 4 ≤ UINT32_SIZE ∧ (1 : Nat) ≤ 3 ∧ 2 + 3 < UINT32_SIZE ∧
      13 < 2 + 4 * 3) ∧
    ∃ x, calculate_xcc_index ⟨[], 13, 3, 2⟩ = .ok x ∧ x < 4 :=
  ⟨⟨by decide, by decide, by decide, by decide, by decide⟩,
    (calculate_xcc_index_in_range (V := Int) [] 4 2 3 13 (by decide) (by decide) (by decide)
      (by decide) (by decide)).1⟩

/-! ## Total and per-partition values -/

theorem sum_set_add {V : Type} [AddCommMonoid V] :
    ∀ (l : List V) (x : Nat) (y v : V), l[x]? = some y →
      (l.set x (y + v)).sum = l.sum + v := by
  intro l
  induction l with
  | nil => intro x y v h; cases h
  | cons a t ih =>
    intro x y v h
    cases x with
    | zero =>
      simp only [List.getElem?_cons_zero, Option.some.injEq] at h
      subst h
      simp only [List.set_cons_zero, List.sum_cons]
      exact add_right_comm a v t.sum
    | succ x =>
      simp only [List.getElem?_cons_succ] at h
      simp only [List.set_cons_succ, List.sum_cons, ih x y v h, add_assoc]

theorem calculate_xcc_index_defined (cd : callback_data_t) (hs : 0 < cd.single_xcc_buff_size)
    (hi : cd.index + 1 < UINT32_SIZE) : ∃ x, calculate_xcc_index cd = .ok x := by
  unfold calculate_xcc_index
  by_cases hge : cd.index ≥ (cd.umc_buff_size + cd.single_xcc_buff_size) % UINT32_SIZE
  · have hs0 : ¬ cd.single_xcc_buff_size = 0 := by omega
    have hq : 1 + (cd.index - (cd.umc_buff_size + cd.single_xcc_buff_size) % UINT32_SIZE)
        / cd.single_xcc_buff_size < UINT32_SIZE := by
      have h1 : (cd.index - (cd.umc_buff_size + cd.single_xcc_buff_size) % UINT32_SIZE)
          / cd.single_xcc_buff_size ≤ cd.index :=
        le_trans (Nat.div_le_self _ _) (Nat.sub_le _ _)
      omega
    simp only [hge, if_true, hs0, if_false, hq]
    exact ⟨_, rfl⟩
  · simp only [hge, if_false]
    exact ⟨_, rfl⟩

theorem iterate_data_invariant {V : Type} [Add V] [NatCast V] (P : results_t V → Prop)
    (L : List Ptr)
    (hupd : ∀ (v : Nat) (r : results_t V) (x : Nat) (y : V), P r → r.xcc_vals[x]? = some y →
      P { r with xcc_vals := r.xcc_vals.set x (y + (v : V))
                 val_double := r.val_double + (v : V) }) :
    ∀ (delivered : List (hsa_ven_amd_aqlprofile_info_type_t × pmc_data_t))
      (st st1 : PmcState V), st.data.results = L →
      (∀ p ∈ L, ∃ a r, p = some a ∧ st.heap[a]? = some r ∧ P r) →
      iterate_data delivered st = .ok st1 →
      ∀ p ∈ L, ∃ a r, p = some a ∧ st1.heap[a]? = some r ∧ P r := by
  intro delivered
  induction delivered with
  | nil =>
    intro st st1 _ hinv hrun
    simp only [iterate_data, Except.ok.injEq] at hrun
    rw [← hrun]; exact hinv
  | cons d rest ih =>
    intro st st1 hres hinv hrun
    obtain ⟨info_type, pmc_data⟩ := d
    simp only [iterate_data, pmcCallback] at hrun
    cases hloop : pmcLoop info_type pmc_data st.data st.data.results st.heap with
    | error f => rw [hloop] at hrun; cases hrun
    | ok r =>
      obtain ⟨h1, thrown⟩ := r
      rw [hloop] at hrun
      simp only [] at hrun
      have hinv1 := pmcLoop_invariant P info_type pmc_data st.data L
        (fun r x y hr hy => hupd pmc_data.result r x y hr hy) st.data.results st.heap h1 thrown
        (by rw [hres]; exact fun _ hp => hp) hinv hloop
      exact ih _ st1 (by exact hres) (by exact hinv1) hrun

theorem iterate_data_returns {V : Type} [Add V] [NatCast V] (L : List Ptr) :
    ∀ (delivered : List (hsa_ven_amd_aqlprofile_info_type_t × pmc_data_t)) (st : PmcState V),
      st.data.results = L → 0 < st.data.single_xcc_buff_size →
      st.data.index + delivered.length < UINT32_SIZE →
      (∀ p ∈ L, ∃ a r, p = some a ∧ st.heap[a]? = some r) →
      ∃ st1, iterate_data delivered st = .ok st1 := by
  intro delivered
  induction delivered with
  | nil => intro st _ _ _ _; exact ⟨st, rfl⟩
  | cons d rest ih =>
    intro st hres hs hlen hvalid
    obtain ⟨info_type, pmc_data⟩ := d
    simp only [List.length_cons] at hlen
    obtain ⟨x, hx⟩ := calculate_xcc_index_defined st.data hs (by omega)
    obtain ⟨h1, thrown, hrun, hinv1, _⟩ := pmcLoop_run (fun _ => True) info_type pmc_data
      st.data L x hx (fun _ _ _ _ => trivial) st.data.results st.heap
      (by rw [hres]; exact fun _ hp => hp)
      (by
        intro p hp
        obtain ⟨a, r, hpa, ha⟩ := hvalid p hp
        exact ⟨a, r, hpa, ha, trivial⟩)
    have hmod : (st.data.index + 1) % UINT64_SIZE = st.data.index + 1 := by
      apply Nat.mod_eq_of_lt
      have : UINT32_SIZE < UINT64_SIZE := by decide
      omega
    obtain ⟨st2, hrun2⟩ := ih
      { heap := h1, data := { st.data with index := st.data.index + 1 },
        cout := if thrown then
          st.cout ++ ["caught an exception in eval_metrics.cpp:pmcCallback(): out_of_range"]
          else st.cout }
      hres hs (by simp only []; omega)
      (by
        intro p hp
        obtain ⟨a, r, hpa, ha, _⟩ := hinv1 p hp
        exact ⟨a, r, hpa, ha⟩)
    refine ⟨st2, ?_⟩
    simp only [iterate_data, pmcCallback, hrun, hmod]
    exact hrun2

/-- C19: when every result of the results list starts with total 0 and all per-partition
values 0, then whenever `GetCounterData` returns, for every partition count and every sequence
of delivered pairs (pairs with an out-of-range partition id included), the total of each
result of the list equals the sum of its per-partition values, the values being taken in a
commutative monoid.  The call returns whenever the per-partition sample count is at least 1
and fewer than `2^32` pairs are delivered. -/
theorem GetCounterData_total_is_sum {V : Type} [AddCommMonoidWithOne V] (BLOCK_NAME_UMC : Nat)
    (xcc_count : Nat) (profile : profile_t)
    (delivered : List (hsa_ven_amd_aqlprofile_info_type_t × pmc_data_t))
    (hw_status : hsa_status_t) (results_list : List Ptr) (heap : Heap V)
    (hzero : ∀ p ∈ results_list, ∃ a r, p = some a ∧ heap[a]? = some r ∧
      r.val_double = 0 ∧ ∀ x ∈ r.xcc_vals, x = 0) :
    (∀ b st, GetCounterData BLOCK_NAME_UMC xcc_count profile delivered hw_status results_list
        heap = .ok (b, st) →
      ∀ p ∈ results_list, ∃ a r, p = some a ∧ st.heap[a]? = some r ∧
        r.val_double = r.xcc_vals.sum) ∧
    (∀ s k, get_umc_and_xcc_sample_count BLOCK_NAME_UMC profile xcc_count = .ok (s, k) →
      1 ≤ s → delivered.length < UINT32_SIZE →
      ∃ b st, GetCounterData BLOCK_NAME_UMC xcc_count profile delivered hw_status results_list
        heap = .ok (b, st)) := by
  have hstart : ∀ p ∈ results_list, ∃ a r, p = some a ∧ heap[a]? = some r ∧
      r.val_double = r.xcc_vals.sum := by
    intro p hp
    obtain ⟨a, r, hpa, ha, hv, hx⟩ := hzero p hp
    exact ⟨a, r, hpa, ha, by rw [hv, List.sum_eq_zero hx]⟩
  constructor
  · intro b st hrun
    unfold GetCounterData at hrun
    cases hget : get_umc_and_xcc_sample_count BLOCK_NAME_UMC profile xcc_count with
    | error f => rw [hget] at hrun; cases hrun
    | ok counts =>
      rw [hget] at hrun
      simp only [] at hrun
      cases hit : iterate_data delivered
          { heap := heap, data := ⟨results_list, 0, counts.1, counts.2⟩, cout := [] } with
      | error f => rw [hit] at hrun; cases hrun
      | ok st2 =>
        rw [hit] at hrun
        simp only [Except.ok.injEq, Prod.mk.injEq] at hrun
        rw [← hrun.2]
        exact iterate_data_invariant (fun r => r.val_double = r.xcc_vals.sum) results_list
          (by
            intro v r x y hr hy
            simp only [sum_set_add r.xcc_vals x y (v : V) hy, hr])
          delivered _ st2 rfl hstart hit
  · intro s k hget hs hlen
    obtain ⟨st1, hit⟩ := iterate_data_returns results_list delivered
      { heap := heap, data := ⟨results_list, 0, s, k⟩, cout := [] } rfl hs
      (by simp only []; omega)
      (by
        intro p hp
        obtain ⟨a, r, hpa, ha, _⟩ := hzero p hp
        exact ⟨a, r, hpa, ha⟩)
    exact ⟨decide (hw_status = .HSA_STATUS_SUCCESS), st1,
      by simp only [GetCounterData, hget, hit]⟩


theorem GetCounterData_total_is_sum_witness :
    (∀ p ∈ results_list_two, ∃ a r, p = some a ∧ heap_two[a]? = some r ∧
      r.val_double = 0 ∧ ∀ x ∈ r.xcc_vals, x = 0) ∧
    ∃ b st, GetCounterData 32 2 profile_two delivered_six .HSA_STATUS_SUCCESS results_list_two
        heap_two = .ok (b, st) ∧
      ∀ p ∈ results_list_two, ∃ a r, p = some a ∧ st.heap[a]? = some r ∧
        r.val_double = r.xcc_vals.sum := by
  have hz : ∀ p ∈ results_list_two, ∃ a r, p = some a ∧ heap_two[a]? = some r ∧
      r.val_double = 0 ∧ ∀ x ∈ r.xcc_vals, x = 0 := by
    intro p hp
    simp only [results_list_two, List.mem_cons, List.mem_singleton, List.not_mem_nil,
      or_false] at hp
    rcases hp with rfl | rfl
    · exact ⟨0, _, rfl, rfl, rfl, by decide⟩
    · exact ⟨1, _, rfl, rfl, rfl, by decide⟩
  have h := GetCounterData_total_is_sum 32 2 profile_two delivered_six .HSA_STATUS_SUCCESS
    results_list_two heap_two hz
  obtain ⟨b, st, hrun⟩ := h.2 2 1 rfl (by decide) (by decide)
  exact ⟨hz, b, st, hrun, h.1 b st hrun⟩

/-! ## Event list and result list -/

/-- A step that keeps the heap objects and map entries and leaves the two lists alone keeps
them linked. -/
theorem ListsLinked_frame {V : Type} (n0 : Nat) (s s1 : ExtractState V)
    (hpres : Preserved s.heap s.results_map s1.heap s1.results_map)
    (he : s1.events_list = s.events_list) (hr : s1.results_list = s.results_list)
    (h : ListsLinked n0 s) : ListsLinked n0 s1 := by
  refine ⟨by rw [he, hr]; exact h.1, ?_⟩
  intro i e hi hev
  rw [he] at hev
  obtain ⟨a, r, h1, h2, h3, h4⟩ := h.2 i e hi hev
  exact ⟨a, r, by rw [hr]; exact h1, hpres.1 a r h2, h3, hpres.2 _ _ h4⟩

/-- A step that keeps the heap objects and map entries and appends an event and the pointer to
a result that stores this event, held by the map under its name, keeps the lists linked. -/
theorem ListsLinked_append {V : Type} (n0 : Nat) (s s1 : ExtractState V) (e : event_t)
    (a : Nat) (r : results_t V)
    (hpres : Preserved s.heap s.results_map s1.heap s1.results_map)
    (he : s1.events_list = s.events_list ++ [e])
    (hr : s1.results_list = s.results_list ++ [some a])
    (ha : s1.heap[a]? = some r) (hev : r.event = e)
    (hm : StdMap.find s1.results_map r.name = some (some a))
    (h : ListsLinked n0 s) : ListsLinked n0 s1 := by
  refine ⟨by rw [he, hr, List.length_append, List.length_append, h.1]; rfl, ?_⟩
  intro i e1 hi hget
  rw [he] at hget
  by_cases hlt : i < s.events_list.length
  · rw [List.getElem?_append_left hlt] at hget
    obtain ⟨a1, r1, h1, h2, h3, h4⟩ := h.2 i e1 hi hget
    refine ⟨a1, r1, ?_, hpres.1 a1 r1 h2, h3, hpres.2 _ _ h4⟩
    rw [hr, List.getElem?_append_left (by rw [← h.1]; exact hlt)]
    exact h1
  · have hge : s.events_list.length ≤ i := by omega
    rw [List.getElem?_append_right hge] at hget
    have hi0 : i - s.events_list.length = 0 := by
      by_contra hne
      have : 1 ≤ i - s.events_list.length := by omega
      rw [List.getElem?_eq_none (by simpa using this)] at hget
      cases hget
    rw [hi0] at hget
    simp only [List.getElem?_cons_zero, Option.some.injEq] at hget
    subst hget
    refine ⟨a, r, ?_, ha, hev, hm⟩
    rw [hr, List.getElem?_append_right (by rw [← h.1]; exact hge), ← h.1, hi0]
    rfl

theorem extractCounter_status {V : Type} [NatCast V] (xcc_count : Nat)
    (get_info : event_t → Option Nat) (c : counter_t) (s s1 : ExtractState V) (b : Bool)
    (hrun : extractCounter xcc_count get_info c s = .ok (b, s1))
    (hf : StdMap.find s.results_map c.name = none) :
    ∃ bs, (if ((StdMap.find s.groups_map ⟨c.event.block_name, c.event.block_index⟩).getD
              block_status_t.zero).max_counters = 0 then
            (get_info c.event).map (fun q =>
              { (StdMap.find s.groups_map ⟨c.event.block_name, c.event.block_index⟩).getD
                  block_status_t.zero with max_counters := q % UINT32_SIZE })
          else some ((StdMap.find s.groups_map ⟨c.event.block_name, c.event.block_index⟩).getD
              block_status_t.zero)) = some bs := by
  by_cases hmax : ((StdMap.find s.groups_map ⟨c.event.block_name, c.event.block_index⟩).getD
      block_status_t.zero).max_counters = 0
  · cases hg : get_info c.event with
    | none =>
      have hfe : (StdMap.find (StdMap.emplace lt_block_des s.groups_map
            ⟨c.event.block_name, c.event.block_index⟩ block_status_t.zero)
            ⟨c.event.block_name, c.event.block_index⟩).getD block_status_t.zero
          = (StdMap.find s.groups_map ⟨c.event.block_name, c.event.block_index⟩).getD
              block_status_t.zero := by
        rw [StdMap.find_emplace]; simp only [if_true, Option.getD_some]
      simp only [extractCounter, hf, Heap.alloc, hfe, hmax, if_true, hg] at hrun
      cases hrun
    | some q => rw [if_pos hmax]; exact ⟨_, rfl⟩
  · rw [if_neg hmax]; exact ⟨_, rfl⟩

/-- Every pass of the counter loop that returns keeps the two lists linked. -/
theorem extractCounter_linked {V : Type} [NatCast V] (xcc_count : Nat)
    (get_info : event_t → Option Nat) (n0 : Nat) (c : counter_t) (s s1 : ExtractState V)
    (b : Bool) (hrun : extractCounter xcc_count get_info c s = .ok (b, s1))
    (h : ListsLinked n0 s) : ListsLinked n0 s1 := by
  cases hf : StdMap.find s.results_map c.name with
  | some p =>
    rw [extractCounter_present xcc_count get_info c s p hf] at hrun
    simp only [Except.ok.injEq, Prod.mk.injEq] at hrun
    rw [← hrun.2]; exact h
  | none =>
    obtain ⟨bs, hbs⟩ := extractCounter_status xcc_count get_info c s s1 b hrun hf
    rw [extractCounter_absent xcc_count get_info c s bs hf hbs] at hrun
    by_cases hfull : bs.counter_index ≥ bs.max_counters
    · rw [if_pos hfull] at hrun
      simp only [Except.ok.injEq, Prod.mk.injEq] at hrun
      rw [← hrun.2]
      exact ListsLinked_frame n0 s _ (Preserved_alloc s.heap s.results_map _ c.name hf) rfl rfl h
    · rw [if_neg hfull] at hrun
      simp only [Except.ok.injEq, Prod.mk.injEq] at hrun
      rw [← hrun.2]
      refine ListsLinked_append n0 s _ c.event s.heap.length
        { results_t.new c.name event_t.zero xcc_count with event := c.event }
        (Preserved_alloc s.heap s.results_map _ c.name hf) rfl rfl ?_ rfl ?_ h
      · simp only [List.getElem?_append_right (le_refl _), Nat.sub_self,
          List.getElem?_cons_zero]
      · simp only [results_t.new, StdMap.find_assign, if_true]

theorem extractCounters_linked {V : Type} [NatCast V] (xcc_count : Nat)
    (get_info : event_t → Option Nat) (n0 : Nat) :
    ∀ (cs : List counter_t) (s s1 : ExtractState V) (b : Bool),
      extractCounters xcc_count get_info cs s = .ok (b, s1) →
      ListsLinked n0 s → ListsLinked n0 s1 := by
  intro cs
  induction cs with
  | nil =>
    intro s s1 b hrun h
    simp only [extractCounters, Except.ok.injEq, Prod.mk.injEq] at hrun
    rw [← hrun.2]; exact h
  | cons c rest ih =>
    intro s s1 b hrun h
    simp only [extractCounters] at hrun
    cases hc : extractCounter xcc_count get_info c s with
    | error f => rw [hc] at hrun; cases hrun
    | ok r =>
      obtain ⟨b2, s2⟩ := r
      have h2 := extractCounter_linked xcc_count get_info n0 c s s2 b2 hc h
      rw [hc] at hrun
      cases b2 with
      | false =>
        simp only [Except.ok.injEq, Prod.mk.injEq] at hrun
        rw [← hrun.2]; exact h2
      | true =>
        simp only [] at hrun
        exact ih s2 s1 b hrun h2

theorem extractMetric_linked {V : Type} [NatCast V] (xcc_count : Nat)
    (get_info : event_t → Option Nat) (metrics_dict : String → Option (Metric V)) (n0 : Nat)
    (n : String) (s s1 : ExtractState V) (b : Bool)
    (hrun : extractMetric xcc_count get_info metrics_dict n s = .ok (b, s1))
    (h : ListsLinked n0 s) : ListsLinked n0 s1 := by
  unfold extractMetric at hrun
  cases hd : metrics_dict n with
  | none => rw [hd] at hrun; cases hrun
  | some m =>
    rw [hd] at hrun
    simp only [] at hrun
    by_cases hk : n = "KERNEL_DURATION"
    · rw [if_pos hk] at hrun
      cases hf : StdMap.find s.results_map n with
      | none =>
        rw [hf] at hrun
        simp only [Heap.alloc, Except.ok.injEq, Prod.mk.injEq] at hrun
        rw [← hrun.2]
        exact ListsLinked_frame n0 s _ (Preserved_alloc s.heap s.results_map _ n hf) rfl rfl h
      | some q =>
        rw [hf] at hrun
        simp only [Except.ok.injEq, Prod.mk.injEq] at hrun
        rw [← hrun.2]; exact h
    · rw [if_neg hk] at hrun
      by_cases hem : m.counters.isEmpty = true
      · rw [if_pos hem] at hrun; cases hrun
      · rw [if_neg hem] at hrun
        cases he : m.expr with
        | none =>
          rw [he] at hrun
          exact extractCounters_linked xcc_count get_info n0 m.counters s s1 b hrun h
        | some e =>
          rw [he] at hrun
          cases hf : StdMap.find s.results_map n with
          | none =>
            rw [hf] at hrun
            refine extractCounters_linked xcc_count get_info n0 m.counters _ s1 b hrun ?_
            exact ListsLinked_frame n0 s _ (Preserved_alloc s.heap s.results_map _ n hf)
              rfl rfl h
          | some q =>
            rw [hf] at hrun
            exact extractCounters_linked xcc_count get_info n0 m.counters s s1 b hrun h

theorem extractMetrics_linked {V : Type} [NatCast V] (xcc_count : Nat)
    (get_info : event_t → Option Nat) (metrics_dict : String → Option (Metric V)) (n0 : Nat) :
    ∀ (names : List String) (s s1 : ExtractState V) (b : Bool),
      extractMetrics xcc_count get_info metrics_dict names s = .ok (b, s1) →
      ListsLinked n0 s → ListsLinked n0 s1 := by
  intro names
  induction names with
  | nil =>
    intro s s1 b hrun h
    simp only [extractMetrics, Except.ok.injEq, Prod.mk.injEq] at hrun
    rw [← hrun.2]; exact h
  | cons n rest ih =>
    intro s s1 b hrun h
    simp only [extractMetrics] at hrun
    cases hc : extractMetric xcc_count get_info metrics_dict n s with
    | error f => rw [hc] at hrun; cases hrun
    | ok r =>
      obtain ⟨b2, s2⟩ := r
      have h2 := extractMetric_linked xcc_count get_info metrics_dict n0 n s s2 b2 hc h
      rw [hc] at hrun
      cases b2 with
      | false =>
        simp only [Except.ok.injEq, Prod.mk.injEq] at hrun
        rw [← hrun.2]; exact h2
      | true =>
        simp only [] at hrun
        exact ih s2 s1 b hrun h2

/-- C20: when `ExtractMetricEvents` is called with an event list and a result list of equal
length and returns, with `true` or with `false`, the two lists have equal length afterwards,
and at every position that the call appended the result list holds a pointer to a result
whose stored event is the event at that position of the event list and which the results map
holds under the name of that result. -/
theorem ExtractMetricEvents_lists_linked {V : Type} [NatCast V] (metric_names : List String)
    (xcc_count : Nat) (get_info : event_t → Option Nat)
    (metrics_dict : String → Option (Metric V)) (s0 s : ExtractState V) (b : Bool)
    (hlen : s0.events_list.length = s0.results_list.length)
    (hrun : ExtractMetricEvents metric_names xcc_count get_info metrics_dict s0 = .ok (b, s)) :
    s.events_list.length = s.results_list.length ∧
    ∀ (i : Nat), s0.events_list.length ≤ i → i < s.events_list.length →
      ∃ e a r, s.events_list[i]? = some e ∧ s.results_list[i]? = some (some a) ∧
        s.heap[a]? = some r ∧ r.event = e ∧
        StdMap.find s.results_map r.name = some (some a) := by
  have hstart : ListsLinked s0.events_list.length
      ({ s0 with groups_map := [], cerr := [] } : ExtractState V) := by
    refine ⟨hlen, ?_⟩
    intro i e hi hget
    have : s0.events_list[i]? = none := List.getElem?_eq_none hi
    rw [this] at hget
    cases hget
  have hend := extractMetrics_linked xcc_count get_info metrics_dict s0.events_list.length
    metric_names _ s b hrun hstart
  refine ⟨hend.1, ?_⟩
  intro i hi hlt
  have hget : s.events_list[i]? = some s.events_list[i] := List.getElem?_eq_getElem hlt
  obtain ⟨a, r, h1, h2, h3, h4⟩ := hend.2 i _ hi hget
  exact ⟨_, a, r, hget, h1, h2, h3, h4⟩

theorem ExtractMetricEvents_lists_linked_witness :
    (ExtractState.empty : ExtractState Int).events_list.length
      = (ExtractState.empty : ExtractState Int).results_list.length ∧
    ∃ s, ExtractMetricEvents ["SQ_WAVES", "SQ_BUSY_CYCLES"] 1 (fun _ => some 1)
        catalog_basic ExtractState.empty = .ok (false, s) ∧
      s.events_list.length = s.results_list.length ∧
      ∀ (i : Nat), (ExtractState.empty : ExtractState Int).events_list.length ≤ i →
        i < s.events_list.length →
        ∃ e a r, s.events_list[i]? = some e ∧ s.results_list[i]? = some (some a) ∧
          s.heap[a]? = some r ∧ r.event = e ∧
          StdMap.find s.results_map r.name = some (some a) := by
  obtain ⟨s, hs⟩ := ExtractMetricEvents_basic_example_returns
  exact ⟨rfl, s, hs,
    ExtractMetricEvents_lists_linked ["SQ_WAVES", "SQ_BUSY_CYCLES"] 1 (fun _ => some 1)
      catalog_basic ExtractState.empty s false rfl hs⟩

/-! ## Repeated calls of `GetCountersAndMetricResultsByXcc` -/

theorem SameButValOn_refl {V : Type} (D : Nat → Prop) (h : Heap V) : SameButValOn D h h :=
  ⟨rfl, fun _ r ha => ⟨r.val_double, ha, fun _ => rfl⟩⟩

theorem SameButValOn_mono {V : Type} {D D1 : Nat → Prop} {h h1 : Heap V}
    (hs : SameButValOn D h h1) (hD : ∀ a, D a → D1 a) : SameButValOn D1 h h1 := by
  refine ⟨hs.1, fun a r ha => ?_⟩
  obtain ⟨v, hv, he⟩ := hs.2 a r ha
  exact ⟨v, hv, fun hn => he (fun hd => hn (hD a hd))⟩

theorem SameButValOn_trans {V : Type} {D : Nat → Prop} {h h1 h2 : Heap V}
    (p1 : SameButValOn D h h1) (p2 : SameButValOn D h1 h2) : SameButValOn D h h2 := by
  refine ⟨p2.1.trans p1.1, fun a r ha => ?_⟩
  obtain ⟨v, hv, he⟩ := p1.2 a r ha
  obtain ⟨w, hw, he2⟩ := p2.2 a _ hv
  exact ⟨w, hw, fun hn => (he2 hn).trans (he hn)⟩

theorem SameButValOn_none {V : Type} {D : Nat → Prop} {h h1 : Heap V}
    (hs : SameButValOn D h h1) (a : Nat) (ha : h[a]? = none) : h1[a]? = none := by
  rw [List.getElem?_eq_none_iff] at ha ⊢
  rw [hs.1]; exact ha

/-- Heaps that hold the same objects with the same current values everywhere are equal. -/
theorem SameButValOn_eq {V : Type} {D : Nat → Prop} {h h1 : Heap V}
    (hs : SameButValOn D h h1) (hD : ∀ a, ¬ D a) : h1 = h := by
  apply List.ext_getElem?
  intro a
  cases ha : h[a]? with
  | none => exact SameButValOn_none hs a ha
  | some r =>
    obtain ⟨v, hv, he⟩ := hs.2 a r ha
    rw [hv, he (hD a)]

theorem SameButValOn_of_SameButVal {V : Type} {h h1 : Heap V} (hs : SameButVal h h1) :
    SameButValOn (fun _ => True) h h1 := by
  refine ⟨hs.1, fun a r ha => ?_⟩
  obtain ⟨v, hv⟩ := hs.2 a r ha
  exact ⟨v, hv, fun hn => absurd trivial hn⟩

theorem SameButVal_of_SameButValOn {V : Type} {D : Nat → Prop} {h h1 : Heap V}
    (hs : SameButValOn D h h1) : SameButVal h h1 := by
  refine ⟨hs.1, fun a r ha => ?_⟩
  obtain ⟨v, hv, _⟩ := hs.2 a r ha
  exact ⟨v, hv⟩

/-- Writing the same current value at the same address of two heaps that hold the same
objects: the heaps then agree at this address. -/
theorem SameButValOn_set {V : Type} {D : Nat → Prop} {h h1 : Heap V}
    (hs : SameButValOn D h h1) (a : Nat) (r : results_t V) (v x : V)
    (ha : h[a]? = some r) (ha1 : h1[a]? = some { r with val_double := v }) :
    SameButValOn (fun b => D b ∧ b ≠ a) (h.set a { r with val_double := x })
      (h1.set a { r with val_double := x }) := by
  refine ⟨by simp only [List.length_set]; exact hs.1, fun b rb hb => ?_⟩
  by_cases hba : a = b
  · subst hba
    rw [List.getElem?_set_self (List.getElem?_eq_some.mp ha).1] at hb
    simp only [Option.some.injEq] at hb
    subst hb
    exact ⟨x, List.getElem?_set_self (List.getElem?_eq_some.mp ha1).1, fun _ => rfl⟩
  · rw [List.getElem?_set_ne hba] at hb
    obtain ⟨w, hw, he⟩ := hs.2 b rb hb
    refine ⟨w, by rw [List.getElem?_set_ne hba]; exact hw, fun hn => he (fun hd => hn ⟨hd, ?_⟩)⟩
    exact fun h => hba h.symm

/-- The statement `p->val_double = p->xcc_vals[xcc_index]` on two heaps that hold the same
objects. -/
theorem set_val_to_xcc_sim {V : Type} (p : Nat) (D : Nat → Prop) (h h1 : Heap V) (ptr : Ptr)
    (hs : SameButValOn D h h1) :
    SameOutcome (fun b => D b ∧ some b ≠ ptr) (set_val_to_xcc p h ptr)
      (set_val_to_xcc p h1 ptr) := by
  cases ptr with
  | none => simp only [set_val_to_xcc, SameOutcome]
  | some a =>
    cases ha : h[a]? with
    | none =>
      have ha1 := SameButValOn_none hs a ha
      simp only [set_val_to_xcc, Heap.deref, ha, ha1, SameOutcome]
    | some r =>
      obtain ⟨v, hv, he⟩ := hs.2 a r ha
      cases hx : r.xcc_vals[p]? with
      | none => simp only [set_val_to_xcc, Heap.deref, ha, hv, hx, SameOutcome]
      | some x =>
        simp only [set_val_to_xcc, Heap.deref, ha, hv, hx, SameOutcome]
        refine SameButValOn_mono (SameButValOn_set hs a r v x ha hv) ?_
        intro b hb
        exact ⟨hb.1, fun hh => hb.2 (Option.some.inj hh)⟩

theorem SameOutcome_cases {V : Type} {D : Nat → Prop} {x y : Except Fault (Heap V)}
    (hs : SameOutcome D x y) :
    (∃ f, x = .error f ∧ y = .error f) ∨
      ∃ h h1, x = .ok h ∧ y = .ok h1 ∧ SameButValOn D h h1 := by
  cases x with
  | error f =>
    cases y with
    | error g => simp only [SameOutcome] at hs; subst hs; exact Or.inl ⟨f, rfl, rfl⟩
    | ok h1 => simp only [SameOutcome] at hs
  | ok h =>
    cases y with
    | error g => simp only [SameOutcome] at hs
    | ok h1 => exact Or.inr ⟨h, h1, rfl, rfl, hs⟩

theorem SameOutcome_mono {V : Type} {D D1 : Nat → Prop} {x y : Except Fault (Heap V)}
    (hs : SameOutcome D x y) (hD : ∀ a, D a → D1 a) : SameOutcome D1 x y := by
  rcases SameOutcome_cases hs with ⟨f, hx, hy⟩ | ⟨h, h1, hx, hy, hh⟩
  · rw [hx, hy]; simp only [SameOutcome]
  · rw [hx, hy]; simp only [SameOutcome]; exact SameButValOn_mono hh hD

/-- One of the two copy loops on two heaps that hold the same objects: the runs end alike, and
the heaps then agree at every address the loop went through. -/
theorem set_vals_to_xcc_sim {V : Type} (p : Nat) :
    ∀ (ps : List Ptr) (D : Nat → Prop) (h h1 : Heap V), SameButValOn D h h1 →
      SameOutcome (fun b => D b ∧ some b ∉ ps) (set_vals_to_xcc p ps h)
        (set_vals_to_xcc p ps h1) := by
  intro ps
  induction ps with
  | nil =>
    intro D h h1 hs
    simp only [set_vals_to_xcc, SameOutcome]
    exact SameButValOn_mono hs (fun b hb => ⟨hb, List.not_mem_nil _⟩)
  | cons q ps ih =>
    intro D h h1 hs
    rcases SameOutcome_cases (set_val_to_xcc_sim p D h h1 q hs) with
      ⟨f, hx, hy⟩ | ⟨x, x1, hx, hy, hh⟩
    · simp only [set_vals_to_xcc, hx, hy, SameOutcome]
    · simp only [set_vals_to_xcc, hx, hy]
      refine SameOutcome_mono (ih _ x x1 hh) ?_
      intro b hb
      refine ⟨hb.1.1, fun hm => ?_⟩
      rcases List.mem_cons.mp hm with hm | hm
      · exact hb.1.2 hm
      · exact hb.2 hm

/-- The lookup context reads the same values from two heaps that agree at the addresses the
results map points to. -/
theorem Lookup_sim {V : Type} (D : Nat → Prop) (h h1 : Heap V) (m : StdMap String Ptr)
    (hs : SameButValOn D h h1) (hD : ∀ a, some a ∈ m.map Prod.snd → ¬ D a) :
    Lookup h1 m = Lookup h m := by
  funext name
  unfold Lookup
  cases hf : StdMap.find m name with
  | none => rfl
  | some q =>
    cases q with
    | none => rfl
    | some a =>
      have hmem := StdMap.mem_values_of_find name (some a) m hf
      cases ha : h[a]? with
      | none =>
        have ha1 := SameButValOn_none hs a ha
        simp only [ha, ha1]
      | some r =>
        obtain ⟨v, hv, he⟩ := hs.2 a r ha
        simp only [ha, hv, he (hD a hmem)]

theorem set_val_double_sim {V : Type} (D : Nat → Prop) (h h1 : Heap V) (res : Ptr) (v : V)
    (hs : SameButValOn D h h1) :
    SameOutcome D (set_val_double h res v) (set_val_double h1 res v) := by
  cases res with
  | none => simp only [set_val_double, SameOutcome]
  | some a =>
    cases ha : h[a]? with
    | none =>
      have ha1 := SameButValOn_none hs a ha
      simp only [set_val_double, Heap.deref, ha, ha1, SameOutcome]
    | some r =>
      obtain ⟨w, hw, he⟩ := hs.2 a r ha
      simp only [set_val_double, Heap.deref, ha, hw, SameOutcome]
      exact SameButValOn_mono (SameButValOn_set hs a r w v ha hw) (fun b hb => hb.1)

/-- The body of the loop of `GetMetricsData` on two heaps that hold the same objects and
agree at the addresses the results map points to. -/
theorem evalMetric_sim {V : Type} [Add V] [Sub V] [Mul V] [Div V] [NatCast V]
    (m : StdMap String Ptr) (kd : Nat) (N : Metric V) (D : Nat → Prop) (h h1 : Heap V)
    (hs : SameButValOn D h h1) (hD : ∀ a, some a ∈ m.map Prod.snd → ¬ D a) :
    SameOutcome D (evalMetric m kd N h) (evalMetric m kd N h1) := by
  unfold evalMetric
  cases he : N.expr with
  | none => simp only [SameOutcome]; exact hs
  | some e =>
    simp only []
    cases hf : StdMap.find m N.name with
    | none => simp only [SameOutcome]
    | some res =>
      simp only []
      by_cases hk : N.name = "KERNEL_DURATION"
      · rw [if_pos hk, if_pos hk]
        exact set_val_double_sim D h h1 res _ hs
      · rw [if_neg hk, if_neg hk, Lookup_sim D h h1 m hs hD]
        cases hev : e.Eval (Lookup h m) with
        | error f => simp only [SameOutcome]
        | ok v =>
          simp only []
          exact set_val_double_sim D h h1 res v hs

theorem evalMetrics_sim {V : Type} [Add V] [Sub V] [Mul V] [Div V] [NatCast V]
    (m : StdMap String Ptr) (kd : Nat) (D : Nat → Prop)
    (hD : ∀ a, some a ∈ m.map Prod.snd → ¬ D a) :
    ∀ (L : List (Metric V)) (h h1 : Heap V), SameButValOn D h h1 →
      SameOutcome D (evalMetrics m kd L h) (evalMetrics m kd L h1) := by
  intro L
  induction L with
  | nil =>
    intro h h1 hs
    simp only [evalMetrics, SameOutcome]; exact hs
  | cons N rest ih =>
    intro h h1 hs
    rcases SameOutcome_cases (evalMetric_sim m kd N D h h1 hs hD) with
      ⟨f, hx, hy⟩ | ⟨x, x1, hx, hy, hh⟩
    · simp only [evalMetrics, hx, hy, SameOutcome]
    · simp only [evalMetrics, hx, hy]
      exact ih x x1 hh

/-- The whole function on two heaps that hold the same objects: the runs end alike, and the
heaps then agree at every address that the results list or the results map points to. -/
theorem GetCountersAndMetricResultsByXcc_sim {V : Type} [Add V] [Sub V] [Mul V] [Div V]
    [NatCast V] (p : Nat) (results_list : List Ptr) (results_map : StdMap String Ptr)
    (metrics_list : List (Metric V)) (kd : Nat) (D : Nat → Prop) (h h1 : Heap V)
    (hs : SameButValOn D h h1) :
    SameOutcome (fun a => D a ∧ ¬ Referenced results_list results_map a)
      (GetCountersAndMetricResultsByXcc p h results_list results_map metrics_list kd)
      (GetCountersAndMetricResultsByXcc p h1 results_list results_map metrics_list kd) := by
  unfold GetCountersAndMetricResultsByXcc
  rcases SameOutcome_cases (set_vals_to_xcc_sim p results_list D h h1 hs) with
    ⟨f, hx, hy⟩ | ⟨x, x1, hx, hy, hh⟩
  · simp only [hx, hy, SameOutcome]
  · rcases SameOutcome_cases (set_vals_to_xcc_sim p (results_map.map Prod.snd) _ x x1 hh) with
      ⟨f, hx2, hy2⟩ | ⟨y, y1, hx2, hy2, hh2⟩
    · simp only [hx, hy, hx2, hy2, SameOutcome]
    · have hsim := evalMetrics_sim results_map kd _ (fun a ha hd => hd.2 ha) metrics_list
        y y1 hh2
      rcases SameOutcome_cases hsim with ⟨f, hx3, hy3⟩ | ⟨z, z1, hx3, hy3, hh3⟩
      · simp only [hx, hy, hx2, hy2, GetMetricsData, hx3, hy3, SameOutcome]
      · simp only [hx, hy, hx2, hy2, GetMetricsData, hx3, hy3, SameOutcome]
        refine SameButValOn_mono hh3 ?_
        intro a ha
        exact ⟨ha.1.1, fun hr => hr.elim ha.1.2 ha.2⟩

/-- The statement `p->val_double = ...` through a pointer changes nothing but the current
value of the object the pointer refers to. -/
theorem SameButValOn_set_one {V : Type} (h : Heap V) (a : Nat) (r : results_t V) (x : V)
    (ha : h[a]? = some r) :
    SameButValOn (fun b => b = a) h (h.set a { r with val_double := x }) := by
  refine ⟨List.length_set _ _ _, fun b rb hb => ?_⟩
  by_cases hba : a = b
  · subst hba
    rw [ha] at hb
    simp only [Option.some.injEq] at hb
    subst hb
    exact ⟨x, List.getElem?_set_self (List.getElem?_eq_some.mp ha).1,
      fun hn => absurd rfl hn⟩
  · exact ⟨rb.val_double, by rw [List.getElem?_set_ne hba]; exact hb, fun _ => rfl⟩

theorem set_val_to_xcc_frame {V : Type} (p : Nat) (h h1 : Heap V) (ptr : Ptr)
    (hrun : set_val_to_xcc p h ptr = .ok h1) :
    SameButValOn (fun b => some b = ptr) h h1 := by
  cases ptr with
  | none => simp only [set_val_to_xcc] at hrun; cases hrun
  | some a =>
    cases ha : h[a]? with
    | none => simp only [set_val_to_xcc, Heap.deref, ha] at hrun; cases hrun
    | some r =>
      cases hx : r.xcc_vals[p]? with
      | none => simp only [set_val_to_xcc, Heap.deref, ha, hx] at hrun; cases hrun
      | some x =>
        simp only [set_val_to_xcc, Heap.deref, ha, hx, Except.ok.injEq] at hrun
        rw [← hrun]
        exact SameButValOn_mono (SameButValOn_set_one h a r x ha)
          (fun b hb => congrArg some hb)

theorem set_vals_to_xcc_frame {V : Type} (p : Nat) :
    ∀ (ps : List Ptr) (h h1 : Heap V), set_vals_to_xcc p ps h = .ok h1 →
      SameButValOn (fun b => some b ∈ ps) h h1 := by
  intro ps
  induction ps with
  | nil =>
    intro h h1 hrun
    simp only [set_vals_to_xcc, Except.ok.injEq] at hrun
    rw [← hrun]; exact SameButValOn_refl _ h
  | cons q ps ih =>
    intro h h1 hrun
    cases hq : set_val_to_xcc p h q with
    | error f => simp only [set_vals_to_xcc, hq] at hrun; cases hrun
    | ok x =>
      simp only [set_vals_to_xcc, hq] at hrun
      refine SameButValOn_trans
        (SameButValOn_mono (set_val_to_xcc_frame p h x q hq) ?_)
        (SameButValOn_mono (ih x h1 hrun) ?_)
      · intro b hb; rw [hb]; exact List.mem_cons_self _ _
      · intro b hb; exact List.mem_cons_of_mem _ hb

theorem set_val_double_frame {V : Type} (h h1 : Heap V) (res : Ptr) (v : V)
    (hrun : set_val_double h res v = .ok h1) :
    SameButValOn (fun b => some b = res) h h1 := by
  cases res with
  | none => simp only [set_val_double] at hrun; cases hrun
  | some a =>
    cases ha : h[a]? with
    | none => simp only [set_val_double, Heap.deref, ha] at hrun; cases hrun
    | some r =>
      simp only [set_val_double, Heap.deref, ha, Except.ok.injEq] at hrun
      rw [← hrun]
      exact SameButValOn_mono (SameButValOn_set_one h a r v ha)
        (fun b hb => congrArg some hb)

/-- The body of the loop of `GetMetricsData` changes nothing but the current value of an
object the results map points to. -/
theorem evalMetric_frame {V : Type} [Add V] [Sub V] [Mul V] [Div V] [NatCast V]
    (m : StdMap String Ptr) (kd : Nat) (N : Metric V) (h h1 : Heap V)
    (hrun : evalMetric m kd N h = .ok h1) :
    SameButValOn (fun b => some b ∈ m.map Prod.snd) h h1 := by
  unfold evalMetric at hrun
  cases he : N.expr with
  | none =>
    rw [he] at hrun
    simp only [Except.ok.injEq] at hrun
    rw [← hrun]; exact SameButValOn_refl _ h
  | some e =>
    rw [he] at hrun
    simp only [] at hrun
    cases hf : StdMap.find m N.name with
    | none => rw [hf] at hrun; cases hrun
    | some res =>
      rw [hf] at hrun
      simp only [] at hrun
      have hmem := StdMap.mem_values_of_find N.name res m hf
      have hin : ∀ b, some b = res → some b ∈ m.map Prod.snd := by
        intro b hb; rw [hb]; exact hmem
      by_cases hk : N.name = "KERNEL_DURATION"
      · rw [if_pos hk] at hrun
        exact SameButValOn_mono (set_val_double_frame h h1 res _ hrun) hin
      · rw [if_neg hk] at hrun
        cases hev : e.Eval (Lookup h m) with
        | error f => rw [hev] at hrun; cases hrun
        | ok v =>
          rw [hev] at hrun
          exact SameButValOn_mono (set_val_double_frame h h1 res v hrun) hin

theorem evalMetrics_frame {V : Type} [Add V] [Sub V] [Mul V] [Div V] [NatCast V]
    (m : StdMap String Ptr) (kd : Nat) :
    ∀ (L : List (Metric V)) (h h1 : Heap V), evalMetrics m kd L h = .ok h1 →
      SameButValOn (fun b => some b ∈ m.map Prod.snd) h h1 := by
  intro L
  induction L with
  | nil =>
    intro h h1 hrun
    simp only [evalMetrics, Except.ok.injEq] at hrun
    rw [← hrun]; exact SameButValOn_refl _ h
  | cons N rest ih =>
    intro h h1 hrun
    cases hq : evalMetric m kd N h with
    | error f => simp only [evalMetrics, hq] at hrun; cases hrun
    | ok x =>
      simp only [evalMetrics, hq] at hrun
      exact SameButValOn_trans (evalMetric_frame m kd N h x hq) (ih x h1 hrun)

/-- A call that returns has changed nothing but current values of objects that the results
list or the results map points to. -/
theorem GetCountersAndMetricResultsByXcc_frame {V : Type} [Add V] [Sub V] [Mul V] [Div V]
    [NatCast V] (p : Nat) (results_list : List Ptr) (results_map : StdMap String Ptr)
    (metrics_list : List (Metric V)) (kd : Nat) (h h1 : Heap V)
    (hrun : GetCountersAndMetricResultsByXcc p h results_list results_map metrics_list kd
      = .ok h1) :
    SameButValOn (Referenced results_list results_map) h h1 := by
  unfold GetCountersAndMetricResultsByXcc at hrun
  cases h1run : set_vals_to_xcc p results_list h with
  | error f => rw [h1run] at hrun; cases hrun
  | ok x =>
    rw [h1run] at hrun
    simp only [] at hrun
    cases h2run : set_vals_to_xcc p (results_map.map Prod.snd) x with
    | error f => rw [h2run] at hrun; cases hrun
    | ok y =>
      rw [h2run] at hrun
      simp only [GetMetricsData] at hrun
      cases h3run : evalMetrics results_map kd metrics_list y with
      | error f => rw [h3run] at hrun; cases hrun
      | ok z =>
        rw [h3run] at hrun
        simp only [Except.ok.injEq] at hrun
        rw [← hrun]
        refine SameButValOn_trans
          (SameButValOn_mono (set_vals_to_xcc_frame p results_list h x h1run)
            (fun b hb => Or.inl hb))
          (SameButValOn_trans
            (SameButValOn_mono (set_vals_to_xcc_frame p _ x y h2run) (fun b hb => Or.inr hb))
            (SameButValOn_mono (evalMetrics_frame results_map kd metrics_list y z h3run)
              (fun b hb => Or.inr hb)))

theorem evalMetrics_returns {V : Type} [Add V] [Sub V] [Mul V] [Div V] [NatCast V]
    (heap : Heap V) (m : StdMap String Ptr) (kd : Nat) :
    ∀ (L : List (Metric V)) (h : Heap V), Resolvable heap m L → SameButVal heap h →
      ∃ h1, evalMetrics m kd L h = .ok h1 := by
  intro L
  induction L with
  | nil => intro h _ _; exact ⟨h, rfl⟩
  | cons N rest ih =>
    intro h hres hs
    obtain ⟨x, hrun, hsx, _, _⟩ :=
      evalMetric_spec m kd N h (Resolvable_step hres hs N (List.mem_cons_self _ _))
    obtain ⟨h1, hrest⟩ := ih x (fun M hM => hres M (List.mem_cons_of_mem _ hM))
      (SameButVal_trans hs hsx)
    exact ⟨h1, by simp only [evalMetrics, hrun, hrest]⟩

/-- For a partition index that is in range for every result, and a resolvable metrics list,
the call returns. -/
theorem GetCountersAndMetricResultsByXcc_returns {V : Type} [Add V] [Sub V] [Mul V] [Div V]
    [NatCast V] (p : Nat) (heap : Heap V) (results_list : List Ptr)
    (results_map : StdMap String Ptr) (metrics_list : List (Metric V)) (kd : Nat)
    (hlist : InRange p heap results_list)
    (hmap : InRange p heap (results_map.map Prod.snd))
    (hres : Resolvable heap results_map metrics_list) :
    ∃ h, GetCountersAndMetricResultsByXcc p heap results_list results_map metrics_list kd
      = .ok h := by
  obtain ⟨x, y, hx, hy, hs, _⟩ := copy_loops_spec p heap results_list results_map hlist hmap
  obtain ⟨z, hz⟩ := evalMetrics_returns heap results_map kd metrics_list y hres hs
  exact ⟨z, by simp only [GetCountersAndMetricResultsByXcc, hx, hy, GetMetricsData, hz]⟩

/-- C21: for a partition index `p` that is in range for every result of the results list and
of the results map, and a resolvable metrics list, `GetCountersAndMetricResultsByXcc` returns,
and the heap it leaves is independent of the prior current values: a second call for `p`
right afterwards returns and leaves every result as it is; a call for `p` after a call for
any `q` that returned (as it does for every in-range `q`) leaves the same heap as the call
for `p` alone; and from any heap holding the same results with other current values the call
returns with the same result at every address that the results list or the results map
points to. -/
theorem GetCountersAndMetricResultsByXcc_idempotent {V : Type} [Add V] [Sub V] [Mul V]
    [Div V] [NatCast V] (p : Nat) (heap : Heap V) (results_list : List Ptr)
    (results_map : StdMap String Ptr) (metrics_list : List (Metric V))
    (kernel_duration : Nat)
    (hlist : InRange p heap results_list)
    (hmap : InRange p heap (results_map.map Prod.snd))
    (hres : Resolvable heap results_map metrics_list) :
    ∃ h, GetCountersAndMetricResultsByXcc p heap results_list results_map metrics_list
        kernel_duration = .ok h ∧
      GetCountersAndMetricResultsByXcc p h results_list results_map metrics_list
        kernel_duration = .ok h ∧
      (∀ q,
        (∀ hq, GetCountersAndMetricResultsByXcc q heap results_list results_map metrics_list
            kernel_duration = .ok hq →
          GetCountersAndMetricResultsByXcc p hq results_list results_map metrics_list
            kernel_duration = .ok h) ∧
        (InRange q heap results_list → InRange q heap (results_map.map Prod.snd) →
          ∃ hq, GetCountersAndMetricResultsByXcc q heap results_list results_map metrics_list
            kernel_duration = .ok hq)) ∧
      (∀ heap1, SameButVal heap heap1 →
        ∃ h1, GetCountersAndMetricResultsByXcc p heap1 results_list results_map metrics_list
            kernel_duration = .ok h1 ∧ h1.length = h.length ∧
          ∀ a, some a ∈ results_list ∨ some a ∈ results_map.map Prod.snd →
            h1[a]? = h[a]?) := by
  obtain ⟨h, hrun⟩ := GetCountersAndMetricResultsByXcc_returns p heap results_list results_map
    metrics_list kernel_duration hlist hmap hres
  have hafter : ∀ x, SameButValOn (Referenced results_list results_map) heap x →
      GetCountersAndMetricResultsByXcc p x results_list results_map metrics_list
        kernel_duration = .ok h := by
    intro x hx
    have hsim := GetCountersAndMetricResultsByXcc_sim p results_list results_map metrics_list
      kernel_duration _ heap x hx
    rcases SameOutcome_cases hsim with ⟨f, h1, _⟩ | ⟨y, y1, h1, h2, hh⟩
    · rw [hrun] at h1; cases h1
    · rw [hrun] at h1
      simp only [Except.ok.injEq] at h1
      subst h1
      rw [h2, SameButValOn_eq hh (fun a ha => ha.2 ha.1)]
  refine ⟨h, hrun, ?_, ?_, ?_⟩
  · exact hafter h (GetCountersAndMetricResultsByXcc_frame p results_list results_map
      metrics_list kernel_duration heap h hrun)
  · intro q
    refine ⟨fun hq hqrun => hafter hq (GetCountersAndMetricResultsByXcc_frame q results_list
      results_map metrics_list kernel_duration heap hq hqrun), fun hql hqm => ?_⟩
    exact GetCountersAndMetricResultsByXcc_returns q heap results_list results_map
      metrics_list kernel_duration hql hqm hres
  · intro heap1 hs1
    have hsim := GetCountersAndMetricResultsByXcc_sim p results_list results_map metrics_list
      kernel_duration _ heap heap1 (SameButValOn_of_SameButVal hs1)
    rcases SameOutcome_cases hsim with ⟨f, h1, _⟩ | ⟨y, y1, h1, h2, hh⟩
    · rw [hrun] at h1; cases h1
    · rw [hrun] at h1
      simp only [Except.ok.injEq] at h1
      subst h1
      refine ⟨y1, h2, hh.1, fun a ha => ?_⟩
      cases hha : h[a]? with
      | none => exact SameButValOn_none hh a hha
      | some r =>
        obtain ⟨v, hv, he⟩ := hh.2 a r hha
        rw [hv, he (fun hd => hd.2 ha)]

theorem GetCountersAndMetricResultsByXcc_idempotent_witness :
    InRange 1 heap_AB results_list_AB ∧ InRange 1 heap_AB (results_map_AB.map Prod.snd) ∧
    Resolvable heap_AB results_map_AB metrics_list_AB ∧
    GetCountersAndMetricResultsByXcc 1 heap_AB results_list_AB results_map_AB metrics_list_AB 7
      = .ok [⟨"A", ⟨6, 0, 4⟩, 2, [1, 2]⟩, ⟨"B", ⟨6, 0, 3⟩, 20, [10, 20]⟩,
          ⟨"M", event_t.zero, 22, [0, 0]⟩, ⟨"KERNEL_DURATION", event_t.zero, 7, [0, 0]⟩] ∧
    GetCountersAndMetricResultsByXcc 0 heap_AB results_list_AB results_map_AB metrics_list_AB 7
      = .ok [⟨"A", ⟨6, 0, 4⟩, 1, [1, 2]⟩, ⟨"B", ⟨6, 0, 3⟩, 10, [10, 20]⟩,
          ⟨"M", event_t.zero, 11, [0, 0]⟩, ⟨"KERNEL_DURATION", event_t.zero, 7, [0, 0]⟩] ∧
    ∃ h, GetCountersAndMetricResultsByXcc 1 heap_AB results_list_AB results_map_AB
        metrics_list_AB 7 = .ok h ∧
      GetCountersAndMetricResultsByXcc 1 h results_list_AB results_map_AB metrics_list_AB 7
        = .ok h ∧
      (∀ q,
        (∀ hq, GetCountersAndMetricResultsByXcc q heap_AB results_list_AB results_map_AB
            metrics_list_AB 7 = .ok hq →
          GetCountersAndMetricResultsByXcc 1 hq results_list_AB results_map_AB
            metrics_list_AB 7 = .ok h) ∧
        (InRange q heap_AB results_list_AB →
          InRange q heap_AB (results_map_AB.map Prod.snd) →
          ∃ hq, GetCountersAndMetricResultsByXcc q heap_AB results_list_AB results_map_AB
            metrics_list_AB 7 = .ok hq)) ∧
      (∀ heap1, SameButVal heap_AB heap1 →
        ∃ h1, GetCountersAndMetricResultsByXcc 1 heap1 results_list_AB results_map_AB
            metrics_list_AB 7 = .ok h1 ∧ h1.length = h.length ∧
          ∀ a, some a ∈ results_list_AB ∨ some a ∈ results_map_AB.map Prod.snd →
            h1[a]? = h[a]?) :=
  ⟨InRange_AB_list, InRange_AB_map, Resolvable_AB, rfl, rfl,
    GetCountersAndMetricResultsByXcc_idempotent 1 heap_AB results_list_AB results_map_AB
      metrics_list_AB 7 InRange_AB_list InRange_AB_map Resolvable_AB⟩

/-! ## Identifiers of the sessions of a reachable registry -/

/-- In a registry that the constructor and calls into the registry lead to, the generator
holds the number of identifiers generated so far plus one, as a 64-bit value. -/
theorem Reachable_session_id_counter (n : Nat) (self : ROCProfiler_Singleton)
    (h : Reachable n self) : self.session_id_counter = (n + 1) % UINT64_SIZE := by
  induction h with
  | constructed r k => rfl
  | generate _ ih =>
    simp only [GenerateUniqueSessionId]
    rw [ih, Nat.add_mod, Nat.mod_mod, ← Nat.add_mod]
  | create replay_mode _ ih =>
    simp only [CreateSession, GenerateUniqueSessionId]
    rw [ih, Nat.add_mod, Nat.mod_mod, ← Nat.add_mod]
  | destroy assertions session_id self1 _ hd ih =>
    unfold DestroySession at hd
    split at hd
    · cases hd
    · split at hd
      · split at hd <;> cases hd
      · simp only [Except.ok.injEq] at hd
        rw [← hd]; exact ih
  | set_current session_id _ ih => exact ih
  | record_id _ ih => exact ih
  | dispatch_id _ ih => exact ih
  | signals count _ ih => exact ih

/-- C11: for every replay mode and every state of the registry that the constructor and calls
into the registry lead to with fewer than `2^64 - 1` session identifiers generated so far,
`CreateSession` returns the number of identifiers generated so far plus one, which is not 0;
and in every state whatever, `FindSession` called on the returned identifier immediately
afterwards returns `true`. -/
theorem CreateSession_then_FindSession (n : Nat) (self : ROCProfiler_Singleton)
    (replay_mode : rocprofiler_replay_mode_t) (hreach : Reachable n self)
    (hn : n + 1 < UINT64_SIZE) :
    (CreateSession self replay_mode).1 = n + 1 ∧
    (CreateSession self replay_mode).1 ≠ 0 ∧
    FindSession (CreateSession self replay_mode).2 (CreateSession self replay_mode).1 = true ∧
    ∀ (any : ROCProfiler_Singleton) (mode : rocprofiler_replay_mode_t),
      FindSession (CreateSession any mode).2 (CreateSession any mode).1 = true := by
  have hfind : ∀ (any : ROCProfiler_Singleton) (mode : rocprofiler_replay_mode_t),
      FindSession (CreateSession any mode).2 (CreateSession any mode).1 = true := by
    intro any mode
    simp only [FindSession, CreateSession_id, CreateSession_find, if_true, Option.isSome_some]
  have hid : (CreateSession self replay_mode).1 = n + 1 := by
    rw [CreateSession_id, Reachable_session_id_counter n self hreach, Nat.mod_eq_of_lt hn]
  exact ⟨hid, by rw [hid]; exact Nat.succ_ne_zero n, hfind self replay_mode, hfind⟩

theorem CreateSession_then_FindSession_witness :
    Reachable 1 (CreateSession (ROCProfiler_Singleton.new 0 0)
      .ROCPROFILER_APPLICATION_REPLAY_MODE).2 ∧ 1 + 1 < UINT64_SIZE ∧
    (CreateSession (CreateSession (ROCProfiler_Singleton.new 0 0)
      .ROCPROFILER_APPLICATION_REPLAY_MODE).2 .ROCPROFILER_KERNEL_REPLAY_MODE).1 = 2 ∧
    FindSession
      (CreateSession (CreateSession (ROCProfiler_Singleton.new 0 0)
        .ROCPROFILER_APPLICATION_REPLAY_MODE).2 .ROCPROFILER_KERNEL_REPLAY_MODE).2 2 = true :=
  ⟨Reachable.create _ (Reachable.constructed 0 0), by decide,
    (CreateSession_then_FindSession 1 _ .ROCPROFILER_KERNEL_REPLAY_MODE
      (Reachable.create _ (Reachable.constructed 0 0)) (by decide)).1, by decide⟩

/-! ## A delivered pair and the results of the list -/

/-- The loop of `pmcCallback` over a list in two parts: the second part is run when the first
part ended without an exception. -/
theorem pmcLoop_append {V : Type} [Add V] [NatCast V]
    (info_type : hsa_ven_amd_aqlprofile_info_type_t) (pmc_data : pmc_data_t)
    (cd : callback_data_t) (qs : List Ptr) :
    ∀ (ps : List Ptr) (h h1 : Heap V) (R : Except Fault (Heap V × Bool)),
      pmcLoop info_type pmc_data cd ps h = .ok (h1, false) →
      pmcLoop info_type pmc_data cd qs h1 = R →
      pmcLoop info_type pmc_data cd (ps ++ qs) h = R := by
  intro ps
  induction ps with
  | nil =>
    intro h h1 R hrun hR
    simp only [pmcLoop, Except.ok.injEq, Prod.mk.injEq, and_true] at hrun
    rw [hrun]; exact hR
  | cons p ps ih =>
    intro h h1 R hrun hR
    rw [List.cons_append]
    unfold pmcLoop at hrun ⊢
    by_cases hty : info_type ≠ .HSA_VEN_AMD_AQLPROFILE_INFO_PMC_DATA
    · rw [if_pos hty] at hrun ⊢; exact ih h h1 R hrun hR
    · rw [if_neg hty] at hrun ⊢
      cases p with
      | none => simp only [] at hrun; cases hrun
      | some a =>
        cases hd : Heap.deref h (some a) with
        | none => simp only [hd] at hrun; cases hrun
        | some r =>
          simp only [hd] at hrun ⊢
          by_cases hm : IsEventMatch pmc_data.event r.event = true
          · simp only [hm, Bool.not_true, Bool.false_eq_true, if_false] at hrun ⊢
            cases hcd : calculate_xcc_index cd with
            | error f => simp only [hcd] at hrun; cases hrun
            | ok x =>
              simp only [hcd] at hrun ⊢
              cases hx : r.xcc_vals[x]? with
              | none => simp only [hx, Except.ok.injEq, Prod.mk.injEq] at hrun; cases hrun.2
              | some y =>
                simp only [hx] at hrun ⊢
                exact ih _ h1 R hrun hR
          · simp only [Bool.not_eq_true] at hm
            simp only [hm, Bool.not_false, if_true] at hrun ⊢
            exact ih h h1 R hrun hR

/-- The loop of `pmcCallback` at a result that matches the delivered PMC pair and has no slot
for the partition id: `at` throws, and the heap stays as it is. -/
theorem pmcLoop_throws {V : Type} [Add V] [NatCast V] (pmc_data : pmc_data_t)
    (cd : callback_data_t) (x : Nat) (hcd : calculate_xcc_index cd = .ok x) (a : Nat)
    (r : results_t V) (after : List Ptr) (h : Heap V) (ha : h[a]? = some r)
    (hm : r.event = pmc_data.event) (hx : r.xcc_vals.length ≤ x) :
    pmcLoop .HSA_VEN_AMD_AQLPROFILE_INFO_PMC_DATA pmc_data cd (some a :: after) h
      = .ok (h, true) := by
  have hne : ¬ (hsa_ven_amd_aqlprofile_info_type_t.HSA_VEN_AMD_AQLPROFILE_INFO_PMC_DATA ≠
      hsa_ven_amd_aqlprofile_info_type_t.HSA_VEN_AMD_AQLPROFILE_INFO_PMC_DATA) :=
    fun hh => hh rfl
  have hd : Heap.deref h (some a) = some r := ha
  have hmatch : IsEventMatch pmc_data.event r.event = true :=
    (IsEventMatch_iff _ _).mpr hm.symm
  have hnone : r.xcc_vals[x]? = none := List.getElem?_eq_none hx
  unfold pmcLoop
  rw [if_neg hne]
  simp only [hd, hmatch, Bool.not_true, Bool.false_eq_true, if_false, hcd, hnone]

/-- C15, as stated, fails: the pair at running index 1 has partition id 1, which the single
partition of the result does not have; the event of the result equals the delivered event, yet
the value 7 is added neither to a slot nor to the total; one line is written to `std::cout`
and the running index is advanced. -/
theorem pmcCallback_out_of_range_pair :
    calculate_xcc_index state_out_of_range.data = .ok 1 ∧
    state_out_of_range.data.results = [some 0] ∧
    state_out_of_range.heap[0]? = some ⟨"SQ_WAVES", ⟨6, 0, 4⟩, 5, [5]⟩ ∧
    IsEventMatch (⟨6, 0, 4⟩ : event_t) ⟨6, 0, 4⟩ = true ∧
    ∃ st1, pmcCallback .HSA_VEN_AMD_AQLPROFILE_INFO_PMC_DATA ⟨⟨6, 0, 4⟩, 7⟩ state_out_of_range
        = .ok (.HSA_STATUS_SUCCESS, st1) ∧
      st1.heap[0]? = some ⟨"SQ_WAVES", ⟨6, 0, 4⟩, 5, [5]⟩ ∧
      st1.cout.length = state_out_of_range.cout.length + 1 ∧
      st1.data.index = state_out_of_range.data.index + 1 :=
  ⟨rfl, rfl, rfl, rfl, _, rfl, rfl, rfl, rfl⟩

/-- C15, amended: two events match exactly when their three fields are equal.  For a
delivered PMC pair with partition id `x`, over a results list of distinct pointers to result
objects: when `x` is within the per-partition values of every matching result, `pmcCallback`
returns success without a message, every result of the list whose event equals the delivered
event has the value added to its slot `x` and to its total, and every result whose event
differs is left unchanged.  When some matching result has no slot `x`, `at` throws at the
first such result: the results before it are treated as in the first case, this result and
every result after it are left unchanged, so that no slot and no total of them gets the value,
and `pmcCallback` writes one line to `std::cout` and returns success. -/
theorem pmcCallback_matching_results {V : Type} [Add V] [NatCast V] (pmc_data : pmc_data_t)
    (st : PmcState V) (x : Nat) (hidx : calculate_xcc_index st.data = .ok x)
    (hnodup : st.data.results.Nodup)
    (hvalid : ∀ p ∈ st.data.results, ∃ a r, p = some a ∧ st.heap[a]? = some r) :
    (∀ e1 e2 : event_t, IsEventMatch e1 e2 = true ↔
      (e1.block_name = e2.block_name ∧ e1.block_index = e2.block_index ∧
        e1.counter_id = e2.counter_id)) ∧
    ((∀ (a : Nat) (r : results_t V), some a ∈ st.data.results → st.heap[a]? = some r →
        r.event = pmc_data.event → x < r.xcc_vals.length) →
      ∃ st1, pmcCallback .HSA_VEN_AMD_AQLPROFILE_INFO_PMC_DATA pmc_data st
          = .ok (.HSA_STATUS_SUCCESS, st1) ∧
        st1.cout = st.cout ∧
        ∀ (a : Nat) (r : results_t V), some a ∈ st.data.results → st.heap[a]? = some r →
          (r.event = pmc_data.event →
            ∃ y, r.xcc_vals[x]? = some y ∧
              st1.heap[a]? = some { r with
                xcc_vals := r.xcc_vals.set x (y + (pmc_data.result : V))
                val_double := r.val_double + (pmc_data.result : V) }) ∧
          (r.event ≠ pmc_data.event → st1.heap[a]? = some r)) ∧
    (∀ (before after : List Ptr) (a : Nat) (r : results_t V),
      st.data.results = before ++ some a :: after → st.heap[a]? = some r →
      r.event = pmc_data.event → r.xcc_vals.length ≤ x →
      (∀ (b : Nat) (rb : results_t V), some b ∈ before → st.heap[b]? = some rb →
        rb.event = pmc_data.event → x < rb.xcc_vals.length) →
      ∃ st1 line, pmcCallback .HSA_VEN_AMD_AQLPROFILE_INFO_PMC_DATA pmc_data st
          = .ok (.HSA_STATUS_SUCCESS, st1) ∧
        st1.cout = st.cout ++ [line] ∧
        st1.heap[a]? = some r ∧
        (∀ (b : Nat) (rb : results_t V), some b ∈ after → st.heap[b]? = some rb →
          st1.heap[b]? = some rb) ∧
        ∀ (b : Nat) (rb : results_t V), some b ∈ before → st.heap[b]? = some rb →
          (rb.event = pmc_data.event →
            ∃ y, rb.xcc_vals[x]? = some y ∧
              st1.heap[b]? = some { rb with
                xcc_vals := rb.xcc_vals.set x (y + (pmc_data.result : V))
                val_double := rb.val_double + (pmc_data.result : V) }) ∧
          (rb.event ≠ pmc_data.event → st1.heap[b]? = some rb)) := by
  have hmatch_of : ∀ r : results_t V, r.event = pmc_data.event →
      IsEventMatch pmc_data.event r.event = true :=
    fun r he => (IsEventMatch_iff _ _).mpr he.symm
  have hno_of : ∀ r : results_t V, r.event ≠ pmc_data.event →
      IsEventMatch pmc_data.event r.event = false := by
    intro r hne
    cases hm : IsEventMatch pmc_data.event r.event with
    | false => rfl
    | true => exact absurd ((IsEventMatch_iff _ _).mp hm).symm hne
  refine ⟨?_, ?_, ?_⟩
  · intro e1 e2
    simp only [IsEventMatch, Bool.and_eq_true, beq_iff_eq, and_assoc]
  · intro hrange
    obtain ⟨h1, hrun, hspec⟩ := pmcLoop_in_range pmc_data st.data x hidx st.data.results
      st.heap hnodup
      (by
        intro p hp
        obtain ⟨a, r, hpa, ha⟩ := hvalid p hp
        refine ⟨a, r, hpa, ha, fun hm => ?_⟩
        exact hrange a r (by rw [← hpa]; exact hp) ha ((IsEventMatch_iff _ _).mp hm).symm)
    refine ⟨_, by simp only [pmcCallback, hrun]; rfl, by simp, ?_⟩
    intro a r hmem ha
    obtain ⟨s1, s2⟩ := hspec a r ha
    exact ⟨fun he => s1 hmem (hmatch_of r he), fun hne => s2 (Or.inr (hno_of r hne))⟩
  · intro before after a r hsplit ha he hx hbefore
    have hnd : (before ++ some a :: after).Nodup := by rw [← hsplit]; exact hnodup
    have hnd_before : before.Nodup := (List.nodup_append.mp hnd).1
    have ha_before : some a ∉ before := by
      intro hmem
      exact (List.nodup_append.mp hnd).2.2 hmem (List.mem_cons_self _ _)
    have hdisj : ∀ b, some b ∈ after → some b ∉ before := by
      intro b hb hmem
      exact (List.nodup_append.mp hnd).2.2 hmem (List.mem_cons_of_mem _ hb)
    obtain ⟨h1, hrun, hspec⟩ := pmcLoop_in_range pmc_data st.data x hidx before st.heap
      hnd_before
      (by
        intro p hp
        obtain ⟨b, rb, hpb, hb⟩ := hvalid p (by rw [hsplit]; exact List.mem_append_left _ hp)
        refine ⟨b, rb, hpb, hb, fun hm => ?_⟩
        exact hbefore b rb (by rw [← hpb]; exact hp) hb ((IsEventMatch_iff _ _).mp hm).symm)
    have ha1 : h1[a]? = some r := (hspec a r ha).2 (Or.inl ha_before)
    have hloop : pmcLoop .HSA_VEN_AMD_AQLPROFILE_INFO_PMC_DATA pmc_data st.data
        st.data.results st.heap = .ok (h1, true) := by
      rw [hsplit]
      exact pmcLoop_append _ pmc_data st.data (some a :: after) before st.heap h1 _ hrun
        (pmcLoop_throws pmc_data st.data x hidx a r after h1 ha1 he hx)
    obtain ⟨line, hcb⟩ : ∃ line, pmcCallback .HSA_VEN_AMD_AQLPROFILE_INFO_PMC_DATA pmc_data st
        = .ok (.HSA_STATUS_SUCCESS,
            { heap := h1, data := { st.data with index := (st.data.index + 1) % UINT64_SIZE },
              cout := st.cout ++ [line] }) :=
      ⟨_, by simp only [pmcCallback, hloop]; rfl⟩
    refine ⟨_, line, hcb, rfl, ha1, ?_, ?_⟩
    · intro b rb hb hrb
      exact (hspec b rb hrb).2 (Or.inl (hdisj b hb))
    · intro b rb hb hrb
      obtain ⟨s1, s2⟩ := hspec b rb hrb
      exact ⟨fun heq => s1 hb (hmatch_of rb heq), fun hne => s2 (Or.inr (hno_of rb hne))⟩

theorem state_pair_valid (st : PmcState Int) (hh : st.heap = heap_pair)
    (hr : st.data.results = [some 0, some 1]) :
    ∀ p ∈ st.data.results, ∃ a r, p = some a ∧ st.heap[a]? = some r := by
  intro p hp
  rw [hr] at hp
  rw [hh]
  simp only [List.mem_cons, List.mem_singleton, List.not_mem_nil, or_false] at hp
  rcases hp with rfl | rfl
  · exact ⟨0, _, rfl, rfl⟩
  · exact ⟨1, _, rfl, rfl⟩

theorem pmcCallback_matching_results_witness :
    (calculate_xcc_index state_pair_in_range.data = .ok 1 ∧
      calculate_xcc_index state_pair_out_of_range.data = .ok 2 ∧
      state_pair_in_range.data.results.Nodup) ∧
    pmcCallback .HSA_VEN_AMD_AQLPROFILE_INFO_PMC_DATA ⟨⟨6, 0, 4⟩, 7⟩ state_pair_in_range
      = .ok (.HSA_STATUS_SUCCESS,
          { heap := [⟨"SQ_WAVES", ⟨6, 0, 4⟩, 12, [2, 10]⟩,
                     ⟨"SQ_BUSY_CYCLES", ⟨6, 0, 3⟩, 9, [4, 5]⟩],
            data := ⟨[some 0, some 1], 2, 1, 0⟩, cout := [] }) ∧
    (∃ st1, pmcCallback .HSA_VEN_AMD_AQLPROFILE_INFO_PMC_DATA ⟨⟨6, 0, 4⟩, 7⟩
          state_pair_in_range = .ok (.HSA_STATUS_SUCCESS, st1) ∧
      st1.cout = state_pair_in_range.cout ∧
      ∀ (a : Nat) (r : results_t Int), some a ∈ state_pair_in_range.data.results →
        state_pair_in_range.heap[a]? = some r →
        (r.event = ⟨6, 0, 4⟩ →
          ∃ y, r.xcc_vals[1]? = some y ∧
            st1.heap[a]? = some { r with
              xcc_vals := r.xcc_vals.set 1 (y + ((7 : Nat) : Int))
              val_double := r.val_double + ((7 : Nat) : Int) }) ∧
        (r.event ≠ ⟨6, 0, 4⟩ → st1.heap[a]? = some r)) ∧
    (∃ st1 line, pmcCallback .HSA_VEN_AMD_AQLPROFILE_INFO_PMC_DATA ⟨⟨6, 0, 3⟩, 7⟩
          state_pair_out_of_range = .ok (.HSA_STATUS_SUCCESS, st1) ∧
      st1.cout = state_pair_out_of_range.cout ++ [line] ∧
      st1.heap[1]? = some ⟨"SQ_BUSY_CYCLES", ⟨6, 0, 3⟩, 9, [4, 5]⟩ ∧
      st1.heap[0]? = some ⟨"SQ_WAVES", ⟨6, 0, 4⟩, 5, [2, 3]⟩) := by
  refine ⟨⟨rfl, rfl, by decide⟩, rfl, ?_, ?_⟩
  · refine (pmcCallback_matching_results ⟨⟨6, 0, 4⟩, 7⟩ state_pair_in_range 1 rfl (by decide)
      (state_pair_valid _ rfl rfl)).2.1 ?_
    intro a r hmem ha _
    simp only [state_pair_in_range, List.mem_cons, List.mem_singleton, Option.some.injEq,
      List.not_mem_nil, or_false] at hmem
    rcases hmem with rfl | rfl
    · have hr : r = ⟨"SQ_WAVES", ⟨6, 0, 4⟩, 5, [2, 3]⟩ := (Option.some.inj ha).symm
      rw [hr]; decide
    · have hr : r = ⟨"SQ_BUSY_CYCLES", ⟨6, 0, 3⟩, 9, [4, 5]⟩ := (Option.some.inj ha).symm
      rw [hr]; decide
  · obtain ⟨st1, line, hrun, hcout, ha, _, hbefore⟩ :=
      (pmcCallback_matching_results ⟨⟨6, 0, 3⟩, 7⟩ state_pair_out_of_range 2 rfl (by decide)
        (state_pair_valid _ rfl rfl)).2.2 [some 0] [] 1
        ⟨"SQ_BUSY_CYCLES", ⟨6, 0, 3⟩, 9, [4, 5]⟩ rfl rfl rfl (by decide)
        (by
          intro b rb hb hrb he
          have hb0 : b = 0 := Option.some.inj (List.mem_singleton.mp hb)
          subst hb0
          have hr : rb = ⟨"SQ_WAVES", ⟨6, 0, 4⟩, 5, [2, 3]⟩ := (Option.some.inj hrb).symm
          rw [hr] at he
          exact absurd he (by decide))
    exact ⟨st1, line, hrun, hcout, ha,
      (hbefore 0 ⟨"SQ_WAVES", ⟨6, 0, 4⟩, 5, [2, 3]⟩ (List.mem_singleton.mpr rfl) rfl).2
        (by decide)⟩

/-! ## Where the delivered values land for a single partition -/

/-- With one partition and no interconnect samples, iterating over pairs that fit the buffer
adds every delivered PMC value to slot 0 and to the total of each result of the list whose
event is the delivered event, and to nothing else. -/
theorem iterate_data_single_xcc_totals {V : Type} [Add V] [NatCast V] (L : List Ptr)
    (single : Nat) (hsingle : single < UINT32_SIZE) (hnodup : L.Nodup) :
    ∀ (delivered : List (hsa_ven_amd_aqlprofile_info_type_t × pmc_data_t)) (st : PmcState V),
      st.data.results = L → st.data.single_xcc_buff_size = single → st.data.umc_buff_size = 0 →
      st.data.index + delivered.length ≤ single → SlotZeroIsTotal L st.heap →
      ∃ st1, iterate_data delivered st = .ok st1 ∧
        ∀ (a : Nat) (r : results_t V), some a ∈ L → st.heap[a]? = some r →
          st1.heap[a]? = some { r with
            val_double := delivered_total r.event r.val_double delivered,
            xcc_vals := [delivered_total r.event r.val_double delivered] } := by
  intro delivered
  induction delivered with
  | nil =>
    intro st _ _ _ _ hg
    refine ⟨st, rfl, ?_⟩
    intro a r hmem ha
    obtain ⟨b, rb, hb, hrb, hslot⟩ := hg (some a) hmem
    simp only [Option.some.injEq] at hb
    subst hb
    rw [ha] at hrb
    simp only [Option.some.injEq] at hrb
    subst hrb
    rw [ha]
    simp only [delivered_total]
    rw [← hslot]
  | cons x rest ih =>
    intro st hres hsingle1 humc hlen hg
    obtain ⟨info_type, pmc_data⟩ := x
    simp only [List.length_cons] at hlen
    have hcd : calculate_xcc_index st.data = .ok 0 :=
      calculate_xcc_index_below st.data.results st.data.index
        st.data.single_xcc_buff_size st.data.umc_buff_size (by omega) (by omega)
    have hmod : (st.data.index + 1) % UINT64_SIZE = st.data.index + 1 := by
      apply Nat.mod_eq_of_lt
      have : UINT32_SIZE < UINT64_SIZE := by decide
      omega
    have hvalid : ∀ p ∈ L, ∃ a r, p = some a ∧ st.heap[a]? = some r := by
      intro p hp
      obtain ⟨a, r, hpa, ha, _⟩ := hg p hp
      exact ⟨a, r, hpa, ha⟩
    by_cases hty : info_type = .HSA_VEN_AMD_AQLPROFILE_INFO_PMC_DATA
    · subst hty
      obtain ⟨h1, hloop, hspec⟩ := pmcLoop_in_range pmc_data st.data 0 hcd L st.heap hnodup
        (by
          intro p hp
          obtain ⟨a, r, hpa, ha, hslot⟩ := hg p hp
          exact ⟨a, r, hpa, ha, fun _ => by rw [hslot]; exact Nat.zero_lt_one⟩)
      have hstep : ∀ (a : Nat) (r : results_t V), some a ∈ L → st.heap[a]? = some r →
          h1[a]? = some (if pmc_data.event = r.event then
            { r with val_double := r.val_double + (pmc_data.result : V),
                     xcc_vals := [r.val_double + (pmc_data.result : V)] } else r) := by
        intro a r hmem ha
        obtain ⟨b, rb, hb, hrb, hslot⟩ := hg (some a) hmem
        simp only [Option.some.injEq] at hb
        subst hb
        rw [ha] at hrb
        simp only [Option.some.injEq] at hrb
        subst hrb
        obtain ⟨s1, s2⟩ := hspec a r ha
        by_cases he : pmc_data.event = r.event
        · obtain ⟨y, hy, hset⟩ := s1 hmem ((IsEventMatch_iff _ _).mpr he)
          rw [hslot] at hy hset
          simp only [List.getElem?_cons_zero, Option.some.injEq] at hy
          subst hy
          rw [if_pos he, hset]
          simp only [List.set_cons_zero, hslot]
        · rw [if_neg he]
          apply s2
          right
          cases hm : IsEventMatch pmc_data.event r.event with
          | false => rfl
          | true => exact absurd ((IsEventMatch_iff _ _).mp hm) he
      obtain ⟨st2, hit, hfin⟩ := ih
        { heap := h1, data := { st.data with index := st.data.index + 1 }, cout := st.cout }
        hres hsingle1 humc (by simp only []; omega)
        (by
          intro p hp
          obtain ⟨a, r, hpa, ha, hslot⟩ := hg p hp
          subst hpa
          refine ⟨a, _, rfl, hstep a r hp ha, ?_⟩
          by_cases he : pmc_data.event = r.event
          · rw [if_pos he]
          · rw [if_neg he]; exact hslot)
      refine ⟨st2, ?_, ?_⟩
      · simp only [iterate_data, pmcCallback, hres, hloop, hmod, Bool.false_eq_true, if_false]
        rw [← hres]; exact hit
      · intro a r hmem ha
        have h2 := hfin a _ hmem (hstep a r hmem ha)
        rw [h2]
        by_cases he : pmc_data.event = r.event
        · simp only [if_pos he, delivered_total, true_and]
        · simp only [if_neg he, delivered_total, he, and_false, if_false]
    · have hloop := pmcLoop_no_match info_type pmc_data st.data st.heap st.data.results
        (by rw [hres]; exact hvalid) (Or.inl hty)
      obtain ⟨st2, hit, hfin⟩ := ih
        { heap := st.heap, data := { st.data with index := st.data.index + 1 },
          cout := st.cout }
        hres hsingle1 humc (by simp only []; omega) hg
      refine ⟨st2, ?_, ?_⟩
      · simp only [iterate_data, pmcCallback, hloop, hmod, Bool.false_eq_true, if_false]
        exact hit
      · intro a r hmem ha
        rw [hfin a r hmem ha]
        simp only [delivered_total, hty, false_and, if_false]

/-- C2: with `xcc_count = 1`, for a buffer that holds the delivered 8-byte samples and results
as the constructor leaves them, `GetCounterData` returns, every delivered pair is handled with
partition id 0 (no access is out of range and nothing is printed), and afterwards the
partition-0 value of every result of the list equals its total; when the list holds distinct
pointers, both are what the delivered pairs add up to for the event of the result: every
delivered PMC value has been added to slot 0 and to the total of each result whose event is
the delivered event, and to no other result. -/
theorem GetCounterData_single_xcc {V : Type} [Add V] [NatCast V] (UMC : Nat)
    (profile : profile_t) (delivered : List (hsa_ven_amd_aqlprofile_info_type_t × pmc_data_t))
    (hw_status : hsa_status_t) (results_list : List Ptr) (heap : Heap V)
    (hsize : profile.output_buffer_size < UINT32_SIZE)
    (hbuf : 8 * delivered.length ≤ profile.output_buffer_size)
    (hfresh : ∀ p ∈ results_list, ∃ a r, p = some a ∧ heap[a]? = some r ∧ results_t.fresh 1 r) :
    get_umc_and_xcc_sample_count UMC profile 1 = .ok (profile.output_buffer_size / 8, 0) ∧
    (∀ before x after, delivered = before ++ x :: after →
      ∃ st, iterate_data before
          { heap := heap, data := ⟨results_list, 0, profile.output_buffer_size / 8, 0⟩,
            cout := [] } = .ok st ∧
        st.data.index = before.length ∧ calculate_xcc_index st.data = .ok 0) ∧
    ∃ st, GetCounterData UMC 1 profile delivered hw_status results_list heap
        = .ok (decide (hw_status = .HSA_STATUS_SUCCESS), st) ∧
      st.cout = [] ∧
      (∀ p ∈ results_list, ∃ a r, p = some a ∧ st.heap[a]? = some r ∧
        r.xcc_vals[0]? = some r.val_double) ∧
      (results_list.Nodup → ∀ (a : Nat) (r : results_t V), some a ∈ results_list →
        heap[a]? = some r →
        st.heap[a]? = some { r with
          val_double := delivered_total r.event ((0 : Nat) : V) delivered,
          xcc_vals := [delivered_total r.event ((0 : Nat) : V) delivered] }) := by
  have humc := get_umc_and_xcc_sample_count_one UMC profile hsize
  have hsingle : profile.output_buffer_size / 8 < UINT32_SIZE :=
    lt_of_le_of_lt (Nat.div_le_self _ _) hsize
  have hlen : delivered.length ≤ profile.output_buffer_size / 8 := by
    rw [Nat.le_div_iff_mul_le (by decide)]; omega
  have hg : SlotZeroIsTotal results_list heap := by
    intro p hp
    obtain ⟨a, r, hpa, ha, hr⟩ := hfresh p hp
    refine ⟨a, r, hpa, ha, ?_⟩
    unfold results_t.fresh at hr
    rw [hr]; rfl
  refine ⟨humc, ?_, ?_⟩
  · intro before x after hd
    have hb : before.length < delivered.length := by
      rw [hd]; simp
    obtain ⟨st, hit, _, hdata, _⟩ := iterate_data_slot_zero results_list
      (profile.output_buffer_size / 8) hsingle before
      { heap := heap, data := ⟨results_list, 0, profile.output_buffer_size / 8, 0⟩, cout := [] }
      rfl rfl rfl (by simp only []; omega) hg
    refine ⟨st, hit, by rw [hdata]; simp, ?_⟩
    rw [hdata]
    exact calculate_xcc_index_below _ _ _ _ (by simp only []; omega) (by simp only []; omega)
  · obtain ⟨st, hit, hg1, _, hcout⟩ := iterate_data_slot_zero results_list
      (profile.output_buffer_size / 8) hsingle delivered
      { heap := heap, data := ⟨results_list, 0, profile.output_buffer_size / 8, 0⟩, cout := [] }
      rfl rfl rfl (by simp only []; omega) hg
    refine ⟨st, ?_, hcout, ?_, ?_⟩
    · simp only [GetCounterData, humc, hit]
    · intro p hp
      obtain ⟨a, r, hpa, ha, hr⟩ := hg1 p hp
      exact ⟨a, r, hpa, ha, by rw [hr]; rfl⟩
    · intro hnodup a r hmem ha
      obtain ⟨st1, hit1, hfin⟩ := iterate_data_single_xcc_totals results_list
        (profile.output_buffer_size / 8) hsingle hnodup delivered
        { heap := heap, data := ⟨results_list, 0, profile.output_buffer_size / 8, 0⟩,
          cout := [] }
        rfl rfl rfl (by simp only []; omega) hg
      rw [hit] at hit1
      simp only [Except.ok.injEq] at hit1
      subst hit1
      obtain ⟨b, rb, hb, hrb, hfr⟩ := hfresh (some a) hmem
      simp only [Option.some.injEq] at hb
      subst hb
      rw [ha] at hrb
      simp only [Option.some.injEq] at hrb
      subst hrb
      have hzero : r.val_double = ((0 : Nat) : V) := by
        unfold results_t.fresh at hfr
        rw [hfr]; rfl
      have := hfin a r hmem ha
      rw [hzero] at this
      exact this

theorem GetCounterData_single_xcc_witness :
    ((24 : Nat) < UINT32_SIZE ∧ 8 * 3 ≤ 24) ∧
    GetCounterData 32 1 ⟨[⟨6, 0, 4⟩, ⟨6, 0, 3⟩], 24⟩
        [(.HSA_VEN_AMD_AQLPROFILE_INFO_PMC_DATA, ⟨⟨6, 0, 4⟩, 7⟩),
         (.HSA_VEN_AMD_AQLPROFILE_INFO_PMC_DATA, ⟨⟨6, 0, 3⟩, 2⟩),
         (.HSA_VEN_AMD_AQLPROFILE_INFO_PMC_DATA, ⟨⟨6, 0, 4⟩, 5⟩)]
        .HSA_STATUS_SUCCESS [some 0, some 1]
        [(results_t.new "SQ_WAVES" ⟨6, 0, 4⟩ 1 : results_t Int),
         results_t.new "SQ_BUSY_CYCLES" ⟨6, 0, 3⟩ 1]
      = .ok (true,
          { heap := [⟨"SQ_WAVES", ⟨6, 0, 4⟩, 12, [12]⟩, ⟨"SQ_BUSY_CYCLES", ⟨6, 0, 3⟩, 2, [2]⟩],
            data := ⟨[some 0, some 1], 3, 3, 0⟩, cout := [] }) ∧
    ∃ st, GetCounterData 32 1 ⟨[⟨6, 0, 4⟩, ⟨6, 0, 3⟩], 24⟩
        [(.HSA_VEN_AMD_AQLPROFILE_INFO_PMC_DATA, ⟨⟨6, 0, 4⟩, 7⟩),
         (.HSA_VEN_AMD_AQLPROFILE_INFO_PMC_DATA, ⟨⟨6, 0, 3⟩, 2⟩),
         (.HSA_VEN_AMD_AQLPROFILE_INFO_PMC_DATA, ⟨⟨6, 0, 4⟩, 5⟩)]
        .HSA_STATUS_SUCCESS [some 0, some 1]
        [(results_t.new "SQ_WAVES" ⟨6, 0, 4⟩ 1 : results_t Int),
         results_t.new "SQ_BUSY_CYCLES" ⟨6, 0, 3⟩ 1]
        = .ok (decide (hsa_status_t.HSA_STATUS_SUCCESS = .HSA_STATUS_SUCCESS), st) ∧
      st.cout = [] ∧
      (∀ p ∈ [some 0, some 1], ∃ a r, p = some a ∧ st.heap[a]? = some r ∧
        r.xcc_vals[0]? = some r.val_double) ∧
      ([some 0, some 1].Nodup → ∀ (a : Nat) (r : results_t Int), some a ∈ [some 0, some 1] →
        [(results_t.new "SQ_WAVES" ⟨6, 0, 4⟩ 1 : results_t Int),
         results_t.new "SQ_BUSY_CYCLES" ⟨6, 0, 3⟩ 1][a]? = some r →
        st.heap[a]? = some { r with
          val_double := delivered_total r.event ((0 : Nat) : Int)
            [(.HSA_VEN_AMD_AQLPROFILE_INFO_PMC_DATA, ⟨⟨6, 0, 4⟩, 7⟩),
             (.HSA_VEN_AMD_AQLPROFILE_INFO_PMC_DATA, ⟨⟨6, 0, 3⟩, 2⟩),
             (.HSA_VEN_AMD_AQLPROFILE_INFO_PMC_DATA, ⟨⟨6, 0, 4⟩, 5⟩)],
          xcc_vals := [delivered_total r.event ((0 : Nat) : Int)
            [(.HSA_VEN_AMD_AQLPROFILE_INFO_PMC_DATA, ⟨⟨6, 0, 4⟩, 7⟩),
             (.HSA_VEN_AMD_AQLPROFILE_INFO_PMC_DATA, ⟨⟨6, 0, 3⟩, 2⟩),
             (.HSA_VEN_AMD_AQLPROFILE_INFO_PMC_DATA, ⟨⟨6, 0, 4⟩, 5⟩)]] }) :=
  ⟨⟨by decide, by decide⟩, rfl,
    (GetCounterData_single_xcc 32 ⟨[⟨6, 0, 4⟩, ⟨6, 0, 3⟩], 24⟩
      [(.HSA_VEN_AMD_AQLPROFILE_INFO_PMC_DATA, ⟨⟨6, 0, 4⟩, 7⟩),
       (.HSA_VEN_AMD_AQLPROFILE_INFO_PMC_DATA, ⟨⟨6, 0, 3⟩, 2⟩),
       (.HSA_VEN_AMD_AQLPROFILE_INFO_PMC_DATA, ⟨⟨6, 0, 4⟩, 5⟩)]
      .HSA_STATUS_SUCCESS [some 0, some 1]
      [(results_t.new "SQ_WAVES" ⟨6, 0, 4⟩ 1 : results_t Int),
       results_t.new "SQ_BUSY_CYCLES" ⟨6, 0, 3⟩ 1]
      (by decide) (by decide)
      (by
        intro p hp
        simp only [List.mem_cons, List.mem_singleton, List.not_mem_nil, or_false] at hp
        rcases hp with rfl | rfl
        · exact ⟨0, results_t.new "SQ_WAVES" ⟨6, 0, 4⟩ 1, rfl, rfl, rfl⟩
        · exact ⟨1, results_t.new "SQ_BUSY_CYCLES" ⟨6, 0, 3⟩ 1, rfl, rfl, rfl⟩)).2.2⟩

/-! ## The elapsed time of `KERNEL_DURATION` -/

theorem double.log2_bounds : ∀ (fuel n : Nat), 0 < n → n ≤ fuel →
    2 ^ double.log2 fuel n ≤ n ∧ n < 2 ^ (double.log2 fuel n + 1) := by
  intro fuel
  induction fuel with
  | zero => intro n h0 h1; omega
  | succ fuel ih =>
    intro n h0 h1
    unfold double.log2
    by_cases h2 : n < 2
    · rw [if_pos h2]; simp only [pow_zero, zero_add, pow_one]; omega
    · rw [if_neg h2]
      obtain ⟨ha, hb⟩ := ih (n / 2) (by omega) (by omega)
      constructor
      · rw [pow_succ]; omega
      · rw [pow_succ]; omega

theorem double.log2_pow : ∀ (k fuel : Nat), k ≤ fuel → double.log2 fuel (2 ^ k) = k := by
  intro k
  induction k with
  | zero =>
    intro fuel _
    cases fuel with
    | zero => rfl
    | succ fuel => simp [double.log2]
  | succ k ih =>
    intro fuel hk
    cases fuel with
    | zero => omega
    | succ fuel =>
      unfold double.log2
      have h2 : ¬ (2 ^ (k + 1) < 2) := by
        have : 0 < 2 ^ k := Nat.two_pow_pos _
        rw [pow_succ]; omega
      rw [if_neg h2]
      have hdiv : 2 ^ (k + 1) / 2 = 2 ^ k := by
        rw [pow_succ]; exact Nat.mul_div_cancel _ (by decide)
      rw [hdiv, ih fuel (by omega)]

/-- A finite double built from a multiple `m` of `2^j` with the exponent `-j` has the integer
value `m / 2^j`. -/
theorem double.normal_toNat (m j : Nat) (hm : 0 < m) (hlt : m < 2 ^ 64) (hj : 2 ^ j ∣ m) :
    (double.normal false m (-(j : Int))).toNat? = some (m / 2 ^ j) := by
  obtain ⟨k, hk, hg⟩ := (Nat.dvd_prime_pow Nat.prime_two).mp (Nat.gcd_dvd_right m (2 ^ 64))
  have hkm : 2 ^ k ∣ m := by rw [← hg]; exact Nat.gcd_dvd_left _ _
  have hj64 : j ≤ 64 := by
    by_contra hcon
    have h1 : 2 ^ 64 < 2 ^ j := Nat.pow_lt_pow_right (by decide) (by omega)
    have h2 : 2 ^ j ≤ m := Nat.le_of_dvd hm hj
    omega
  have hjk : j ≤ k := by
    have : 2 ^ j ∣ 2 ^ k := by
      rw [← hg]; exact Nat.dvd_gcd hj (Nat.pow_dvd_pow 2 hj64)
    exact (Nat.pow_dvd_pow_iff_le_right (by decide)).mp this
  have ht : double.log2 64 (Nat.gcd m (2 ^ 64)) = k := by
    rw [hg]; exact double.log2_pow k 64 hk
  obtain ⟨c, hc⟩ := hkm
  have hpos : 0 < 2 ^ k := Nat.two_pow_pos _
  have hposj : 0 < 2 ^ j := Nat.two_pow_pos _
  have hsplit : 2 ^ k = 2 ^ j * 2 ^ (k - j) := by
    rw [← pow_add]; congr 1; omega
  have he : (-(j : Int) + (k : Int)).toNat = k - j := by omega
  have hnn : 0 ≤ -(j : Int) + (k : Int) := by omega
  simp only [double.normal, Nat.ne_of_gt hm, if_false, ht, double.toNat?, hnn, if_true, he,
    Option.some.injEq]
  rw [hc, Nat.mul_div_cancel_left _ hpos, hsplit, Nat.mul_assoc,
    Nat.mul_div_cancel_left _ hposj, Nat.mul_comm]

/-- The conversion of a `uint64_t` up to `2^53` to `double` is exact. -/
theorem double.natCast_exact (d : Nat) (hd : d ≤ 2 ^ 53) :
    ((d : Nat) : double).toNat? = some d := by
  by_cases h0 : d = 0
  · subst h0; rfl
  by_cases h53 : d = 2 ^ 53
  · subst h53; rfl
  have hpos : 0 < d := Nat.pos_of_ne_zero h0
  have hlt : d < 2 ^ 53 := by omega
  obtain ⟨ha, hb⟩ := double.log2_bounds d d hpos (le_refl d)
  generalize hA : double.log2 d d = a at ha hb
  have ha52 : a ≤ 52 := by
    by_contra hcon
    have : 2 ^ 53 ≤ 2 ^ a := Nat.pow_le_pow_right (by decide) (by omega)
    omega
  have hone : double.log2 1 1 = 0 := rfl
  have hm_lt : d * 2 ^ (52 - a) < 2 ^ 53 := by
    have h1 : d * 2 ^ (52 - a) < 2 ^ (a + 1) * 2 ^ (52 - a) :=
      Nat.mul_lt_mul_of_pos_right hb (Nat.two_pow_pos _)
    have h2 : 2 ^ (a + 1) * 2 ^ (52 - a) = 2 ^ 53 := by
      rw [← pow_add]; congr 1; omega
    omega
  have hm_pos : 0 < d * 2 ^ (52 - a) := Nat.mul_pos hpos (Nat.two_pow_pos _)
  have hround : ((d : Nat) : double)
      = double.normal false (d * 2 ^ (52 - a)) (-((52 - a : Nat) : Int)) := by
    show double.round false d 1 = _
    have hl1 : ((a : Int) - ((0 : Nat) : Int)).toNat = a := by omega
    have hl2 : (-((a : Int) - ((0 : Nat) : Int))).toNat = 0 := by omega
    have hmax : max ((a : Int) - ((0 : Nat) : Int) - 52) (-1074) = -((52 - a : Nat) : Int) := by
      omega
    have he1 : (-(-((52 - a : Nat) : Int))).toNat = 52 - a := by omega
    have he2 : (-((52 - a : Nat) : Int)).toNat = 0 := by omega
    have hcond : 1 * 2 ^ a ≤ d := by omega
    have hne : d * 2 ^ (52 - a) ≠ 2 ^ 53 := by omega
    have hnot : ¬ (-((52 - a : Nat) : Int) + 0 > 971) := by omega
    simp only [double.round, h0, false_or, hone, hA, one_ne_zero, if_false, hl1, hl2, hcond,
      if_true, hmax, he1, he2, pow_zero, mul_one, Nat.div_one, Nat.mod_one, mul_zero,
      Nat.not_lt_zero, zero_ne_one, false_and, or_self, hne, hnot]
  rw [hround, double.normal_toNat _ _ hm_pos (by omega) (Dvd.intro_left _ rfl),
    Nat.mul_div_cancel _ (Nat.two_pow_pos _)]

/-- A `KERNEL_DURATION` metric without an expression is skipped by the loop of
`GetMetricsData`, whose assignment sits inside `if (expr)`: the call with elapsed time 7
returns and leaves the value 0 of the `KERNEL_DURATION` result. -/
theorem GetMetricsData_kernel_duration_without_expr :
    ∃ heap1, GetMetricsData heap_AB results_map_AB [metric_KERNEL_DURATION_plain] 7
        = .ok (true, heap1) ∧
      StdMap.find results_map_AB "KERNEL_DURATION" = some (some 3) ∧
      Heap.val heap1 3 = some 0 ∧ Heap.val heap1 3 ≠ some ((7 : Nat) : Int) :=
  ⟨_, rfl, rfl, rfl, by decide⟩

/-- For every value type: when the `KERNEL_DURATION` metric of the metrics list carries an
expression, the list is resolvable and no other metric with an expression shares the
`KERNEL_DURATION` result, `GetMetricsData` and `GetCountersAndMetricResultsByXcc` called with
the elapsed time `d` return and leave the conversion of `d` to the value type as the value of
the `KERNEL_DURATION` result. -/
theorem kernel_duration_stored {V : Type} [Add V] [Sub V] [Mul V] [Div V]
    [NatCast V] (heap : Heap V) (results_map : StdMap String Ptr)
    (metrics_list : List (Metric V)) (d : Nat) (K : Metric V) (c : Nat)
    (hK : K ∈ metrics_list) (hKn : K.name = "KERNEL_DURATION") (hKe : K.expr ≠ none)
    (hC : StdMap.find results_map "KERNEL_DURATION" = some (some c))
    (hres : Resolvable heap results_map metrics_list)
    (hsep : ∀ N ∈ metrics_list, N.expr ≠ none → N.name ≠ "KERNEL_DURATION" →
      StdMap.find results_map N.name ≠ some (some c)) :
    (∃ heap1, GetMetricsData heap results_map metrics_list d = .ok (true, heap1) ∧
      Heap.val heap1 c = some (d : V)) ∧
    (∀ (p : Nat) (results_list : List Ptr), InRange p heap results_list →
      InRange p heap (results_map.map Prod.snd) →
      ∃ heap1, GetCountersAndMetricResultsByXcc p heap results_list results_map metrics_list d
          = .ok heap1 ∧
        Heap.val heap1 c = some (d : V)) := by
  constructor
  · obtain ⟨h1, hrun, _, hv⟩ :=
      evalMetrics_kernel_duration heap results_map metrics_list d K c hK hKn hKe hC hres hsep
        heap (SameButVal_refl heap)
    exact ⟨h1, by simp only [GetMetricsData, hrun], hv⟩
  · intro p results_list hlist hmap
    obtain ⟨h1, h2, hrun1, hrun2, hs2, _⟩ :=
      copy_loops_spec p heap results_list results_map hlist hmap
    obtain ⟨h3, hrun3, _, hv⟩ :=
      evalMetrics_kernel_duration heap results_map metrics_list d K c hK hKn hKe hC hres hsep
        h2 hs2
    exact ⟨h3, by simp only [GetCountersAndMetricResultsByXcc, hrun1, hrun2, GetMetricsData,
      hrun3], hv⟩

/-- C8, as stated, fails: `val_double` is a `double`, and the assignment
`res->val_double = kernel_duration` converts the `uint64_t`; for the elapsed time
`2^53 + 1 = 9007199254740993` the call returns and the value of the `KERNEL_DURATION` result
is the double `2^53 = 9007199254740992`, not the elapsed time. -/
theorem GetMetricsData_kernel_duration_rounded :
    StdMap.find results_map_KD "KERNEL_DURATION" = some (some 1) ∧
    metric_KD ∈ metrics_list_KD ∧
    ∃ heap1, GetMetricsData heap_KD results_map_KD metrics_list_KD 9007199254740993
        = .ok (true, heap1) ∧
      Heap.val heap1 1 = some (double.fin false 1 53) ∧
      (Heap.val heap1 1).bind double.toNat? = some 9007199254740992 ∧
      (Heap.val heap1 1).bind double.toNat? ≠ some 9007199254740993 :=
  ⟨rfl, by decide, _, rfl, rfl, rfl, by decide⟩

/-- C8, amended: when the `KERNEL_DURATION` metric of the metrics list carries an expression,
the list is resolvable and no other metric with an expression shares the `KERNEL_DURATION`
result, `GetMetricsData` called with the elapsed time `d` returns and leaves `(double)d`, the
double nearest to `d`, as the value of the `KERNEL_DURATION` result, whatever the results
hold; this value is `d` itself whenever `d <= 2^53`.  So does
`GetCountersAndMetricResultsByXcc` called with `d` for a partition index for which every
result has a value. -/
theorem kernel_duration_is_elapsed_time (heap : Heap double) (results_map : StdMap String Ptr)
    (metrics_list : List (Metric double)) (d : Nat) (K : Metric double) (c : Nat)
    (hK : K ∈ metrics_list) (hKn : K.name = "KERNEL_DURATION") (hKe : K.expr ≠ none)
    (hC : StdMap.find results_map "KERNEL_DURATION" = some (some c))
    (hres : Resolvable heap results_map metrics_list)
    (hsep : ∀ N ∈ metrics_list, N.expr ≠ none → N.name ≠ "KERNEL_DURATION" →
      StdMap.find results_map N.name ≠ some (some c)) :
    (∃ heap1, GetMetricsData heap results_map metrics_list d = .ok (true, heap1) ∧
      Heap.val heap1 c = some (double.round false d 1) ∧
      (d ≤ 2 ^ 53 → (Heap.val heap1 c).bind double.toNat? = some d)) ∧
    (∀ (p : Nat) (results_list : List Ptr), InRange p heap results_list →
      InRange p heap (results_map.map Prod.snd) →
      ∃ heap1, GetCountersAndMetricResultsByXcc p heap results_list results_map metrics_list d
          = .ok heap1 ∧
        Heap.val heap1 c = some (double.round false d 1) ∧
        (d ≤ 2 ^ 53 → (Heap.val heap1 c).bind double.toNat? = some d)) := by
  have hexact : ∀ (v : Option double), v = some ((d : Nat) : double) → d ≤ 2 ^ 53 →
      v.bind double.toNat? = some d := by
    intro v hv hd
    rw [hv]
    exact double.natCast_exact d hd
  obtain ⟨h1, h2⟩ := kernel_duration_stored heap results_map metrics_list d K c hK hKn hKe hC
    hres hsep
  constructor
  · obtain ⟨heap1, hrun, hv⟩ := h1
    exact ⟨heap1, hrun, hv, hexact _ hv⟩
  · intro p results_list hlist hmap
    obtain ⟨heap1, hrun, hv⟩ := h2 p results_list hlist hmap
    exact ⟨heap1, hrun, hv, hexact _ hv⟩

theorem Resolvable_KD : Resolvable heap_KD results_map_KD metrics_list_KD := by
  intro N hN e he
  simp only [metrics_list_KD, List.mem_cons, List.mem_singleton, List.not_mem_nil,
    or_false] at hN
  rcases hN with rfl | rfl
  · cases he
  · exact ⟨⟨1, rfl, by decide⟩, fun hk => absurd rfl hk⟩

theorem separate_KD : ∀ N ∈ metrics_list_KD, N.expr ≠ none → N.name ≠ "KERNEL_DURATION" →
    StdMap.find results_map_KD N.name ≠ some (some 1) := by
  intro N hN he hk
  simp only [metrics_list_KD, List.mem_cons, List.mem_singleton, List.not_mem_nil,
    or_false] at hN
  rcases hN with rfl | rfl
  · exact absurd rfl he
  · exact absurd rfl hk

theorem kernel_duration_is_elapsed_time_witness :
    (∃ heap1, GetMetricsData heap_KD results_map_KD metrics_list_KD 7 = .ok (true, heap1) ∧
      Heap.val heap1 1 = some (double.fin false 7 0) ∧
      (Heap.val heap1 1).bind double.toNat? = some 7) ∧
    (∃ heap1, GetCountersAndMetricResultsByXcc 0 heap_KD [some 0] results_map_KD
        metrics_list_KD 9007199254740993 = .ok heap1 ∧
      Heap.val heap1 1 = some (double.fin false 1 53)) := by
  constructor
  · obtain ⟨heap1, hrun, hv, hexact⟩ :=
      (kernel_duration_is_elapsed_time heap_KD results_map_KD metrics_list_KD 7 metric_KD 1
        (by decide) rfl (by decide) rfl Resolvable_KD separate_KD).1
    exact ⟨heap1, hrun, hv, hexact (by decide)⟩
  · obtain ⟨heap1, hrun, hv, _⟩ :=
      (kernel_duration_is_elapsed_time heap_KD results_map_KD metrics_list_KD
        9007199254740993 metric_KD 1 (by decide) rfl (by decide) rfl Resolvable_KD
        separate_KD).2 0 [some 0]
        (by
          intro q hq
          rw [List.mem_singleton] at hq
          exact ⟨0, _, hq, rfl, by decide⟩)
        (by
          intro q hq
          simp only [results_map_KD, List.map_cons, List.map_nil, List.mem_cons,
            List.mem_singleton, List.not_mem_nil, or_false] at hq
          rcases hq with rfl | rfl
          · exact ⟨1, _, rfl, rfl, by decide⟩
          · exact ⟨0, _, rfl, rfl, by decide⟩)
    exact ⟨heap1, hrun, hv⟩

end rocprofiler
